import Mathlib

/-! The package-processing pipeline of createrepo_as.

A shallow embedding of `src/cra-main.c`, `src/cra-package.c` and
`src/plugins/cra-plugin-font.c`, and the properties of the pipeline proved
over it.  C strings are `String`, a `NULL` string is `none`, a `GList` or
`GPtrArray` is a `List`, and an object pointer stored in a container is the
index of the object in the array that owns it.
-/

namespace Createrepo

/-! ## Package model -/

/-- The package object: the fields of `CraPackagePrivate` that the pipeline
reads, and the `enabled` flag that `cra_package_set_enabled` writes. -/
structure CraPackage where
  filename : String
  name : Option String
  epoch : Nat
  version : String
  release : String
  arch : String
  url : Option String
  license : Option String
  filelist : Option (List String)
  enabled : Bool
deriving DecidableEq, Repr

/-- The setter `cra_package_set_enabled (pkg, enabled)`. -/
def cra_package_set_enabled (pkg : CraPackage) (e : Bool) : CraPackage :=
  { pkg with enabled := e }

/-- The getter `cra_package_get_name`. -/
def cra_package_get_name (pkg : CraPackage) : Option String := pkg.name

/-! ## The `newest` hash table of `cra_context_disable_older_packages`

`g_hash_table_new_full (g_str_hash, g_str_equal, ...)`: keys are compared as
strings, a value is a package pointer, here the index of the package in
`ctx->packages`. -/

/-- The table as an association list with at most one entry per key. -/
abbrev GHashTable := List (String × Nat)

/-- Table lookup `g_hash_table_lookup`: `none` is `NULL`. -/
def g_hash_table_lookup : GHashTable → String → Option Nat
  | [], _ => none
  | (k, v) :: t, key => if k = key then some v else g_hash_table_lookup t key

/-- Table insertion `g_hash_table_insert`: an existing entry of the key is replaced. -/
def g_hash_table_insert (h : GHashTable) (key : String) (v : Nat) : GHashTable :=
  (key, v) :: h.filter (fun e => !decide (e.1 = key))

/-- The two variables the loop of `cra_context_disable_older_packages`
updates: the package array and the `newest` table. -/
structure DisableState where
  packages : List CraPackage
  newest : GHashTable
deriving DecidableEq, Repr

/-- One iteration of the loop at cra-main.c:603-617, for index `i`.
`compare` is `cra_package_compare`; `found` is the package the table holds
for the name, at an index of the array. -/
def disable_older_step (compare : CraPackage → CraPackage → Int)
    (st : DisableState) (i : Nat) : DisableState :=
  match st.packages[i]? with
  | none => st
  | some pkg =>
    match cra_package_get_name pkg with
    | none => st
    | some key =>
      match g_hash_table_lookup st.newest key with
      | some f =>
        match st.packages[f]? with
        | none => st
        | some found =>
          if compare pkg found < 0 then
            { st with packages := st.packages.set i (cra_package_set_enabled pkg false) }
          else
            { packages := st.packages.set f (cra_package_set_enabled found false),
              newest := g_hash_table_insert st.newest key i }
      | none => { st with newest := g_hash_table_insert st.newest key i }

/-- The loop after its first `n` iterations. -/
def disable_older_loop (compare : CraPackage → CraPackage → Int)
    (packages : List CraPackage) (n : Nat) : DisableState :=
  (List.range n).foldl (disable_older_step compare) ⟨packages, []⟩

/-- The function `cra_context_disable_older_packages` (cra-main.c:592-619):
the package array of the context after the call. -/
def cra_context_disable_older_packages (compare : CraPackage → CraPackage → Int)
    (packages : List CraPackage) : List CraPackage :=
  (disable_older_loop compare packages packages.length).packages


/-- A three-way comparison (negative, zero, positive) is a total preorder:
the sign of `c a b` is the opposite of the sign of `c b a`, and "not
greater" is transitive. -/
structure IsTotalPreorderCmp {α : Type} (c : α → α → Int) : Prop where
  antisymm : ∀ a b, c a b < 0 ↔ 0 < c b a
  trans : ∀ a b d, c a b ≤ 0 → c b d ≤ 0 → c a d ≤ 0

/-- The loop invariant of `cra_context_disable_older_packages` after `n`
iterations over the array `ps0` given on entry. -/
structure DisableInv (compare : CraPackage → CraPackage → Int)
    (ps0 : List CraPackage) (n : Nat) (st : DisableState) : Prop where
  len : st.packages.length = ps0.length
  later : ∀ (j : Nat), n ≤ j → st.packages[j]? = ps0[j]?
  shape : ∀ (j : Nat) p0, ps0[j]? = some p0 →
    st.packages[j]? = some p0 ∨ st.packages[j]? = some (cra_package_set_enabled p0 false)
  newest_ok : ∀ k (m : Nat), g_hash_table_lookup st.newest k = some m →
    m < n ∧ ∃ pm, ps0[m]? = some pm ∧ pm.name = some k ∧ st.packages[m]? = some pm
  covered : ∀ (j : Nat) p0 k, j < n → ps0[j]? = some p0 → p0.name = some k →
    ∃ m pm, g_hash_table_lookup st.newest k = some m ∧ ps0[m]? = some pm ∧
      (j ≠ m → st.packages[j]? = some (cra_package_set_enabled p0 false)) ∧
      (m < j → compare p0 pm < 0) ∧
      (IsTotalPreorderCmp compare → compare p0 pm ≤ 0)
  unnamed : ∀ (j : Nat) p0, ps0[j]? = some p0 → p0.name = none → st.packages[j]? = some p0

/-! ## The version comparison -/

/-- Three-way comparison of two numbers: -1, 0 or 1. -/
def cmp_nat (a b : Nat) : Int :=
  if a < b then -1 else if b < a then 1 else 0

/-- Three-way lexical comparison of two lists under the element comparison
`c`; a proper prefix is the smaller list. -/
def cmp_list {α : Type} (c : α → α → Int) : List α → List α → Int
  | [], [] => 0
  | [], _ :: _ => -1
  | _ :: _, [] => 1
  | a :: as, b :: bs => if c a b ≠ 0 then c a b else cmp_list c as bs

/-- Three-way comparison of two characters by code point. -/
def cmp_char (a b : Char) : Int := cmp_nat a.toNat b.toNat

/-- A component of a version string: a run of digits, read as a number, or a
run of other characters. -/
inductive VerSegment where
  | num (n : Nat)
  | str (s : List Char)
deriving DecidableEq, Repr

/-- Splits the characters into maximal digit and non-digit runs; `cur` is the
run being read. -/
def ver_segments_from : Option VerSegment → List Char → List VerSegment
  | none, [] => []
  | some seg, [] => [seg]
  | none, c :: cs =>
    if c.isDigit then ver_segments_from (some (.num (c.toNat - '0'.toNat))) cs
    else ver_segments_from (some (.str [c])) cs
  | some (.num n), c :: cs =>
    if c.isDigit then ver_segments_from (some (.num (10 * n + (c.toNat - '0'.toNat)))) cs
    else .num n :: ver_segments_from (some (.str [c])) cs
  | some (.str s), c :: cs =>
    if c.isDigit then .str s :: ver_segments_from (some (.num (c.toNat - '0'.toNat))) cs
    else ver_segments_from (some (.str (s ++ [c]))) cs

/-- The components of a version or release string. -/
def ver_segments (s : String) : List VerSegment := ver_segments_from none s.data

/-- Comparison of two components: digit runs as integers, non-digit runs
lexically.  The spec leaves a digit run against a non-digit run open; here
the digit run is the larger. -/
def cmp_segment : VerSegment → VerSegment → Int
  | .num a, .num b => cmp_nat a b
  | .str a, .str b => cmp_list cmp_char a b
  | .num _, .str _ => 1
  | .str _, .num _ => -1

/-- Component-wise, numeric-aware comparison of two version strings. -/
def vercmp (a b : String) : Int :=
  cmp_list cmp_segment (ver_segments a) (ver_segments b)

/-- Modelled from the spec: `cra_package_compare`, which cra-main.c:610 calls
and no file under src/ defines.  The spec (4.1): "`compare(a, b)` orders by
epoch, then version, then release using a component-wise, numeric-aware
comparison (digit runs compared as integers, non-digit runs compared
lexically) - ties break on nothing further (equal)". -/
def cra_package_compare (a b : CraPackage) : Int :=
  if cmp_nat a.epoch b.epoch ≠ 0 then cmp_nat a.epoch b.epoch
  else if vercmp a.version b.version ≠ 0 then vercmp a.version b.version
  else vercmp a.release b.release


/-- A package as `cra_package_open` leaves it, for the concrete inputs below:
no epoch, architecture `noarch`, no URL, licence or file list, enabled. -/
def example_package (filename name version release : String) : CraPackage :=
  { filename := filename, name := some name, epoch := 0, version := version,
    release := release, arch := "noarch", url := none, license := none,
    filelist := none, enabled := true }

/-! ## Archive exploding: `cra_package_explode` -/

/-- The constant `PATH_MAX` of `<limits.h>` on Linux, the size of `buf`. -/
def PATH_MAX : Nat := 4096

/-- The call `g_snprintf (buf, PATH_MAX, "%s/%s", dir, p)`: `dir`, a slash and
`p`, cut to what fits in `buf` with its terminating NUL.  The cut counts
characters, which are bytes for an ASCII path. -/
def g_snprintf_path (dir p : String) : String :=
  ⟨(dir.data ++ '/' :: p.data).take (PATH_MAX - 1)⟩

/-- What `printf ("%s", s)` prints for a string that may be `NULL`. -/
def name_str (s : Option String) : String := s.getD "(null)"

/-- The fields of a libarchive entry that `cra_package_explode` rewrites;
`none` is a `NULL` string. -/
structure ArchiveEntry where
  pathname : Option String
  hardlink : Option String
  symlink : Option String
deriving DecidableEq, Repr

/-- The entry as rewritten at cra-package.c:298-315: the pathname, the
hardlink target and the symlink target each get `dir/` put in front. -/
def cra_package_explode_entry (dir : String) (entry : ArchiveEntry) : ArchiveEntry :=
  { pathname := some (g_snprintf_path dir (name_str entry.pathname)),
    hardlink := entry.hardlink.map (g_snprintf_path dir),
    symlink := entry.symlink.map (g_snprintf_path dir) }

/-- The loop of `cra_package_explode` (cra-package.c:284-331) over the
headers of the archive, each read successfully (`ok`) or not (`error`);
`extract` is `archive_read_extract (arch, entry, 0)` returning `ARCHIVE_OK`.
The result is the return value and the entries handed to the extractor. -/
def explode_entries (dir : String) (extract : ArchiveEntry → Bool) :
    List (Except String ArchiveEntry) → Bool × List ArchiveEntry
  | [] => (true, [])
  | .error _ :: _ => (false, [])
  | .ok entry :: rest =>
    let e := cra_package_explode_entry dir entry
    if e.pathname = none then explode_entries dir extract rest
    else if extract e then
      let r := explode_entries dir extract rest
      (r.1, e :: r.2)
    else (false, [e])

/-- The function `cra_package_explode` (cra-package.c:250-339) on the archive
read from the file of the package: `error` when the file cannot be read or
opened as an archive, else its headers. -/
def cra_package_explode (dir : String) (extract : ArchiveEntry → Bool)
    (archive : Except String (List (Except String ArchiveEntry))) : Bool × List ArchiveEntry :=
  match archive with
  | .error _ => (false, [])
  | .ok headers => explode_entries dir extract headers

/-- The segments of a path between slashes. -/
def path_split : List Char → List (List Char)
  | [] => [[]]
  | c :: cs =>
    if c = '/' then [] :: path_split cs
    else
      match path_split cs with
      | [] => [[c]]
      | s :: ss => (c :: s) :: ss

/-- Resolution of `.` and `..` over the segments of an absolute path: `stack`
is the resolved directory so far, innermost first; `..` at the root stays at
the root. -/
def path_resolve_from (stack : List (List Char)) : List (List Char) → List (List Char)
  | [] => stack.reverse
  | s :: ss =>
    if s = [] ∨ s = ['.'] then path_resolve_from stack ss
    else if s = ['.', '.'] then path_resolve_from stack.tail ss
    else path_resolve_from (s :: stack) ss

/-- The resolved form of an absolute path: its segments from the root, with
`.` and `..` resolved. -/
def path_resolve (p : String) : List (List Char) :=
  path_resolve_from [] (path_split p.data)

/-- The resolved path `p` lies inside the directory `dir`. -/
def path_inside (dir p : String) : Bool :=
  (path_resolve dir).isPrefixOf (path_resolve p)

/-! ## Plugin registry -/

/-- The plugin descriptor: its name and the globs it registers with
`cra_plugin_add_globs`, which its `cra_plugin_check_filename` matches. -/
structure CraPlugin where
  name : String
  globs : List String
deriving DecidableEq, Repr

/-- The check `cra_plugin_check_filename` of a plugin, as in
cra-plugin-font.c:58-66: the file name matches one of the plugin's globs.
`fnmatch g f` is `fnmatch (g, f, 0) == 0` of the C library. -/
def cra_plugin_check_filename (fnmatch : String → String → Bool) (plugin : CraPlugin)
    (filename : String) : Bool :=
  plugin.globs.any (fun g => fnmatch g filename)

/-- Modelled from the spec: `cra_plugin_loader_match_fn`, which
cra-main.c:77 calls and cra-plugin-loader.c, not among the sources, defines.
The spec (4.2): "`match(filename) -> PluginDescriptor?`: returns the first
registered plugin whose glob pattern matches".  The plugin returned is given
by its index in the registry, `none` is `NULL`. -/
def cra_plugin_loader_match_fn (fnmatch : String → String → Bool) :
    List CraPlugin → String → Option Nat
  | [], _ => none
  | p :: ps, filename =>
    if cra_plugin_check_filename fnmatch p filename then some 0
    else (cra_plugin_loader_match_fn fnmatch ps filename).map (· + 1)

/-- One iteration of the loop at cra-main.c:76-90 for the file `filename`:
the matched plugin is added unless it is in `plugins_to_run` already. -/
def add_suitable_plugin (fnmatch : String → String → Bool) (plugins : List CraPlugin)
    (plugins_to_run : List Nat) (filename : String) : List Nat :=
  match cra_plugin_loader_match_fn fnmatch plugins filename with
  | none => plugins_to_run
  | some plugin =>
    if plugin ∈ plugins_to_run then plugins_to_run else plugins_to_run ++ [plugin]

/-- The function `cra_task_add_suitable_plugins` (cra-main.c:65-93): the
task's `plugins_to_run` after the call, as indices into the registry.  A
`NULL` file list (`none`) leaves it as it is. -/
def cra_task_add_suitable_plugins (fnmatch : String → String → Bool)
    (plugins : List CraPlugin) (filelist : Option (List String))
    (plugins_to_run : List Nat) : List Nat :=
  match filelist with
  | none => plugins_to_run
  | some files => files.foldl (add_suitable_plugin fnmatch plugins) plugins_to_run

/-- A matcher for the globs of the concrete inputs below: `*` stands for any
run of characters, `?` for one character, any other character for itself,
as `fnmatch` with flags 0 treats a pattern without brackets or backslashes. -/
def glob_match : List Char → List Char → Bool
  | [], s => s.isEmpty
  | p :: ps, s =>
    if p = '*' then s.tails.any (fun t => glob_match ps t)
    else
      match s with
      | [] => false
      | c :: cs => (p = '?' ∨ p = c) && glob_match ps cs

/-- The matcher `glob_match` on strings. -/
def fnmatch_simple (glob filename : String) : Bool :=
  glob_match glob.data filename.data

/-! ## Candidate records -/

/-- The candidate record (`CraApp`, an `AsApp`): the fields the pipeline
reads and writes.  `name` and `comment` are the values for the locale `C`;
`is_cra_app` is `CRA_IS_APP (app)`, false for a plain `AsApp`. -/
structure CraApp where
  id_full : Option String
  icon : Option String
  name : Option String
  comment : Option String
  url_homepage : Option String
  project_license : Option String
  releases : List String
  metadata : List (String × String)
  vetos : List String
  requires_appdata : List (Option String)
  is_cra_app : Bool
deriving DecidableEq, Repr

/-- The constructor `as_app_new ()`: a plain `AsApp` with nothing set. -/
def as_app_new : CraApp :=
  { id_full := none, icon := none, name := none, comment := none, url_homepage := none,
    project_license := none, releases := [], metadata := [], vetos := [],
    requires_appdata := [], is_cra_app := false }

/-- The setter `as_app_set_id_full (app, id_full, -1)`. -/
def as_app_set_id_full (app : CraApp) (id_full : Option String) : CraApp :=
  { app with id_full := id_full }

/-- The call `as_app_add_url (app, AS_URL_KIND_HOMEPAGE, url, -1)`. -/
def as_app_add_url_homepage (app : CraApp) (url : String) : CraApp :=
  { app with url_homepage := some url }

/-- The setter `as_app_set_project_license (app, license, -1)`. -/
def as_app_set_project_license (app : CraApp) (license : String) : CraApp :=
  { app with project_license := some license }

/-- The call `as_app_add_release (app, release)`. -/
def as_app_add_release (app : CraApp) (release : String) : CraApp :=
  { app with releases := app.releases ++ [release] }

/-- The call `as_app_add_metadata (app, key, value, -1)`: the value of the key
is set, replacing an earlier one. -/
def as_app_add_metadata (app : CraApp) (key value : String) : CraApp :=
  { app with metadata := (key, value) :: app.metadata.filter (fun e => !decide (e.1 = key)) }

/-- The getter `as_app_get_metadata_item (app, key)`. -/
def as_app_get_metadata_item (app : CraApp) (key : String) : Option String :=
  (app.metadata.find? (fun e => decide (e.1 = key))).map (·.2)

/-- The call `cra_app_add_veto (app, reason)`: the reason is appended to the
vetoes of the record. -/
def cra_app_add_veto (app : CraApp) (reason : String) : CraApp :=
  { app with vetos := app.vetos ++ [reason] }

/-! ## Context, task and the outside world -/

/-- The severity of a line of the package log. -/
inductive CraPackageLogLevel where
  | none
  | debug
  | info
  | warning
deriving DecidableEq, Repr

/-- A line of a package log, as `cra_package_log` receives it. -/
abbrev LogEntry := CraPackageLogLevel × String

/-- An entry of a glob table (`ctx->extra_pkgs`, `ctx->blacklisted_ids`). -/
structure CraGlobValue where
  glob : String
  value : String
deriving DecidableEq, Repr

/-- The fields of `CraContext` that cra-main.c reads and writes;
`old_md_cache` is the store loaded from the old metadata, `apps` the shared
result set. -/
structure CraContext where
  plugins : List CraPlugin
  packages : List CraPackage
  extra_pkgs : List CraGlobValue
  blacklisted_pkgs : List CraGlobValue
  blacklisted_ids : List CraGlobValue
  old_md_cache : List CraApp
  apps : List CraApp
  add_cache_id : Bool
  extra_checks : Bool
deriving DecidableEq, Repr

/-- The task `CraTask` (cra-main.c:41-47); `plugins_to_run` holds indices into
the registry `ctx->plugins`. -/
structure CraTask where
  filename : String
  tmpdir : String
  pkg : CraPackage
  id : Nat
  plugins_to_run : List Nat
deriving DecidableEq, Repr

/-- What the pipeline calls and does not define: the C library, GLib,
appstream-glib, the plugins behind `cra_plugin_process` and
`cra_plugin_loader_process_app`, and the file system.  A call that can fail
gives `error` with the message of its `GError`. -/
structure CraEnv where
  /-- The test `fnmatch (glob, name, 0) == 0`. -/
  fnmatch : String → String → Bool
  /-- The call `g_path_get_basename`. -/
  path_get_basename : String → String
  /-- The call `cra_utils_get_cache_id_for_filename`. -/
  cache_id_for_filename : String → String
  /-- The call `as_app_get_id`, the short identifier of a record that has a
  full identifier. -/
  app_get_id : CraApp → String
  /-- The call `cra_package_get_releases`. -/
  package_get_releases : CraPackage → List String
  /-- The call `cra_utils_ensure_exists_and_empty (dir)`. -/
  ensure_exists_and_empty : String → Except String Unit
  /-- The call `cra_package_explode (pkg, dir, ctx->file_globs)` on the file of
  the package. -/
  package_explode : CraPackage → String → Except String Unit
  /-- The call `cra_plugin_process (plugin, pkg, tmpdir)` for the plugin at an
  index of the registry: the records extracted; a plugin that fails returns
  `NULL`, the empty list, with an error. -/
  plugin_process : Nat → CraPackage → String → Except String (List CraApp)
  /-- The call `cra_plugin_loader_process_app (plugins, pkg, app, tmpdir)`: the
  record as the refine plugins leave it. -/
  plugin_loader_process_app : CraPackage → CraApp → String → Except String CraApp
  /-- The call `cra_app_save_resources (app)`. -/
  app_save_resources : CraApp → Except String Unit
  /-- The call `cra_context_check_urls (app, pkg)`: the lines it logs. -/
  check_urls : CraApp → List LogEntry
  /-- The list `as_util_get_possible_kudos ()`. -/
  possible_kudos : List String
  /-- The call `cra_app_to_xml (app)`. -/
  app_to_xml : CraApp → String
  /-- The call `cra_utils_rmtree (dir)`. -/
  rmtree : String → Except String Unit
  /-- The call `cra_package_log_flush (pkg)`. -/
  package_log_flush : CraPackage → Except String Unit

/-- Modelled from the spec: `cra_glob_value_search`, called at
cra-main.c:142 and 293 and defined in cra-utils.c, not among the sources:
the value of the first entry of the table whose glob matches, `none` when
the identifier is on no list (the spec's "denylist", 4.6, and "explicit
configured override by name", 4.3). -/
def cra_glob_value_search (fnmatch : String → String → Bool) (array : List CraGlobValue)
    (search : String) : Option String :=
  (array.find? (fun gv => fnmatch gv.glob search)).map (·.value)

/-- Modelled from the spec: `cra_context_find_by_pkgname`, called at
cra-main.c:108 and defined in cra-context.c, not among the sources: the
package of that name "that exists in the already-opened package universe"
(4.3), the first one in `ctx->packages`. -/
def cra_context_find_by_pkgname (ctx : CraContext) (pkg_name : String) : Option CraPackage :=
  ctx.packages.find? (fun p => decide (cra_package_get_name p = some pkg_name))

/-- Modelled from the spec: `cra_context_add_app`, called at cra-main.c:416,
435 and 643 and defined in cra-context.c, not among the sources: "surviving
records are appended to the shared ResultSet" (4.6). -/
def cra_context_add_app (apps : List CraApp) (app : CraApp) : List CraApp :=
  apps ++ [app]

/-! ## Overlay packages -/

/-- What exploding overlay packages leaves behind: the return value, the
lines logged and the calls of `cra_package_explode` made, in order, each
with the package and the directory it is exploded into. -/
structure ExplodeExtra where
  ret : Bool
  log : List LogEntry
  exploded : List (CraPackage × String)
deriving DecidableEq, Repr

/-- The function `cra_context_explode_extra_package` (cra-main.c:98-127). -/
def cra_context_explode_extra_package (env : CraEnv) (ctx : CraContext) (task : CraTask)
    (pkg_name : String) : ExplodeExtra :=
  match cra_context_find_by_pkgname ctx pkg_name with
  | none => { ret := true, log := [], exploded := [] }
  | some pkg_extra =>
    let l := (CraPackageLogLevel.debug,
      "Adding extra package " ++ name_str (cra_package_get_name pkg_extra) ++ " for " ++
        name_str (cra_package_get_name task.pkg))
    match env.package_explode pkg_extra task.tmpdir with
    | .ok _ => { ret := true, log := [l], exploded := [(pkg_extra, task.tmpdir)] }
    | .error msg =>
      { ret := false,
        log := [l, (CraPackageLogLevel.warning, "Failed to explode extra file: " ++ msg)],
        exploded := [(pkg_extra, task.tmpdir)] }

/-- The array of overlay names built at cra-main.c:141-150: the configured
override of the package name, if there is one, then `<name>-data`, then
`<name>-common`. -/
def extra_package_names (env : CraEnv) (ctx : CraContext) (task : CraTask) : List String :=
  (match cra_glob_value_search env.fnmatch ctx.extra_pkgs
      (name_str (cra_package_get_name task.pkg)) with
    | some tmp => [tmp]
    | none => []) ++
  [name_str (cra_package_get_name task.pkg) ++ "-data",
   name_str (cra_package_get_name task.pkg) ++ "-common"]

/-- The loop at cra-main.c:151-156: it stops at the first overlay that fails
to explode. -/
def explode_extra_loop (env : CraEnv) (ctx : CraContext) (task : CraTask) :
    List String → ExplodeExtra → ExplodeExtra
  | [], acc => acc
  | tmp :: rest, acc =>
    let r := cra_context_explode_extra_package env ctx task tmp
    let acc' : ExplodeExtra :=
      { ret := r.ret, log := acc.log ++ r.log, exploded := acc.exploded ++ r.exploded }
    if r.ret then explode_extra_loop env ctx task rest acc' else acc'

/-- The function `cra_context_explode_extra_packages` (cra-main.c:132-160). -/
def cra_context_explode_extra_packages (env : CraEnv) (ctx : CraContext) (task : CraTask) :
    ExplodeExtra :=
  explode_extra_loop env ctx task (extra_package_names env ctx task)
    { ret := true, log := [], exploded := [] }

/-! ## The task: `cra_task_process_func` -/

/-- The variable `apps` and the log after the plugin loop. -/
structure PluginRun where
  apps : List CraApp
  log : List LogEntry
deriving DecidableEq, Repr

/-- One iteration of the loop at cra-main.c:257-272: `apps` is assigned the
result of the plugin, `NULL` when it fails. -/
def run_plugin (env : CraEnv) (ctx : CraContext) (task : CraTask) (acc : PluginRun)
    (plugin : Nat) : PluginRun :=
  let l := (CraPackageLogLevel.debug,
    "Processing " ++ env.path_get_basename task.filename ++ " with " ++
      name_str (ctx.plugins[plugin]?.map (·.name)))
  match env.plugin_process plugin task.pkg task.tmpdir with
  | .ok (a :: as) => { apps := a :: as, log := acc.log ++ [l] }
  | .ok [] =>
    { apps := [], log := acc.log ++ [l, (CraPackageLogLevel.warning, "Failed to run process: ")] }
  | .error msg =>
    { apps := [],
      log := acc.log ++ [l, (CraPackageLogLevel.warning, "Failed to run process: " ++ msg)] }

/-- The loop at cra-main.c:257-272 over `task->plugins_to_run`; `apps` starts
as `NULL`. -/
def run_plugins (env : CraEnv) (ctx : CraContext) (task : CraTask)
    (plugins_to_run : List Nat) : PluginRun :=
  plugins_to_run.foldl (run_plugin env ctx task) { apps := [], log := [] }

/-- How an iteration of the loop over the candidate records ends: with the
next record (`continue`, or the end of the body), or at `goto skip`. -/
inductive LoopControl where
  | next
  | skip
deriving DecidableEq, Repr

/-- The state of the loop over the candidate records (cra-main.c:277-423):
the shared result set `ctx->apps`, `nr_added`, the lines logged, and the
records visited so far as the loop leaves them. -/
structure AppsState where
  ctx_apps : List CraApp
  nr_added : Nat
  log : List LogEntry
  visited : List CraApp
deriving DecidableEq, Repr

/-- The three checks at cra-main.c:336-342: a record without icon, name or
comment gets the veto of what it lacks. -/
def add_missing_vetos (app : CraApp) : CraApp :=
  let app1 := if app.icon = none then cra_app_add_veto app "Has no Icon" else app
  let app2 := if app1.name = none then cra_app_add_veto app1 "Has no Name" else app1
  if app2.comment = none then cra_app_add_veto app2 "Has no Comment" else app2

/-- The lines logged at cra-main.c:344-358 for a record with vetoes. -/
def veto_log (app : CraApp) : List LogEntry :=
  if app.vetos.length > 0 then
    (CraPackageLogLevel.warning, name_str app.id_full ++ " not included in metadata:") ::
      app.vetos.map (fun tmp => (CraPackageLogLevel.warning, " - " ++ tmp))
  else []

/-- The lines logged at cra-main.c:360-376 for a record that still requires
appdata; a `NULL` entry logs nothing. -/
def requires_appdata_log (app : CraApp) : List LogEntry :=
  if app.requires_appdata.length > 0 then
    (CraPackageLogLevel.warning, name_str app.id_full ++ " required appdata but none provided") ::
      app.requires_appdata.filterMap
        (fun tmp => tmp.map (fun s => (CraPackageLogLevel.warning, " - " ++ s)))
  else []

/-- The lines logged at cra-main.c:395-404: one for each possible kudo the
record has no metadata item for. -/
def kudos_log (env : CraEnv) (app : CraApp) : List LogEntry :=
  (env.possible_kudos.filter (fun k => (as_app_get_metadata_item app k).isNone)).map
    (fun k => (CraPackageLogLevel.info, "Application does not have " ++ k))

/-- The data copied from the package into the record at cra-main.c:302-318. -/
def copy_package_data (env : CraEnv) (task : CraTask) (app : CraApp) : CraApp :=
  let app1 := match task.pkg.url with
    | some url => as_app_add_url_homepage app url
    | none => app
  let app2 := match task.pkg.license with
    | some license => as_app_set_project_license app1 license
    | none => app1
  (env.package_get_releases task.pkg).foldl as_app_add_release app2

/-- The body of the loop over the candidate records (cra-main.c:278-422) for
the record `app`.  A record on which the refine plugins fail is recorded in
`visited` as it was handed to them. -/
def process_app (env : CraEnv) (ctx : CraContext) (task : CraTask) (app : CraApp)
    (st : AppsState) : LoopControl × AppsState :=
  if app.id_full = none then
    (.next, { st with
      log := st.log ++ [(CraPackageLogLevel.info,
        "app id not set for " ++ name_str (cra_package_get_name task.pkg))],
      visited := st.visited ++ [app] })
  else if (cra_glob_value_search env.fnmatch ctx.blacklisted_ids (env.app_get_id app)).isSome then
    (.next, { st with
      log := st.log ++ [(CraPackageLogLevel.info,
        "app id " ++ name_str (cra_package_get_name task.pkg) ++ " is blacklisted")],
      visited := st.visited ++ [app] })
  else
    let app1 := copy_package_data env task app
    match env.plugin_loader_process_app task.pkg app1 task.tmpdir with
    | .error msg =>
      (.skip, { st with
        log := st.log ++ [(CraPackageLogLevel.warning,
          "Failed to run process on " ++ env.app_get_id app1 ++ ": " ++ msg)],
        visited := st.visited ++ [app1] })
    | .ok app2 =>
      let app3 := add_missing_vetos app2
      let log1 := st.log ++ veto_log app3 ++ requires_appdata_log app3
      if app3.vetos.length > 0 ∨ app3.requires_appdata.length > 0 then
        (.next, { st with log := log1, visited := st.visited ++ [app3] })
      else
        let log2 := if ctx.extra_checks then log1 ++ env.check_urls app3 else log1
        match env.app_save_resources app3 with
        | .error msg =>
          (.skip, { st with
            log := log2 ++ [(CraPackageLogLevel.warning, "Failed to save resources: " ++ msg)],
            visited := st.visited ++ [app3] })
        | .ok _ =>
          let log3 := log2 ++ kudos_log env app3
          let app4 := if ctx.add_cache_id then
              as_app_add_metadata app3 "X-CreaterepoAsCacheID"
                (env.cache_id_for_filename task.filename)
            else app3
          (.next,
            { ctx_apps := cra_context_add_app st.ctx_apps app4,
              nr_added := st.nr_added + 1,
              log := log3 ++ [(CraPackageLogLevel.none, env.app_to_xml app4)],
              visited := st.visited ++ [app4] })

/-- The loop over the candidate records (cra-main.c:277-423): it ends after
the last record or at the first `goto skip`. -/
def process_apps (env : CraEnv) (ctx : CraContext) (task : CraTask) :
    List CraApp → AppsState → AppsState
  | [], st => st
  | app :: rest, st =>
    match process_app env ctx task app st with
    | (.next, st') => process_apps env ctx task rest st'
    | (.skip, st') => st'

/-- The sentinel `dummy` built at cra-main.c:428-434: a plain `AsApp` whose
identifier is the package name, tagged with the cache id of the file name. -/
def cra_task_dummy (env : CraEnv) (task : CraTask) : CraApp :=
  as_app_add_metadata (as_app_set_id_full as_app_new (cra_package_get_name task.pkg))
    "X-CreaterepoAsCacheID" (env.cache_id_for_filename task.filename)

/-- What a run of `cra_task_process_func` leaves behind. -/
structure TaskResult where
  /-- The shared result set `ctx->apps`. -/
  ctx_apps : List CraApp
  /-- The task's `plugins_to_run`. -/
  plugins_to_run : List Nat
  /-- The final `nr_added`. -/
  nr_added : Nat
  /-- The lines logged to the package log. -/
  log : List LogEntry
  /-- The calls of `cra_package_explode` made, in order: the package and the
  directory it is exploded into. -/
  exploded : List (CraPackage × String)
  /-- The candidate records visited by the loop, as it leaves them. -/
  visited : List CraApp
  /-- The label `skip` was reached: sentinel emission and `cra_utils_rmtree`. -/
  reached_skip : Bool
  /-- The call `cra_package_log_flush` was made. -/
  flushed : Bool
  /-- The progress line printed. -/
  printed : Option String
deriving DecidableEq, Repr

/-- The code from the label `skip` to the end (cra-main.c:424-470), entered
with the loop state `st`, the plugins matched and the packages exploded. -/
def cra_task_finish (env : CraEnv) (ctx : CraContext) (task : CraTask)
    (plugins_to_run : List Nat) (exploded : List (CraPackage × String)) (st : AppsState) :
    TaskResult :=
  let ctx_apps := if ctx.add_cache_id ∧ st.nr_added = 0 then
      cra_context_add_app st.ctx_apps (cra_task_dummy env task)
    else st.ctx_apps
  match env.rmtree task.tmpdir with
  | .error msg =>
    { ctx_apps := ctx_apps, plugins_to_run := plugins_to_run, nr_added := st.nr_added,
      log := st.log ++ [(CraPackageLogLevel.warning, "Failed to delete tree: " ++ msg)],
      exploded := exploded, visited := st.visited, reached_skip := true, flushed := false,
      printed := none }
  | .ok _ =>
    match env.package_log_flush task.pkg with
    | .error msg =>
      { ctx_apps := ctx_apps, plugins_to_run := plugins_to_run, nr_added := st.nr_added,
        log := st.log ++ [(CraPackageLogLevel.warning, "Failed to write package log: " ++ msg)],
        exploded := exploded, visited := st.visited, reached_skip := true, flushed := true,
        printed := none }
    | .ok _ =>
      { ctx_apps := ctx_apps, plugins_to_run := plugins_to_run, nr_added := st.nr_added,
        log := st.log, exploded := exploded, visited := st.visited, reached_skip := true,
        flushed := true,
        printed := some ("Processed " ++ toString (task.id + 1) ++ "/" ++
          toString ctx.packages.length ++ " " ++ name_str (cra_package_get_name task.pkg)) }

/-- The function `cra_task_process_func` (cra-main.c:193-470) for one task
against the context `ctx`. -/
def cra_task_process_func (env : CraEnv) (ctx : CraContext) (task : CraTask) : TaskResult :=
  let log0 : List LogEntry := [(CraPackageLogLevel.debug,
    "Getting filename match for " ++ env.path_get_basename task.filename)]
  let plugins_to_run := cra_task_add_suitable_plugins env.fnmatch ctx.plugins
    task.pkg.filelist task.plugins_to_run
  if plugins_to_run.length = 0 then
    { ctx_apps := ctx.apps, plugins_to_run := plugins_to_run, nr_added := 0, log := log0,
      exploded := [], visited := [], reached_skip := false, flushed := false, printed := none }
  else
    match env.ensure_exists_and_empty task.tmpdir with
    | .error msg =>
      { ctx_apps := ctx.apps, plugins_to_run := plugins_to_run, nr_added := 0,
        log := log0 ++ [(CraPackageLogLevel.warning, "Failed to clear: " ++ msg)],
        exploded := [], visited := [], reached_skip := false, flushed := false,
        printed := none }
    | .ok _ =>
      let log1 := log0 ++ [(CraPackageLogLevel.debug,
        "Exploding tree for " ++ name_str (cra_package_get_name task.pkg))]
      match env.package_explode task.pkg task.tmpdir with
      | .error msg =>
        cra_task_finish env ctx task plugins_to_run [(task.pkg, task.tmpdir)]
          { ctx_apps := ctx.apps, nr_added := 0,
            log := log1 ++ [(CraPackageLogLevel.warning, "Failed to explode: " ++ msg)],
            visited := [] }
      | .ok _ =>
        let extra := cra_context_explode_extra_packages env ctx task
        if !extra.ret then
          cra_task_finish env ctx task plugins_to_run ((task.pkg, task.tmpdir) :: extra.exploded)
            { ctx_apps := ctx.apps, nr_added := 0, log := log1 ++ extra.log, visited := [] }
        else
          let run := run_plugins env ctx task plugins_to_run
          cra_task_finish env ctx task plugins_to_run ((task.pkg, task.tmpdir) :: extra.exploded)
            (process_apps env ctx task run.apps
              { ctx_apps := ctx.apps, nr_added := 0, log := log1 ++ extra.log ++ run.log,
                visited := [] })

/-- A record has an icon, a name and a comment set, and carries no veto. -/
def record_complete (a : CraApp) : Prop :=
  a.icon ≠ none ∧ a.name ≠ none ∧ a.comment ≠ none ∧ a.vetos = []

instance (a : CraApp) : Decidable (record_complete a) := by
  unfold record_complete
  infer_instance

/-! ## Concrete inputs -/

/-- An outside world for the concrete inputs below: every file-system call
succeeds, the refine plugins leave a record as it is, the cache id of a file
is its name, and the plugin at index `i` extracts `extract i`. -/
def example_env (extract : Nat → Except String (List CraApp)) : CraEnv :=
  { fnmatch := fnmatch_simple,
    path_get_basename := fun s => s,
    cache_id_for_filename := fun s => s,
    app_get_id := fun a => name_str a.id_full,
    package_get_releases := fun _ => [],
    ensure_exists_and_empty := fun _ => .ok (),
    package_explode := fun _ _ => .ok (),
    plugin_process := fun i _ _ => extract i,
    plugin_loader_process_app := fun _ a _ => .ok a,
    app_save_resources := fun _ => .ok (),
    check_urls := fun _ => [],
    possible_kudos := [],
    app_to_xml := fun a => name_str a.id_full,
    rmtree := fun _ => .ok (),
    package_log_flush := fun _ => .ok () }

/-- A record as a plugin extracts it, for the concrete inputs below. -/
def example_app (id_full icon name comment : Option String) : CraApp :=
  { id_full := id_full, icon := icon, name := name, comment := comment,
    url_homepage := none, project_license := none, releases := [], metadata := [],
    vetos := [], requires_appdata := [], is_cra_app := true }

/-- A context with the given registry and cache-id switch, and nothing else. -/
def example_ctx (plugins : List CraPlugin) (add_cache_id : Bool) : CraContext :=
  { plugins := plugins, packages := [], extra_pkgs := [], blacklisted_pkgs := [],
    blacklisted_ids := [], old_md_cache := [], apps := [], add_cache_id := add_cache_id,
    extra_checks := false }

/-- The task that `main` creates (cra-main.c:965-971) for the package `foo`
with the given file list, in the workspace `./tmp/foo`. -/
def example_task (files : List String) : CraTask :=
  { filename := "foo-1.0-1.rpm", tmpdir := "./tmp/foo",
    pkg := { example_package "foo-1.0-1.rpm" "foo" "1.0" "1" with filelist := some files },
    id := 0, plugins_to_run := [] }

/-- The outside world `example_env` in which `cra_package_explode` fails on
the package file `bad`. -/
def example_env_explode_fails (extract : Nat → Except String (List CraApp)) (bad : String) :
    CraEnv :=
  { example_env extract with
    package_explode := fun pkg _ => if pkg.filename = bad then .error "corrupt" else .ok () }

/-- The context `example_ctx` with the given opened packages and overrides of
overlay names. -/
def example_ctx_packages (plugins : List CraPlugin) (add_cache_id : Bool)
    (packages : List CraPackage) (extra_pkgs : List CraGlobValue) : CraContext :=
  { example_ctx plugins add_cache_id with packages := packages, extra_pkgs := extra_pkgs }

/-! ## The incremental cache -/

/-- The call `as_store_get_apps_by_metadata (store, key, value)` of
appstream-glib: the records of the store whose metadata item `key` is
`value`, in the order of the store. -/
def as_store_get_apps_by_metadata (store : List CraApp) (key value : String) : List CraApp :=
  store.filter (fun a => decide (as_app_get_metadata_item a key = some value))

/-- The function `cra_main_find_in_cache` (cra-main.c:624-649): the return
value and the context after the call. -/
def cra_main_find_in_cache (env : CraEnv) (ctx : CraContext) (filename : String) :
    Bool × CraContext :=
  let cache_id := env.cache_id_for_filename filename
  let apps := as_store_get_apps_by_metadata ctx.old_md_cache "X-CreaterepoAsCacheID" cache_id
  if apps.length = 0 then (false, ctx)
  else (true, { ctx with apps := apps.foldl cra_context_add_app ctx.apps })

/-! ## The run: `main` -/

/-- What `main` calls and does not define, on top of what the tasks call: the
package readers, the thread pool, the merge functions of the plugins and the
output files. -/
structure CraMainEnv extends CraEnv where
  /-- The build has `HAVE_RPM`. -/
  have_rpm : Bool
  /-- The set-up that yields no data (cra-main.c:773-839, 842, 868): the
  directories, `cra_plugin_loader_setup` and `g_thread_pool_new`. -/
  setup : Except String Unit
  /-- The context `cra_context_new ()` with the plugins loaded into it. -/
  context_new : CraContext
  /-- The call `as_store_from_file` on the old metadata. -/
  store_from_file : String → Except String (List CraApp)
  /-- The call `cra_utils_add_apps_from_dir` on the extra appstream directory:
  the records it adds, none when the directory does not exist. -/
  extra_apps : Except String (List CraApp)
  /-- The call `cra_package_open (pkg, filename)` of the reader for the file:
  the header data of the package. -/
  package_open : String → Except String CraPackage
  /-- The comparison `cra_package_compare`. -/
  package_compare : CraPackage → CraPackage → Int
  /-- The call `g_build_filename (temp_dir, name, NULL)`; a `NULL` name ends the
  argument list. -/
  build_filename : String → Option String → String
  /-- The call `g_thread_pool_push (pool, task)`. -/
  thread_pool_push : CraTask → Except String Unit
  /-- The merge functions `cra_plugin_merge` of the plugins that have one, in
  the order of the registry. -/
  plugin_merges : List (List CraApp → List CraApp)
  /-- The call `as_store_to_file` on the output store. -/
  store_to_file : List CraApp → Except String Unit
  /-- The call `cra_context_write_icons`. -/
  write_icons : Except String Unit

/-- The options of `main` that the pipeline reads, after the defaults are set
(cra-main.c:748-770). -/
structure CraOptions where
  add_cache_id : Bool
  temp_dir : String
  old_metadata : Option String
deriving DecidableEq, Repr

/-- The test `g_str_has_suffix (str, suffix)`. -/
def g_str_has_suffix (str suffix : String) : Bool :=
  suffix.data.isSuffixOf str.data

/-- The state of the scan over the package files (cra-main.c:914-936): the
context, and the files handed to `cra_package_open` so far. -/
structure ScanState where
  ctx : CraContext
  opened : List String
deriving DecidableEq, Repr

/-- The function `cra_context_add_filename` (cra-main.c:475-517): the error
message when it returns `FALSE`, and the state after the call.  The line it
logs for a blacklisted package goes to the log of a package that is dropped. -/
def cra_context_add_filename (env : CraMainEnv) (st : ScanState) (filename : String) :
    Option String × ScanState :=
  if (env.have_rpm && g_str_has_suffix filename ".rpm") || g_str_has_suffix filename ".deb" then
    match env.package_open filename with
    | .error msg => (some msg, { st with opened := st.opened ++ [filename] })
    | .ok header =>
      let pkg : CraPackage := { header with filename := filename }
      if (cra_glob_value_search env.fnmatch st.ctx.blacklisted_pkgs
          (name_str (cra_package_get_name pkg))).isSome then
        (none, { st with opened := st.opened ++ [filename] })
      else
        (none, { ctx := { st.ctx with packages := st.ctx.packages ++ [pkg] },
                 opened := st.opened ++ [filename] })
  else (some ("No idea how to handle " ++ filename), st)

/-- The scan over the package files (cra-main.c:914-936): a file found in the
cache is skipped, a file that cannot be added ends the run (`goto out`) with
its error message. -/
def scan_packages (env : CraMainEnv) : List String → ScanState → Option String × ScanState
  | [], st => (none, st)
  | filename :: rest, st =>
    match cra_main_find_in_cache env.toCraEnv st.ctx filename with
    | (true, ctx) => scan_packages env rest { st with ctx := ctx }
    | (false, _) =>
      match cra_context_add_filename env st filename with
      | (some msg, st') => (some msg, st')
      | (none, st') => scan_packages env rest st'

/-- The loop that creates the tasks (cra-main.c:944-983) from index `i` of the
package array on: one task for each enabled package, pushed to the pool; a
push that fails ends the run with its error message. -/
def create_tasks (env : CraMainEnv) (temp_dir : String) :
    Nat → List CraPackage → List CraTask → Option String × List CraTask
  | _, [], tasks => (none, tasks)
  | i, pkg :: rest, tasks =>
    if !pkg.enabled then create_tasks env temp_dir (i + 1) rest tasks
    else
      let task : CraTask :=
        { filename := pkg.filename,
          tmpdir := env.build_filename temp_dir (cra_package_get_name pkg),
          pkg := pkg, id := i, plugins_to_run := [] }
      match env.thread_pool_push task with
      | .error msg => (some msg, tasks ++ [task])
      | .ok _ => create_tasks env temp_dir (i + 1) rest (tasks ++ [task])

/-- The tasks run one after the other in the order they were pushed: the
result of each, the shared result set `ctx->apps` being handed from one to
the next.  This is one schedule of the pool: its workers may add the records
of different tasks in another order.  What a task adds does not depend on
the result set it finds, so every schedule leaves the same records, each as
often, and only the order of the result set after the tasks is that of this
schedule. -/
def run_tasks (env : CraEnv) (ctx : CraContext) : List CraTask → List CraApp → List TaskResult
  | [], _ => []
  | task :: rest, apps =>
    let r := cra_task_process_func env { ctx with apps := apps } task
    r :: run_tasks env ctx rest r.ctx_apps

/-- The result set after the tasks have run from the result set `apps`. -/
def apps_after_tasks (env : CraEnv) (ctx : CraContext) (tasks : List CraTask)
    (apps : List CraApp) : List CraApp :=
  match (run_tasks env ctx tasks apps).getLast? with
  | none => apps
  | some r => r.ctx_apps

/-- Modelled from the spec: `cra_plugin_loader_merge`, called at
cra-main.c:990 and defined in cra-plugin-loader.c, not among the sources:
"multiple merge plugins run sequentially over the evolving ResultSet, each
seeing the output of the previous" (4.7). -/
def cra_plugin_loader_merge (merges : List (List CraApp → List CraApp))
    (apps : List CraApp) : List CraApp :=
  merges.foldl (fun list merge => merge list) apps

/-- The records that `cra_context_write_xml` (cra-main.c:558-566) hands to the
output store with `as_store_add_app`: all but the `CraApp` records that carry
a veto. -/
def write_xml_store (apps : List CraApp) : List CraApp :=
  apps.filter (fun app => !(app.is_cra_app && decide (app.vetos.length > 0)))

/-- What a run of `main` leaves behind. -/
structure RunResult where
  /-- The warning of the `goto out` that ended the run early, `none` after
  `Done!`. -/
  error : Option String
  /-- The files handed to `cra_package_open`. -/
  opened : List String
  /-- The package array `ctx->packages` at the end. -/
  packages : List CraPackage
  /-- The tasks created. -/
  tasks : List CraTask
  /-- The result of each task run. -/
  task_results : List TaskResult
  /-- The result set `ctx->apps` after the scan: extra and cached records. -/
  apps_scanned : List CraApp
  /-- The result set after the tasks, before the merge, in the order of the
  schedule of `run_tasks`. -/
  apps_before_merge : List CraApp
  /-- The result set after the merge. -/
  apps : List CraApp
  /-- The records handed to the output store, `none` when the run ended before
  `cra_context_write_xml`. -/
  store : Option (List CraApp)

/-- The run that ends at `goto out` before the scan. -/
def run_failed (msg : String) : RunResult :=
  { error := some msg, opened := [], packages := [], tasks := [], task_results := [],
    apps_scanned := [], apps_before_merge := [], apps := [], store := none }

/-- The function `main` (cra-main.c:773-1013) from the set-up on, over the
package files `filenames` (the arguments, or the listing of the packages
directory). -/
def cra_main (env : CraMainEnv) (opts : CraOptions) (filenames : List String) : RunResult :=
  match env.setup with
  | .error msg => run_failed msg
  | .ok _ =>
    match (match opts.old_metadata with
      | some file => env.store_from_file file
      | none => .ok []) with
    | .error msg => run_failed ("failed to load old metadata: " ++ msg)
    | .ok old_md_cache =>
      match env.extra_apps with
      | .error msg => run_failed ("failed to open appstream-extra: " ++ msg)
      | .ok extra =>
        let ctx0 : CraContext :=
          { env.context_new with
            add_cache_id := opts.add_cache_id || opts.old_metadata.isSome,
            old_md_cache := old_md_cache, packages := [], apps := extra }
        match scan_packages env filenames { ctx := ctx0, opened := [] } with
        | (some msg, st) =>
          { error := some msg, opened := st.opened, packages := st.ctx.packages, tasks := [],
            task_results := [], apps_scanned := st.ctx.apps, apps_before_merge := st.ctx.apps,
            apps := st.ctx.apps, store := none }
        | (none, st) =>
          let packages := cra_context_disable_older_packages env.package_compare st.ctx.packages
          let ctx1 : CraContext := { st.ctx with packages := packages }
          match create_tasks env opts.temp_dir 0 packages [] with
          | (some msg, tasks) =>
            { error := some ("failed to set up pool: " ++ msg), opened := st.opened,
              packages := packages, tasks := tasks, task_results := [],
              apps_scanned := st.ctx.apps, apps_before_merge := st.ctx.apps,
              apps := st.ctx.apps, store := none }
          | (none, tasks) =>
            let results := run_tasks env.toCraEnv ctx1 tasks st.ctx.apps
            let apps1 := apps_after_tasks env.toCraEnv ctx1 tasks st.ctx.apps
            let apps2 := cra_plugin_loader_merge env.plugin_merges apps1
            let store := write_xml_store apps2
            { error :=
                match env.store_to_file store with
                | .error msg => some ("Failed to write XML file: " ++ msg)
                | .ok _ =>
                  match env.write_icons with
                  | .error msg => some ("Failed to write icons archive: " ++ msg)
                  | .ok _ => none,
              opened := st.opened, packages := packages, tasks := tasks,
              task_results := results, apps_scanned := st.ctx.apps,
              apps_before_merge := apps1, apps := apps2, store := some store }

/-- The record `a` is a candidate record as the loop of the task adds it to
the result set: a record with an identifier came out of the refine plugins
as `app2`, got no veto for a missing icon, name or comment, carried no veto
and required no appdata, and was tagged with the cache id when cache ids
are added. -/
def task_record (env : CraEnv) (ctx : CraContext) (task : CraTask) (a : CraApp) : Prop :=
  ∃ app app2 : CraApp, app.id_full ≠ none ∧
    env.plugin_loader_process_app task.pkg (copy_package_data env task app) task.tmpdir =
      .ok app2 ∧
    (add_missing_vetos app2).vetos.length = 0 ∧
    (add_missing_vetos app2).requires_appdata.length = 0 ∧
    a = if ctx.add_cache_id then
        as_app_add_metadata (add_missing_vetos app2) "X-CreaterepoAsCacheID"
          (env.cache_id_for_filename task.filename)
      else add_missing_vetos app2

/-- A package reader for the concrete inputs below: the header data listed
for the file, an error for a file that is not listed. -/
def example_open (table : List (String × CraPackage)) (filename : String) :
    Except String CraPackage :=
  match table.lookup filename with
  | some pkg => .ok pkg
  | none => .error ("Failed to open package " ++ filename)

/-- An outside world of `main` for the concrete inputs below: the tasks live
in `example_env extract`, the registry is `plugins`, the package files are
those of `table`, the old metadata loads as `cache`, the plugins' merge
functions are `merges`, and every other call succeeds. -/
def example_main_env (extract : Nat → Except String (List CraApp)) (plugins : List CraPlugin)
    (table : List (String × CraPackage)) (cache : List CraApp)
    (merges : List (List CraApp → List CraApp)) : CraMainEnv :=
  { toCraEnv := example_env extract,
    have_rpm := true,
    setup := .ok (),
    context_new := example_ctx plugins false,
    store_from_file := fun _ => .ok cache,
    extra_apps := .ok [],
    package_open := example_open table,
    package_compare := cra_package_compare,
    build_filename := fun dir name => dir ++ "/" ++ name_str name,
    thread_pool_push := fun _ => .ok (),
    plugin_merges := merges,
    store_to_file := fun _ => .ok (),
    write_icons := .ok () }

/-! ## The font plugin: `cra_plugin_merge` -/

/-- The test `g_strstr_len (haystack, -1, needle) != NULL`: `needle` occurs in
`haystack`. -/
def g_strstr_len (haystack needle : String) : Bool :=
  haystack.data.tails.any (fun t => needle.data.isPrefixOf t)

/-- The function `cra_font_get_app_sortable_idx` (cra-plugin-font.c:455-490);
`get_id` is `cra_app_get_id`. -/
def cra_font_get_app_sortable_idx (get_id : CraApp → String) (app : CraApp) : Nat :=
  let font_str := get_id app
  let idx := 0
  let idx := if g_strstr_len font_str "It" then idx + 1 else idx
  let idx := if g_strstr_len font_str "Bold" then idx + 1 else idx
  let idx := if g_strstr_len font_str "Semibold" then idx + 1 else idx
  let idx := if g_strstr_len font_str "ExtraLight" then idx + 1 else idx
  let idx := if g_strstr_len font_str "Lig" then idx + 1 else idx
  let idx := if g_strstr_len font_str "Medium" then idx + 1 else idx
  let idx := if g_strstr_len font_str "Bla" then idx + 1 else idx
  let idx := if g_strstr_len font_str "Hai" then idx + 1 else idx
  let idx := if g_strstr_len font_str "Keyboard" then idx + 1 else idx
  let idx := if g_strstr_len font_str "Kufi" then idx + 1 else idx
  let idx := if g_strstr_len font_str "Tamil" then idx + 1 else idx
  let idx := if g_strstr_len font_str "Hebrew" then idx + 1 else idx
  let idx := if g_strstr_len font_str "Arabic" then idx + 1 else idx
  let idx := if g_strstr_len font_str "Fallback" then idx + 1 else idx
  idx

/-- Modelled from the spec: `cra_plugin_add_app`, called at
cra-plugin-font.c:373, 512 and 545 and defined in cra-plugin.c, not among
the sources: the record is added to the list.  The spec fixes no order of
the records of a list (1, non-goals); here the record goes to the end. -/
def cra_plugin_add_app {α : Type} (list : List α) (app : α) : List α :=
  list ++ [app]

/-- The hash table of `cra_font_merge_family`, from the value of the metadata
key to a record; the record is given by its position in the input list and
its present state. -/
abbrev FontHash := List (String × (Nat × CraApp))

/-- Table lookup `g_hash_table_lookup`: `none` is `NULL`. -/
def font_hash_lookup : FontHash → String → Option (Nat × CraApp)
  | [], _ => none
  | (k, v) :: t, key => if k = key then some v else font_hash_lookup t key

/-- Table insertion `g_hash_table_insert`: an existing entry of the key is
replaced. -/
def font_hash_insert (h : FontHash) (key : String) (v : Nat × CraApp) : FontHash :=
  h.filter (fun e => !decide (e.1 = key)) ++ [(key, v)]

/-- The list `g_hash_table_get_values`; GLib leaves its order open, here it is
the order in which the entries were last written. -/
def font_hash_values (h : FontHash) : List (Nat × CraApp) :=
  h.map (fun e => e.2)

/-- The variables of the loop of `cra_font_merge_family`: the new list, the
table, and the calls `cra_app_subsume (app, donor)` made so far, each as the
positions of `app` and `donor` in the input list. -/
structure FontMerge where
  list_new : List (Nat × CraApp)
  hash : FontHash
  subsumed : List (Nat × Nat)
deriving DecidableEq, Repr

/-- One iteration of the loop at cra-plugin-font.c:508-537, for the record at
position `i` of the input list.  `get_id` is `cra_app_get_id` and `subsume`
is `cra_app_subsume (app, donor)`, giving the state of `app` after the
call. -/
def font_merge_step (get_id : CraApp → String) (subsume : CraApp → CraApp → CraApp)
    (md_key : String) (list : List CraApp) (st : FontMerge) (i : Nat) : FontMerge :=
  match list[i]? with
  | none => st
  | some app =>
    match as_app_get_metadata_item app md_key with
    | none => { st with list_new := cra_plugin_add_app st.list_new (i, app) }
    | some tmp =>
      match font_hash_lookup st.hash tmp with
      | none => { st with hash := font_hash_insert st.hash tmp (i, app) }
      | some found =>
        if cra_font_get_app_sortable_idx get_id app <
            cra_font_get_app_sortable_idx get_id found.2 then
          { st with
            hash := font_hash_insert st.hash tmp (i, subsume app found.2),
            subsumed := st.subsumed ++ [(i, found.1)] }
        else
          { st with
            hash := font_hash_insert st.hash tmp (found.1, subsume found.2 app),
            subsumed := st.subsumed ++ [(found.1, i)] }

/-- The loop of `cra_font_merge_family` after its first `n` iterations. -/
def font_merge_loop (get_id : CraApp → String) (subsume : CraApp → CraApp → CraApp)
    (md_key : String) (list : List CraApp) (n : Nat) : FontMerge :=
  (List.range n).foldl (font_merge_step get_id subsume md_key list)
    { list_new := [], hash := [], subsumed := [] }

/-- The function `cra_font_merge_family` (cra-plugin-font.c:495-552) with each
record of the new list given by its position in the input list and its
state: the records without the key, then the values of the table. -/
def cra_font_merge_family_indexed (get_id : CraApp → String)
    (subsume : CraApp → CraApp → CraApp) (list : List CraApp) (md_key : String) :
    List (Nat × CraApp) :=
  (font_hash_values (font_merge_loop get_id subsume md_key list list.length).hash).foldl
    cra_plugin_add_app (font_merge_loop get_id subsume md_key list list.length).list_new

/-- The function `cra_font_merge_family` (cra-plugin-font.c:495-552): the new
list. -/
def cra_font_merge_family (get_id : CraApp → String) (subsume : CraApp → CraApp → CraApp)
    (list : List CraApp) (md_key : String) : List CraApp :=
  (cra_font_merge_family_indexed get_id subsume list md_key).map (fun e => e.2)

/-- The function `cra_plugin_merge` of the font plugin
(cra-plugin-font.c:557-562). -/
def cra_plugin_merge (get_id : CraApp → String) (subsume : CraApp → CraApp → CraApp)
    (list : List CraApp) : List CraApp :=
  cra_font_merge_family get_id subsume
    (cra_font_merge_family get_id subsume list "FontFamily") "FontParent"

/-- The record at position `donor` was subsumed into the record at position
`app`. -/
def subsumed_into (subsumed : List (Nat × Nat)) (donor app : Nat) : Prop :=
  (app, donor) ∈ subsumed

/-- The call `cra_app_subsume` leaves the identifier of the record as it is. -/
def SubsumeKeepsId (get_id : CraApp → String) (subsume : CraApp → CraApp → CraApp) : Prop :=
  ∀ a d, get_id (subsume a d) = get_id a

/-- After `cra_app_subsume (app, donor)` each metadata item of `app` is the
one it had or the one of `donor`. -/
def SubsumeKeepsItems (subsume : CraApp → CraApp → CraApp) : Prop :=
  ∀ a d key, as_app_get_metadata_item (subsume a d) key = as_app_get_metadata_item a key ∨
    as_app_get_metadata_item (subsume a d) key = as_app_get_metadata_item d key

/-- The loop invariant of `cra_font_merge_family` after `n` iterations over
the list `l`. -/
structure FontMergeInv (get_id : CraApp → String) (subsume : CraApp → CraApp → CraApp)
    (md_key : String) (l : List CraApp) (n : Nat) (st : FontMerge) : Prop where
  keys : (st.hash.map Prod.fst).Nodup
  new_keyless : ∀ e ∈ st.list_new, e.1 < n ∧ l[e.1]? = some e.2 ∧
    as_app_get_metadata_item e.2 md_key = none
  keyless_new : ∀ (j : Nat) (r : CraApp), j < n → l[j]? = some r →
    as_app_get_metadata_item r md_key = none → (j, r) ∈ st.list_new
  new_nodup : (st.list_new.map Prod.fst).Nodup
  holder : ∀ (v : String) (m : Nat) (s : CraApp), (v, (m, s)) ∈ st.hash →
    m < n ∧ ∃ r, l[m]? = some r ∧ as_app_get_metadata_item r md_key = some v ∧
      (SubsumeKeepsId get_id subsume → get_id s = get_id r) ∧
      (SubsumeKeepsItems subsume → as_app_get_metadata_item s md_key = some v) ∧
      ((∀ (j : Nat) (r' : CraApp), j < n → l[j]? = some r' →
        as_app_get_metadata_item r' md_key = some v → j = m) → s = r)
  group : ∀ (j : Nat) (r : CraApp) (v : String), j < n → l[j]? = some r →
    as_app_get_metadata_item r md_key = some v →
    ∃ (m : Nat) (s rm : CraApp), (v, (m, s)) ∈ st.hash ∧ l[m]? = some rm ∧
      Relation.ReflTransGen (subsumed_into st.subsumed) j m ∧
      (SubsumeKeepsId get_id subsume →
        cra_font_get_app_sortable_idx get_id rm ≤ cra_font_get_app_sortable_idx get_id r ∧
        (j < m → cra_font_get_app_sortable_idx get_id rm <
          cra_font_get_app_sortable_idx get_id r))

/-- The record at position `j` of the list has the value `v` for the metadata
key: it belongs to the merge group of `v`. -/
def font_group (l : List CraApp) (md_key v : String) (j : Nat) : Bool :=
  decide ((l[j]?.bind (fun r => as_app_get_metadata_item r md_key)) = some v)

/-- The records the loop of `cra_font_merge_family` holds, in their present
state: those of the new list, then those of the table. -/
def font_states (st : FontMerge) : List CraApp :=
  st.list_new.map (fun e => e.2) ++ (font_hash_values st.hash).map (fun e => e.2)

/-- The values that the records of a list have for a metadata key. -/
def key_values (key : String) (list : List CraApp) : List String :=
  list.filterMap (fun a => as_app_get_metadata_item a key)

/-- A `cra_app_subsume` for the concrete inputs below: the record takes the
metadata items of the donor that it does not have itself. -/
def example_subsume (app donor : CraApp) : CraApp :=
  { app with
    metadata := app.metadata ++
      donor.metadata.filter (fun e => (as_app_get_metadata_item app e.1).isNone) }

/-- The identifier read by `cra_app_get_id`, for the concrete inputs below. -/
def example_get_id (app : CraApp) : String := name_str app.id_full

/-- A font record as the font plugin extracts it, for the concrete inputs
below: identifier, and the metadata items `FontFamily` and `FontParent`. -/
def example_font (id family : String) (parent : Option String) : CraApp :=
  { example_app (some id) (some (id ++ ".png")) (some family) (some "A font") with
    metadata := ("FontFamily", family) ::
      (match parent with
       | some p => [("FontParent", p)]
       | none => []) }

/-! ## The records of the output store -/

/-- The number of vetoes `cra_app_get_vetos (app)->len` of a `CraApp`; a plain
`AsApp` has no list of vetoes. -/
def cra_app_vetos_len (app : CraApp) : Nat :=
  if app.is_cra_app then app.vetos.length else 0

/-- Every record of the list has its identifier set. -/
def AllHaveId (apps : List CraApp) : Prop :=
  ∀ a ∈ apps, a.id_full ≠ none

/-- What the calls that `main` and the tasks make and do not define do with
identifiers: the refine plugins leave a set identifier set, a package that is
opened has a name, the records of the old metadata and of the extra
appstream directory have identifiers, and a merge function returns records
with identifiers when it is given such. -/
structure IdsKept (env : CraMainEnv) : Prop where
  refine_keeps : ∀ (pkg : CraPackage) (a a2 : CraApp) (dir : String),
    env.plugin_loader_process_app pkg a dir = .ok a2 → a.id_full ≠ none → a2.id_full ≠ none
  open_named : ∀ (filename : String) (header : CraPackage),
    env.package_open filename = .ok header → header.name ≠ none
  cache_ids : ∀ (file : String) (store : List CraApp),
    env.store_from_file file = .ok store → AllHaveId store
  extra_ids : ∀ apps : List CraApp, env.extra_apps = .ok apps → AllHaveId apps
  merge_keeps : ∀ f ∈ env.plugin_merges, ∀ apps : List CraApp, AllHaveId apps → AllHaveId (f apps)

/-- An outside world of `main` for the concrete runs below: the plugin
`desktop` extracts the record `foo.desktop`, the plugin `font` extracts
nothing; the package `foo` ships a desktop file, the package `bar` a font;
the old metadata loads as `cache`. -/
def example_sentinel_env (cache : List CraApp) : CraMainEnv :=
  example_main_env
    (fun i => if i = 0 then
        .ok [example_app (some "foo.desktop") (some "foo") (some "Foo") (some "A foo")]
      else .ok [])
    [{ name := "desktop", globs := ["/usr/share/applications/*.desktop"] },
     { name := "font", globs := ["/usr/share/fonts/*/*.ttf"] }]
    [("foo-1.0-1.rpm", { example_package "foo-1.0-1.rpm" "foo" "1.0" "1" with
        filelist := some ["/usr/share/applications/foo.desktop"] }),
     ("bar-1.0-1.rpm", { example_package "bar-1.0-1.rpm" "bar" "1.0" "1" with
        filelist := some ["/usr/share/fonts/bar/Bar.ttf"] })]
    cache []

/-- An outside world of `main` for the concrete runs below: the plugin
`desktop` extracts the record `foo.desktop`; the package `foo` comes in the
versions 1.0 and 2.0, each with a desktop file, the package `baz` ships a
file that no plugin claims; the old metadata loads as `cache`. -/
def example_versions_env (cache : List CraApp) : CraMainEnv :=
  example_main_env
    (fun _ => .ok [example_app (some "foo.desktop") (some "foo") (some "Foo") (some "A foo")])
    [{ name := "desktop", globs := ["/usr/share/applications/*.desktop"] }]
    [("foo-1.0-1.rpm", { example_package "foo-1.0-1.rpm" "foo" "1.0" "1" with
        filelist := some ["/usr/share/applications/foo.desktop"] }),
     ("foo-2.0-1.rpm", { example_package "foo-2.0-1.rpm" "foo" "2.0" "1" with
        filelist := some ["/usr/share/applications/foo.desktop"] }),
     ("baz-1.0-1.rpm", { example_package "baz-1.0-1.rpm" "baz" "1.0" "1" with
        filelist := some ["/usr/share/doc/baz/README"] })]
    cache []

/-! ## The score of a font record -/

/-- The words that `cra_font_get_app_sortable_idx` (cra-plugin-font.c:461-488)
looks for in the identifier, in the order of its tests. -/
def font_keywords : List String :=
  ["It", "Bold", "Semibold", "ExtraLight", "Lig", "Medium", "Bla", "Hai", "Keyboard", "Kufi",
   "Tamil", "Hebrew", "Arabic", "Fallback"]

/-! ## More concrete inputs -/

/-- An outside world like `example_env extract` whose refine plugins give
every record the icon `refined.png`. -/
def example_refine_env (extract : Nat → Except String (List CraApp)) : CraEnv :=
  { example_env extract with
    plugin_loader_process_app := fun _ a _ => .ok { a with icon := some "refined.png" } }

/-- An outside world like `example_env extract` whose refine plugins fail on
the record with the identifier `bad`. -/
def example_refine_fails_env (extract : Nat → Except String (List CraApp)) (bad : String) :
    CraEnv :=
  { example_env extract with
    plugin_loader_process_app := fun _ a _ =>
      if a.id_full = some bad then .error "no appdata" else .ok a }

/-- An outside world of `main` for the concrete runs below: the two files
open as packages whose header has no name, each ships a font, the plugin
`font` extracts nothing from them, and `g_build_filename (temp_dir, NULL)` is
the temporary directory itself. -/
def example_nameless_env : CraMainEnv :=
  { example_main_env (fun _ => .ok [])
      [{ name := "font", globs := ["/usr/share/fonts/*/*.ttf"] }]
      [("anon-1.0-1.rpm", { example_package "anon-1.0-1.rpm" "" "1.0" "1" with
          name := none, filelist := some ["/usr/share/fonts/anon/One.ttf"] }),
       ("anon-2.0-1.rpm", { example_package "anon-2.0-1.rpm" "" "2.0" "1" with
          name := none, filelist := some ["/usr/share/fonts/anon/Two.ttf"] })]
      [] [] with
    build_filename := fun dir name =>
      match name with
      | some n => dir ++ "/" ++ n
      | none => dir }

/-- A call of the driving thread of `main` from the task loop on. -/
inductive MainOp where
  /-- The call `g_thread_pool_push (pool, task, &error)` for the task `id`. -/
  | thread_pool_push (id : Nat)
  /-- The call `g_thread_pool_free (pool, immediate, wait_)`. -/
  | thread_pool_free (immediate wait : Bool)
  /-- The call `cra_plugin_loader_merge (ctx->plugins, &ctx->apps)`. -/
  | plugin_loader_merge
  /-- The call `cra_context_write_xml`. -/
  | write_xml
deriving DecidableEq, Repr

/-- The calls of the driving thread in program order (cra-main.c:944-993):
a push for each task created (974), `g_thread_pool_free (pool, FALSE, TRUE)`
(986), `cra_plugin_loader_merge` (990), `cra_context_write_xml` (993). -/
def main_ops (tasks : List CraTask) : List MainOp :=
  tasks.map (fun t => MainOp.thread_pool_push t.id) ++
    [MainOp.thread_pool_free false true, MainOp.plugin_loader_merge, MainOp.write_xml]

/-- The driving thread and the pool: the calls the driving thread has still
to make, the tasks pushed and not started, the tasks a worker is running
(`cra_task_process_func` has been entered and has not returned), the tasks
that have returned, in the order of their return, and the tasks that had
returned when `cra_plugin_loader_merge` was called. -/
structure PoolState where
  ops : List MainOp
  queue : List Nat
  running : List Nat
  finished : List Nat
  merged : Option (List Nat)
deriving DecidableEq, Repr

/-- What happens next: the driving thread makes its next call, a worker
takes the task at the head of the queue, or the task `id` returns. -/
inductive PoolEvent where
  | driver
  | worker_start
  | worker_finish (id : Nat)
deriving DecidableEq, Repr

/-- One event of the system, `none` when the event cannot happen in the
state.  The pool is GLib's: a pushed task waits in the queue; a worker takes
a task when fewer than `max_threads` are running; `g_thread_pool_free` with
`immediate` drops the tasks not yet started, and with `wait_` it returns only
when no task is left to be processed, otherwise at once. -/
def pool_step (max_threads : Nat) (s : PoolState) : PoolEvent → Option PoolState
  | .driver =>
    match s.ops with
    | [] => none
    | .thread_pool_push id :: rest => some { s with ops := rest, queue := s.queue ++ [id] }
    | .thread_pool_free immediate wait :: rest =>
      let queue := if immediate then [] else s.queue
      if wait then
        if queue = [] ∧ s.running = [] then some { s with ops := rest, queue := queue }
        else none
      else some { s with ops := rest, queue := queue }
    | .plugin_loader_merge :: rest => some { s with ops := rest, merged := some s.finished }
    | .write_xml :: rest => some { s with ops := rest }
  | .worker_start =>
    match s.queue with
    | [] => none
    | id :: queue =>
      if s.running.length < max_threads then
        some { s with queue := queue, running := s.running ++ [id] }
      else none
  | .worker_finish id =>
    if id ∈ s.running then
      some { s with running := s.running.erase id, finished := s.finished ++ [id] }
    else none

/-- A sequence of events from the state `s`, `none` when one of them cannot
happen. -/
def pool_run (max_threads : Nat) : PoolState → List PoolEvent → Option PoolState
  | s, [] => some s
  | s, e :: es =>
    match pool_step max_threads s e with
    | none => none
    | some s2 => pool_run max_threads s2 es

/-- The state when the driving thread enters the task loop. -/
def pool_init (tasks : List CraTask) : PoolState :=
  { ops := main_ops tasks, queue := [], running := [], finished := [], merged := none }

/-- The invariant of the runs from `pool_init`: while the driving thread
pushes or waits, the tasks pushed are those queued, running or finished;
once `g_thread_pool_free` has returned, every task has finished and none is
queued or running; once the merge has been called, the tasks finished are
those finished at the call. -/
def PoolInv (ids : List Nat) (s : PoolState) : Prop :=
  (∃ pushed rest : List Nat, ids = pushed ++ rest ∧
    s.ops = rest.map MainOp.thread_pool_push ++
      [MainOp.thread_pool_free false true, MainOp.plugin_loader_merge, MainOp.write_xml] ∧
    (s.queue ++ s.running ++ s.finished).Perm pushed ∧ s.merged = none) ∨
  (s.ops = [MainOp.plugin_loader_merge, MainOp.write_xml] ∧ s.queue = [] ∧ s.running = [] ∧
    s.finished.Perm ids ∧ s.merged = none) ∨
  ((s.ops = [MainOp.write_xml] ∨ s.ops = []) ∧ s.queue = [] ∧ s.running = [] ∧
    s.finished.Perm ids ∧ s.merged = some s.finished)

/-! # Theorems -/

/-! ## Lemmas: the version comparison is a total preorder -/

theorem isTotalPreorderCmp_cmp_nat : IsTotalPreorderCmp cmp_nat where
  antisymm := by
    intro a b
    unfold cmp_nat
    split_ifs <;> omega
  trans := by
    intro a b d
    unfold cmp_nat
    split_ifs <;> omega

theorem isTotalPreorderCmp_pull {α β : Type} (f : α → β) {c : β → β → Int}
    (h : IsTotalPreorderCmp c) : IsTotalPreorderCmp (fun a b => c (f a) (f b)) where
  antisymm := fun a b => h.antisymm (f a) (f b)
  trans := fun a b d => h.trans (f a) (f b) (f d)

theorem lex_antisymm_core (x x' t t' : Int) (h1 : x < 0 ↔ 0 < x') (h2 : x' < 0 ↔ 0 < x)
    (h3 : t < 0 ↔ 0 < t') :
    (if x ≠ 0 then x else t) < 0 ↔ 0 < (if x' ≠ 0 then x' else t') := by
  split_ifs <;> omega

theorem lex_trans_core (x y z x' y' z' s t u : Int)
    (ax : x < 0 ↔ 0 < x') (ax' : x' < 0 ↔ 0 < x)
    (ay : y < 0 ↔ 0 < y') (ay' : y' < 0 ↔ 0 < y)
    (az : z < 0 ↔ 0 < z') (az' : z' < 0 ↔ 0 < z)
    (t1 : x ≤ 0 → y ≤ 0 → z ≤ 0) (t2 : y ≤ 0 → z' ≤ 0 → x' ≤ 0)
    (t3 : z' ≤ 0 → x ≤ 0 → y' ≤ 0)
    (ht : s ≤ 0 → t ≤ 0 → u ≤ 0)
    (hs : (if x ≠ 0 then x else s) ≤ 0) (hy : (if y ≠ 0 then y else t) ≤ 0) :
    (if z ≠ 0 then z else u) ≤ 0 := by
  split_ifs at hs hy ⊢ <;> omega

theorem isTotalPreorderCmp_then {α : Type} (c1 c2 : α → α → Int)
    (h1 : IsTotalPreorderCmp c1) (h2 : IsTotalPreorderCmp c2) :
    IsTotalPreorderCmp (fun a b => if c1 a b ≠ 0 then c1 a b else c2 a b) where
  antisymm := fun a b =>
    lex_antisymm_core _ _ _ _ (h1.antisymm a b) (h1.antisymm b a) (h2.antisymm a b)
  trans := fun a b d =>
    lex_trans_core _ _ _ _ _ _ _ _ _ (h1.antisymm a b) (h1.antisymm b a) (h1.antisymm b d)
      (h1.antisymm d b) (h1.antisymm a d) (h1.antisymm d a) (h1.trans a b d) (h1.trans b d a)
      (h1.trans d a b) (h2.trans a b d)

theorem cmp_list_antisymm {α : Type} (c : α → α → Int) (h : IsTotalPreorderCmp c) :
    ∀ l1 l2 : List α, cmp_list c l1 l2 < 0 ↔ 0 < cmp_list c l2 l1 := by
  intro l1
  induction l1 with
  | nil => intro l2; cases l2 <;> simp [cmp_list]
  | cons a as ih =>
    intro l2
    cases l2 with
    | nil => simp [cmp_list]
    | cons b bs =>
      simp only [cmp_list]
      exact lex_antisymm_core _ _ _ _ (h.antisymm a b) (h.antisymm b a) (ih bs)

theorem cmp_list_trans {α : Type} (c : α → α → Int) (h : IsTotalPreorderCmp c) :
    ∀ l1 l2 l3 : List α, cmp_list c l1 l2 ≤ 0 → cmp_list c l2 l3 ≤ 0 → cmp_list c l1 l3 ≤ 0 := by
  intro l1
  induction l1 with
  | nil => intro l2 l3; cases l2 <;> cases l3 <;> simp [cmp_list]
  | cons a as ih =>
    intro l2 l3
    cases l2 with
    | nil => cases l3 <;> simp [cmp_list]
    | cons b bs =>
      cases l3 with
      | nil => simp [cmp_list]
      | cons d ds =>
        simp only [cmp_list]
        exact lex_trans_core _ _ _ _ _ _ _ _ _ (h.antisymm a b) (h.antisymm b a) (h.antisymm b d)
          (h.antisymm d b) (h.antisymm a d) (h.antisymm d a) (h.trans a b d) (h.trans b d a)
          (h.trans d a b) (ih bs ds)

theorem isTotalPreorderCmp_cmp_list {α : Type} (c : α → α → Int) (h : IsTotalPreorderCmp c) :
    IsTotalPreorderCmp (cmp_list c) :=
  ⟨cmp_list_antisymm c h, cmp_list_trans c h⟩

theorem isTotalPreorderCmp_cmp_char : IsTotalPreorderCmp cmp_char :=
  isTotalPreorderCmp_pull Char.toNat isTotalPreorderCmp_cmp_nat

theorem isTotalPreorderCmp_cmp_segment : IsTotalPreorderCmp cmp_segment where
  antisymm := by
    intro a b
    cases a <;> cases b <;> simp only [cmp_segment]
    · exact isTotalPreorderCmp_cmp_nat.antisymm _ _
    · decide
    · decide
    · exact (isTotalPreorderCmp_cmp_list _ isTotalPreorderCmp_cmp_char).antisymm _ _
  trans := by
    intro a b d
    cases a <;> cases b <;> cases d <;> simp only [cmp_segment] <;>
      first
        | exact isTotalPreorderCmp_cmp_nat.trans _ _ _
        | exact (isTotalPreorderCmp_cmp_list _ isTotalPreorderCmp_cmp_char).trans _ _ _
        | (intros; omega)

theorem isTotalPreorderCmp_vercmp : IsTotalPreorderCmp vercmp :=
  isTotalPreorderCmp_pull ver_segments (isTotalPreorderCmp_cmp_list _ isTotalPreorderCmp_cmp_segment)

theorem isTotalPreorderCmp_cra_package_compare : IsTotalPreorderCmp cra_package_compare :=
  isTotalPreorderCmp_then _ _ (isTotalPreorderCmp_pull CraPackage.epoch isTotalPreorderCmp_cmp_nat)
    (isTotalPreorderCmp_then _ _
      (isTotalPreorderCmp_pull CraPackage.version isTotalPreorderCmp_vercmp)
      (isTotalPreorderCmp_pull CraPackage.release isTotalPreorderCmp_vercmp))

/-! ## Lemmas: the loop invariant of the deduplicator -/

theorem g_hash_table_lookup_filter (h : GHashTable) (key k : String) (hk : key ≠ k) :
    g_hash_table_lookup (h.filter (fun e => !decide (e.1 = key))) k = g_hash_table_lookup h k := by
  induction h with
  | nil => rfl
  | cons e t ih =>
    obtain ⟨a, v⟩ := e
    by_cases ha : a = key
    · subst ha
      simp [List.filter, g_hash_table_lookup, hk, ih]
    · simp [List.filter, g_hash_table_lookup, ha, ih]

theorem g_hash_table_lookup_insert (h : GHashTable) (key k : String) (v : Nat) :
    g_hash_table_lookup (g_hash_table_insert h key v) k =
      if key = k then some v else g_hash_table_lookup h k := by
  unfold g_hash_table_insert
  by_cases hk : key = k
  · simp [g_hash_table_lookup, hk]
  · simp [g_hash_table_lookup, hk, g_hash_table_lookup_filter h key k hk]

theorem isTotalPreorderCmp_refl {α : Type} {c : α → α → Int} (h : IsTotalPreorderCmp c) (a : α) :
    c a a ≤ 0 := by
  have h1 := h.antisymm a a
  omega

theorem isTotalPreorderCmp_flip {α : Type} {c : α → α → Int} (h : IsTotalPreorderCmp c) (a b : α)
    (hab : ¬ c a b < 0) : c b a ≤ 0 := by
  have h1 := h.antisymm a b
  have h2 := h.antisymm b a
  omega

theorem disableInv_init (compare : CraPackage → CraPackage → Int) (ps0 : List CraPackage) :
    DisableInv compare ps0 0 ⟨ps0, []⟩ where
  len := rfl
  later := fun _ _ => rfl
  shape := fun _ _ h => Or.inl h
  newest_ok := by intro k m h; simp [g_hash_table_lookup] at h
  covered := by intro j p0 k h; omega
  unnamed := fun _ _ h _ => h

theorem disableInv_step (compare : CraPackage → CraPackage → Int) (ps0 : List CraPackage)
    (n : Nat) (st : DisableState) (hn : n < ps0.length) (inv : DisableInv compare ps0 n st) :
    DisableInv compare ps0 (n + 1) (disable_older_step compare st n) := by
  have hpk : st.packages[n]? = some ps0[n] := by
    rw [inv.later n (le_refl n)]; exact List.getElem?_eq_getElem hn
  have hp0 : ps0[n]? = some ps0[n] := List.getElem?_eq_getElem hn
  generalize hpkg : ps0[n] = pkg at hpk hp0
  unfold disable_older_step
  rw [hpk]
  simp only [cra_package_get_name]
  cases hname : pkg.name with
  | none =>
    simp only
    refine ⟨inv.len, fun j hj => inv.later j (by omega), inv.shape, ?_, ?_, inv.unnamed⟩
    · intro k m hl
      obtain ⟨h1, h2⟩ := inv.newest_ok k m hl
      exact ⟨by omega, h2⟩
    · intro j p0 k hj hj0 hk
      by_cases hjn : j = n
      · subst hjn
        rw [hp0] at hj0
        cases hj0
        rw [hname] at hk
        cases hk
      · exact inv.covered j p0 k (by omega) hj0 hk
  | some key =>
    simp only
    cases hlook : g_hash_table_lookup st.newest key with
    | none =>
      simp only
      refine ⟨inv.len, fun j hj => inv.later j (by omega), inv.shape, ?_, ?_, inv.unnamed⟩
      · intro k m hl
        rw [g_hash_table_lookup_insert] at hl
        by_cases hk : key = k
        · subst hk
          simp at hl
          subst hl
          exact ⟨by omega, pkg, hp0, hname, hpk⟩
        · simp [hk] at hl
          obtain ⟨h1, h2⟩ := inv.newest_ok k m hl
          exact ⟨by omega, h2⟩
      · intro j p0 k hj hj0 hk
        by_cases hjn : j = n
        · subst hjn
          rw [hp0] at hj0
          cases hj0
          rw [hname] at hk
          cases hk
          refine ⟨j, pkg, ?_, hp0, ?_, ?_, ?_⟩
          · simp [g_hash_table_lookup_insert]
          · intro h; exact absurd rfl h
          · intro h; omega
          · intro h; exact isTotalPreorderCmp_refl h pkg
        · have hkk : key ≠ k := by
            intro h
            subst h
            obtain ⟨m, pm, h1, _⟩ := inv.covered j p0 key (by omega) hj0 hk
            rw [hlook] at h1
            cases h1
          obtain ⟨m, pm, h1, h2, h3, h4, h5⟩ := inv.covered j p0 k (by omega) hj0 hk
          refine ⟨m, pm, ?_, h2, h3, h4, h5⟩
          simp [g_hash_table_lookup_insert, hkk, h1]
    | some f =>
      simp only
      obtain ⟨hfn, pf, hf0, hfname, hfst⟩ := inv.newest_ok key f hlook
      have hflen : f < st.packages.length := by
        have := List.getElem?_eq_some.1 hfst
        exact this.1
      have hnlen : n < st.packages.length := by rw [inv.len]; exact hn
      rw [hfst]
      simp only
      by_cases hc : compare pkg pf < 0
      · simp only [hc, if_true]
        refine ⟨by simp [inv.len], ?_, ?_, ?_, ?_, ?_⟩
        · intro j hj
          rw [List.getElem?_set_ne (by omega)]
          exact inv.later j (by omega)
        · intro j p0 hj0
          by_cases hjn : j = n
          · subst hjn
            rw [hp0] at hj0
            cases hj0
            right
            simp [List.getElem?_set, hnlen]
          · rw [List.getElem?_set_ne (by omega)]
            exact inv.shape j p0 hj0
        · intro k m hl
          obtain ⟨h1, pm, h2, h3, h4⟩ := inv.newest_ok k m hl
          refine ⟨by omega, pm, h2, h3, ?_⟩
          rw [List.getElem?_set_ne (by omega)]
          exact h4
        · intro j p0 k hj hj0 hk
          by_cases hjn : j = n
          · subst hjn
            rw [hp0] at hj0
            cases hj0
            rw [hname] at hk
            cases hk
            refine ⟨f, pf, hlook, hf0, ?_, ?_, ?_⟩
            · intro _
              simp [List.getElem?_set, hnlen]
            · intro _; exact hc
            · intro _; omega
          · obtain ⟨m, pm, h1, h2, h3, h4, h5⟩ := inv.covered j p0 k (by omega) hj0 hk
            refine ⟨m, pm, h1, h2, ?_, h4, h5⟩
            intro hjm
            rw [List.getElem?_set_ne (by omega)]
            exact h3 hjm
        · intro j p0 hj0 hnone
          have hjn : j ≠ n := by
            intro h
            subst h
            rw [hp0] at hj0
            cases hj0
            rw [hname] at hnone
            cases hnone
          rw [List.getElem?_set_ne (by omega)]
          exact inv.unnamed j p0 hj0 hnone
      · simp only [hc, if_false]
        refine ⟨by simp [inv.len], ?_, ?_, ?_, ?_, ?_⟩
        · intro j hj
          rw [List.getElem?_set_ne (by omega)]
          exact inv.later j (by omega)
        · intro j p0 hj0
          by_cases hjf : j = f
          · subst hjf
            rw [hf0] at hj0
            cases hj0
            right
            simp [List.getElem?_set, hflen]
          · rw [List.getElem?_set_ne (by omega)]
            exact inv.shape j p0 hj0
        · intro k m hl
          rw [g_hash_table_lookup_insert] at hl
          by_cases hk : key = k
          · subst hk
            simp at hl
            subst hl
            refine ⟨by omega, pkg, hp0, hname, ?_⟩
            rw [List.getElem?_set_ne (by omega)]
            exact hpk
          · simp [hk] at hl
            obtain ⟨h1, pm, h2, h3, h4⟩ := inv.newest_ok k m hl
            refine ⟨by omega, pm, h2, h3, ?_⟩
            have hmf : f ≠ m := by
              intro h
              subst h
              rw [hf0] at h2
              cases h2
              rw [hfname] at h3
              cases h3
              exact hk rfl
            rw [List.getElem?_set_ne hmf]
            exact h4
        · intro j p0 k hj hj0 hk
          by_cases hkk : key = k
          · subst hkk
            refine ⟨n, pkg, by simp [g_hash_table_lookup_insert], hp0, ?_, ?_, ?_⟩
            · intro hjn
              obtain ⟨m, pm, h1, h2, h3, h4, h5⟩ := inv.covered j p0 key (by omega) hj0 hk
              rw [hlook] at h1
              cases h1
              by_cases hjf : j = f
              · subst hjf
                rw [hf0] at hj0
                cases hj0
                simp [List.getElem?_set, hflen]
              · rw [List.getElem?_set_ne (by omega)]
                exact h3 hjf
            · intro h; omega
            · intro htp
              by_cases hjn : j = n
              · subst hjn
                rw [hp0] at hj0
                cases hj0
                exact isTotalPreorderCmp_refl htp pkg
              · obtain ⟨m, pm, h1, h2, h3, h4, h5⟩ := inv.covered j p0 key (by omega) hj0 hk
                rw [hlook] at h1
                cases h1
                rw [hf0] at h2
                cases h2
                exact htp.trans p0 pf pkg (h5 htp) (isTotalPreorderCmp_flip htp pkg pf hc)
          · have hjn : j ≠ n := by
              intro h
              subst h
              rw [hp0] at hj0
              cases hj0
              rw [hname] at hk
              cases hk
              exact hkk rfl
            obtain ⟨m, pm, h1, h2, h3, h4, h5⟩ := inv.covered j p0 k (by omega) hj0 hk
            refine ⟨m, pm, by simp [g_hash_table_lookup_insert, hkk, h1], h2, ?_, h4, h5⟩
            intro hjm
            have hjf : f ≠ j := by
              intro h
              subst h
              rw [hf0] at hj0
              cases hj0
              rw [hfname] at hk
              cases hk
              exact hkk rfl
            rw [List.getElem?_set_ne hjf]
            exact h3 hjm
        · intro j p0 hj0 hnone
          have hjf : f ≠ j := by
            intro h
            subst h
            rw [hf0] at hj0
            cases hj0
            rw [hfname] at hnone
            cases hnone
          rw [List.getElem?_set_ne hjf]
          exact inv.unnamed j p0 hj0 hnone

/-! ## The deduplicator: `cra_context_disable_older_packages` -/

theorem disableInv_loop (compare : CraPackage → CraPackage → Int) (ps0 : List CraPackage)
    (n : Nat) (hn : n ≤ ps0.length) :
    DisableInv compare ps0 n (disable_older_loop compare ps0 n) := by
  induction n with
  | zero => exact disableInv_init compare ps0
  | succ n ih =>
    unfold disable_older_loop
    rw [List.range_succ, List.foldl_append]
    exact disableInv_step compare ps0 n _ (by omega) (ih (by omega))

/-- What the loop leaves behind for a name that occurs in the array: the
package `pm` at index `m` is untouched, every other package of the name is
the package given on entry with `enabled` cleared, a later one compares
strictly lower than `pm`, and under a total preorder none compares greater. -/
theorem disable_older_winner (compare : CraPackage → CraPackage → Int)
    (ps0 : List CraPackage) (key : String) (hocc : ∃ p ∈ ps0, p.name = some key) :
    ∃ (m : Nat) (pm : CraPackage), ps0[m]? = some pm ∧ pm.name = some key ∧
      (cra_context_disable_older_packages compare ps0)[m]? = some pm ∧
      ∀ (j : Nat) (q : CraPackage), ps0[j]? = some q → q.name = some key →
        (j ≠ m → (cra_context_disable_older_packages compare ps0)[j]? =
          some (cra_package_set_enabled q false)) ∧
        (m < j → compare q pm < 0) ∧
        (IsTotalPreorderCmp compare → compare q pm ≤ 0) := by
  have inv := disableInv_loop compare ps0 ps0.length (le_refl _)
  obtain ⟨p, hp, hpname⟩ := hocc
  obtain ⟨j0, hj0⟩ := List.getElem?_of_mem hp
  have hj0lt : j0 < ps0.length := (List.getElem?_eq_some.1 hj0).1
  obtain ⟨m, pm, hl, hm0, -, -, -⟩ := inv.covered j0 p key hj0lt hj0 hpname
  obtain ⟨-, pm', hm0', hmname, hmst⟩ := inv.newest_ok key m hl
  rw [hm0] at hm0'
  cases hm0'
  refine ⟨m, pm, hm0, hmname, hmst, ?_⟩
  intro j q hj hq
  have hjlt : j < ps0.length := (List.getElem?_eq_some.1 hj).1
  obtain ⟨m', pm', hl', hm', h3, h4, h5⟩ := inv.covered j q key hjlt hj hq
  rw [hl] at hl'
  cases hl'
  rw [hm0] at hm'
  cases hm'
  exact ⟨h3, h4, h5⟩

theorem disable_older_length (compare : CraPackage → CraPackage → Int) (ps0 : List CraPackage) :
    (cra_context_disable_older_packages compare ps0).length = ps0.length :=
  (disableInv_loop compare ps0 ps0.length (le_refl _)).len

theorem disable_older_shape (compare : CraPackage → CraPackage → Int) (ps0 : List CraPackage)
    (j : Nat) (a : CraPackage)
    (h : (cra_context_disable_older_packages compare ps0)[j]? = some a) :
    ∃ p0, ps0[j]? = some p0 ∧ (a = p0 ∨ a = cra_package_set_enabled p0 false) := by
  have inv := disableInv_loop compare ps0 ps0.length (le_refl _)
  have hjlt : j < ps0.length := by
    have := (List.getElem?_eq_some.1 h).1
    rw [disable_older_length] at this
    exact this
  refine ⟨ps0[j], List.getElem?_eq_getElem hjlt, ?_⟩
  rcases inv.shape j ps0[j] (List.getElem?_eq_getElem hjlt) with h1 | h1
  · left
    have h2 : (cra_context_disable_older_packages compare ps0)[j]? = some ps0[j] := h1
    rw [h] at h2
    exact Option.some.inj h2
  · right
    have h2 : (cra_context_disable_older_packages compare ps0)[j]? =
        some (cra_package_set_enabled ps0[j] false) := h1
    rw [h] at h2
    exact Option.some.inj h2

theorem countP_eq_one_of_unique {α : Type} (P : α → Bool) :
    ∀ (l : List α) (m : Nat), (∃ a, l[m]? = some a ∧ P a = true) →
      (∀ (j : Nat) (a : α), j ≠ m → l[j]? = some a → P a = false) → l.countP P = 1 := by
  intro l
  induction l with
  | nil =>
    intro m h _
    obtain ⟨a, ha, _⟩ := h
    simp at ha
  | cons x t ih =>
    intro m h hu
    cases m with
    | zero =>
      obtain ⟨a, ha, hPa⟩ := h
      simp at ha
      subst ha
      have ht : t.countP P = 0 := by
        rw [List.countP_eq_zero]
        intro b hb
        obtain ⟨j, hj⟩ := List.getElem?_of_mem hb
        have := hu (j + 1) b (by omega) (by simpa using hj)
        simp [this]
      simp [List.countP_cons, hPa, ht]
    | succ m =>
      obtain ⟨a, ha, hPa⟩ := h
      have hx : P x = false := hu 0 x (by omega) (by simp)
      have ht : t.countP P = 1 := by
        apply ih m ⟨a, by simpa using ha, hPa⟩
        intro j b hj hb
        exact hu (j + 1) b (by omega) (by simpa using hb)
      simp [List.countP_cons, hx, ht]

/-- C1: when every package is enabled on entry, after
`cra_context_disable_older_packages` exactly one package of each name that
occurs in the array is enabled, whatever the compare function is. -/
theorem disable_older_exactly_one_enabled (compare : CraPackage → CraPackage → Int)
    (packages : List CraPackage) (hall : ∀ p ∈ packages, p.enabled = true)
    (key : String) (hocc : ∃ p ∈ packages, cra_package_get_name p = some key) :
    List.countP (fun p => decide (cra_package_get_name p = some key) && p.enabled)
      (cra_context_disable_older_packages compare packages) = 1 := by
  obtain ⟨m, pm, hm0, hmname, hmst, hrest⟩ := disable_older_winner compare packages key hocc
  apply countP_eq_one_of_unique _ _ m
  · refine ⟨pm, hmst, ?_⟩
    have hen : pm.enabled = true := hall pm (List.getElem?_mem hm0)
    simp [cra_package_get_name, hmname, hen]
  · intro j a hjm ha
    obtain ⟨p0, hp0, hshape⟩ := disable_older_shape compare packages j a ha
    by_cases hname : p0.name = some key
    · have h := (hrest j p0 hp0 hname).1 hjm
      rw [ha] at h
      cases h
      simp [cra_package_set_enabled]
    · rcases hshape with h | h <;> subst h <;>
        simp [cra_package_get_name, cra_package_set_enabled, hname]

theorem disable_older_exactly_one_enabled_witness :
    List.countP (fun p => decide (cra_package_get_name p = some "foo") && p.enabled)
      (cra_context_disable_older_packages cra_package_compare
        [example_package "foo-1.0-1.rpm" "foo" "1.0" "1",
         example_package "bar-2.0-1.rpm" "bar" "2.0" "1",
         example_package "foo-1.2-1.rpm" "foo" "1.2" "1"]) = 1 :=
  disable_older_exactly_one_enabled cra_package_compare _ (by decide) "foo" (by decide)

/-- C2: when every package is enabled on entry and the compare function is a
total preorder, each name that occurs keeps one package enabled and
unchanged; no package of that name compares strictly greater than it, and
every other package of that name ends disabled. -/
theorem disable_older_keeps_maximal (compare : CraPackage → CraPackage → Int)
    (hpre : IsTotalPreorderCmp compare)
    (packages : List CraPackage) (hall : ∀ p ∈ packages, p.enabled = true)
    (key : String) (hocc : ∃ p ∈ packages, cra_package_get_name p = some key) :
    ∃ (m : Nat) (pm : CraPackage), packages[m]? = some pm ∧
      cra_package_get_name pm = some key ∧ pm.enabled = true ∧
      (cra_context_disable_older_packages compare packages)[m]? = some pm ∧
      ∀ (j : Nat) (q : CraPackage), packages[j]? = some q →
        cra_package_get_name q = some key →
        ¬ (0 < compare q pm) ∧
        (j ≠ m → ∃ q', (cra_context_disable_older_packages compare packages)[j]? = some q' ∧
          q'.enabled = false) := by
  obtain ⟨m, pm, hm0, hmname, hmst, hrest⟩ := disable_older_winner compare packages key hocc
  refine ⟨m, pm, hm0, hmname, hall pm (List.getElem?_mem hm0), hmst, ?_⟩
  intro j q hj hq
  obtain ⟨h1, -, h3⟩ := hrest j q hj hq
  refine ⟨by have := h3 hpre; omega, fun hjm => ⟨_, h1 hjm, rfl⟩⟩

theorem disable_older_keeps_maximal_witness :
    cra_context_disable_older_packages cra_package_compare
        [example_package "foo-1.0-1.rpm" "foo" "1.0" "1",
         example_package "foo-1.2-1.rpm" "foo" "1.2" "1"] =
      [cra_package_set_enabled (example_package "foo-1.0-1.rpm" "foo" "1.0" "1") false,
       example_package "foo-1.2-1.rpm" "foo" "1.2" "1"] ∧
    ∃ (m : Nat) (pm : CraPackage),
      [example_package "foo-1.0-1.rpm" "foo" "1.0" "1",
       example_package "foo-1.2-1.rpm" "foo" "1.2" "1"][m]? = some pm ∧
      cra_package_get_name pm = some "foo" ∧ pm.enabled = true ∧
      (cra_context_disable_older_packages cra_package_compare
        [example_package "foo-1.0-1.rpm" "foo" "1.0" "1",
         example_package "foo-1.2-1.rpm" "foo" "1.2" "1"])[m]? = some pm ∧
      ∀ (j : Nat) (q : CraPackage),
        [example_package "foo-1.0-1.rpm" "foo" "1.0" "1",
         example_package "foo-1.2-1.rpm" "foo" "1.2" "1"][j]? = some q →
        cra_package_get_name q = some "foo" →
        ¬ (0 < cra_package_compare q pm) ∧
        (j ≠ m → ∃ q', (cra_context_disable_older_packages cra_package_compare
          [example_package "foo-1.0-1.rpm" "foo" "1.0" "1",
           example_package "foo-1.2-1.rpm" "foo" "1.2" "1"])[j]? = some q' ∧
          q'.enabled = false) :=
  ⟨by decide,
   disable_older_keeps_maximal cra_package_compare isTotalPreorderCmp_cra_package_compare _
    (by decide) "foo" (by decide)⟩

/-- C3 as stated fails: of two packages `foo-1.0-1` that compare equal, the
first in the list ends disabled and the later one stays enabled. -/
theorem disable_older_tie_counterexample :
    cra_package_compare (example_package "b/foo-1.0-1.rpm" "foo" "1.0" "1")
        (example_package "a/foo-1.0-1.rpm" "foo" "1.0" "1") = 0 ∧
    cra_context_disable_older_packages cra_package_compare
        [example_package "a/foo-1.0-1.rpm" "foo" "1.0" "1",
         example_package "b/foo-1.0-1.rpm" "foo" "1.0" "1"] =
      [cra_package_set_enabled (example_package "a/foo-1.0-1.rpm" "foo" "1.0" "1") false,
       example_package "b/foo-1.0-1.rpm" "foo" "1.0" "1"] ∧
    ¬ ((cra_context_disable_older_packages cra_package_compare
        [example_package "a/foo-1.0-1.rpm" "foo" "1.0" "1",
         example_package "b/foo-1.0-1.rpm" "foo" "1.0" "1"]).map CraPackage.enabled =
      [true, false]) := by
  decide

/-- C3 amended: of two packages of the same name where the later one compares
equal to the earlier one, `cra_context_disable_older_packages` disables the
earlier one; when the two are the only packages of that name, the later one
is left enabled and unchanged. -/
theorem disable_older_tie_keeps_later (compare : CraPackage → CraPackage → Int)
    (packages : List CraPackage) (i j : Nat) (p q : CraPackage) (key : String)
    (hij : i < j) (hi : packages[i]? = some p) (hj : packages[j]? = some q)
    (hp : cra_package_get_name p = some key) (hq : cra_package_get_name q = some key)
    (htie : compare q p = 0) :
    (cra_context_disable_older_packages compare packages)[i]? =
        some (cra_package_set_enabled p false) ∧
    ((∀ (l : Nat) (r : CraPackage), packages[l]? = some r →
        cra_package_get_name r = some key → l = i ∨ l = j) →
      (cra_context_disable_older_packages compare packages)[j]? = some q) := by
  obtain ⟨m, pm, hm0, hmname, hmst, hrest⟩ :=
    disable_older_winner compare packages key ⟨p, List.getElem?_mem hi, hp⟩
  have hmi : i ≠ m := by
    intro h
    subst h
    rw [hi] at hm0
    cases hm0
    have := (hrest j q hj hq).2.1 hij
    omega
  refine ⟨(hrest i p hi hp).1 hmi, ?_⟩
  intro honly
  rcases honly m pm hm0 hmname with h | h
  · exact absurd h.symm hmi
  · subst h
    rw [hj] at hm0
    cases hm0
    exact hmst

theorem disable_older_tie_keeps_later_witness :
    (cra_context_disable_older_packages cra_package_compare
        [example_package "a/foo-1.0-1.rpm" "foo" "1.0" "1",
         example_package "b/foo-1.0-1.rpm" "foo" "1.0" "1"])[0]? =
        some (cra_package_set_enabled (example_package "a/foo-1.0-1.rpm" "foo" "1.0" "1") false) ∧
    ((∀ (l : Nat) (r : CraPackage),
        [example_package "a/foo-1.0-1.rpm" "foo" "1.0" "1",
         example_package "b/foo-1.0-1.rpm" "foo" "1.0" "1"][l]? = some r →
        cra_package_get_name r = some "foo" → l = 0 ∨ l = 1) →
      (cra_context_disable_older_packages cra_package_compare
        [example_package "a/foo-1.0-1.rpm" "foo" "1.0" "1",
         example_package "b/foo-1.0-1.rpm" "foo" "1.0" "1"])[1]? =
        some (example_package "b/foo-1.0-1.rpm" "foo" "1.0" "1")) :=
  disable_older_tie_keeps_later cra_package_compare _ 0 1 _ _ "foo" (by decide) (by decide)
    (by decide) (by decide) (by decide) (by decide)

/-! ## Archive exploding -/

/-- C4, at the failing input `../../etc/passwd` exploded into `/tmp/foo`:
`cra_package_explode` hands the extractor the path
`/tmp/foo/../../etc/passwd`, which resolves to `/etc/passwd`, outside the
directory; a hardlink target with `../` segments escapes the same way. -/
theorem cra_package_explode_escapes_dir :
    cra_package_explode "/tmp/foo" (fun _ => true)
        (.ok [.ok { pathname := some "../../etc/passwd", hardlink := some "../../etc/shadow",
                    symlink := none }]) =
      (true, [{ pathname := some "/tmp/foo/../../etc/passwd",
                hardlink := some "/tmp/foo/../../etc/shadow", symlink := none }]) ∧
    path_resolve "/tmp/foo/../../etc/passwd" = [['e', 't', 'c'], ['p', 'a', 's', 's', 'w', 'd']] ∧
    path_inside "/tmp/foo" (g_snprintf_path "/tmp/foo" "../../etc/passwd") = false ∧
    path_inside "/tmp/foo" (g_snprintf_path "/tmp/foo" "../../etc/shadow") = false := by
  decide

/-! ## Plugin matching -/

theorem match_fn_eq_some (fnmatch : String → String → Bool) (filename : String) :
    ∀ (plugins : List CraPlugin) (p : Nat),
      cra_plugin_loader_match_fn fnmatch plugins filename = some p ↔
        ∃ plugin, plugins[p]? = some plugin ∧
          cra_plugin_check_filename fnmatch plugin filename = true ∧
          ∀ (q : Nat) (other : CraPlugin), q < p → plugins[q]? = some other →
            cra_plugin_check_filename fnmatch other filename = false := by
  intro plugins
  induction plugins with
  | nil => intro p; simp [cra_plugin_loader_match_fn]
  | cons x xs ih =>
    intro p
    unfold cra_plugin_loader_match_fn
    by_cases hx : cra_plugin_check_filename fnmatch x filename = true
    · rw [if_pos hx]
      constructor
      · intro h
        cases h
        exact ⟨x, by simp, hx, fun q _ hq => absurd hq (by omega)⟩
      · rintro ⟨plugin, hp, -, hall⟩
        cases p with
        | zero => rfl
        | succ p =>
          have := hall 0 x (by omega) (by simp)
          rw [hx] at this
          cases this
    · rw [if_neg hx]
      have hxf : cra_plugin_check_filename fnmatch x filename = false := by
        simpa using hx
      constructor
      · intro h
        cases hrec : cra_plugin_loader_match_fn fnmatch xs filename with
        | none => rw [hrec] at h; cases h
        | some p' =>
          rw [hrec] at h
          simp only [Option.map_some'] at h
          cases h
          obtain ⟨plugin, hp, hc, hall⟩ := (ih p').1 hrec
          refine ⟨plugin, by simpa using hp, hc, ?_⟩
          intro q other hq hother
          cases q with
          | zero =>
            simp at hother
            subst hother
            exact hxf
          | succ q => exact hall q other (by omega) (by simpa using hother)
      · rintro ⟨plugin, hp, hc, hall⟩
        cases p with
        | zero =>
          simp at hp
          subst hp
          rw [hc] at hxf
          cases hxf
        | succ p =>
          have hrec : cra_plugin_loader_match_fn fnmatch xs filename = some p := by
            apply (ih p).2
            refine ⟨plugin, by simpa using hp, hc, ?_⟩
            intro q other hq hother
            exact hall (q + 1) other (by omega) (by simpa using hother)
          rw [hrec]
          rfl

theorem mem_add_suitable_plugin (fnmatch : String → String → Bool) (plugins : List CraPlugin)
    (acc : List Nat) (filename : String) (p : Nat) :
    p ∈ add_suitable_plugin fnmatch plugins acc filename ↔
      p ∈ acc ∨ cra_plugin_loader_match_fn fnmatch plugins filename = some p := by
  unfold add_suitable_plugin
  cases h : cra_plugin_loader_match_fn fnmatch plugins filename with
  | none => simp
  | some plugin =>
    simp only
    by_cases hin : plugin ∈ acc
    · rw [if_pos hin]
      constructor
      · intro hp; exact Or.inl hp
      · rintro (hp | hp)
        · exact hp
        · cases hp; exact hin
    · rw [if_neg hin]
      simp only [List.mem_append, List.mem_singleton, Option.some.injEq]
      constructor
      · rintro (hp | hp)
        · exact Or.inl hp
        · exact Or.inr hp.symm
      · rintro (hp | hp)
        · exact Or.inl hp
        · exact Or.inr hp.symm

theorem mem_foldl_add_suitable_plugin (fnmatch : String → String → Bool)
    (plugins : List CraPlugin) (p : Nat) :
    ∀ (files : List String) (acc : List Nat),
      p ∈ files.foldl (add_suitable_plugin fnmatch plugins) acc ↔
        p ∈ acc ∨ ∃ f ∈ files, cra_plugin_loader_match_fn fnmatch plugins f = some p := by
  intro files
  induction files with
  | nil => intro acc; simp
  | cons f fs ih =>
    intro acc
    rw [List.foldl_cons, ih, mem_add_suitable_plugin]
    simp only [List.mem_cons, exists_eq_or_imp]
    tauto

theorem nodup_add_suitable_plugin (fnmatch : String → String → Bool) (plugins : List CraPlugin)
    (acc : List Nat) (filename : String) (h : acc.Nodup) :
    (add_suitable_plugin fnmatch plugins acc filename).Nodup := by
  unfold add_suitable_plugin
  cases cra_plugin_loader_match_fn fnmatch plugins filename with
  | none => exact h
  | some plugin =>
    simp only
    by_cases hin : plugin ∈ acc
    · rw [if_pos hin]; exact h
    · rw [if_neg hin]
      rw [List.nodup_append]
      refine ⟨h, List.nodup_singleton _, ?_⟩
      intro a ha hb
      simp only [List.mem_singleton] at hb
      subst hb
      exact hin ha

theorem nodup_foldl_add_suitable_plugin (fnmatch : String → String → Bool)
    (plugins : List CraPlugin) :
    ∀ (files : List String) (acc : List Nat), acc.Nodup →
      (files.foldl (add_suitable_plugin fnmatch plugins) acc).Nodup := by
  intro files
  induction files with
  | nil => intro acc h; exact h
  | cons f fs ih =>
    intro acc h
    exact ih _ (nodup_add_suitable_plugin fnmatch plugins acc f h)

/-- C6 as stated fails: the file `/usr/share/fonts/vera/Vera.ttf` matches a
glob of both registered plugins, and `cra_task_add_suitable_plugins` puts
only the first of them (index 0) in `plugins_to_run`. -/
theorem add_suitable_plugins_counterexample :
    cra_task_add_suitable_plugins fnmatch_simple
        [{ name := "font", globs := ["/usr/share/fonts/*/*.otf", "/usr/share/fonts/*/*.ttf"] },
         { name := "ttf", globs := ["*.ttf"] }]
        (some ["/usr/share/fonts/vera/Vera.ttf"]) [] = [0] ∧
    cra_plugin_check_filename fnmatch_simple { name := "ttf", globs := ["*.ttf"] }
        "/usr/share/fonts/vera/Vera.ttf" = true ∧
    ¬ (1 ∈ cra_task_add_suitable_plugins fnmatch_simple
        [{ name := "font", globs := ["/usr/share/fonts/*/*.otf", "/usr/share/fonts/*/*.ttf"] },
         { name := "ttf", globs := ["*.ttf"] }]
        (some ["/usr/share/fonts/vera/Vera.ttf"]) []) := by
  decide

/-- C6 amended: the plugin at index `p` of the registry is in the
`plugins_to_run` that `cra_task_add_suitable_plugins` builds from an empty
array if and only if some file of the file list matches one of its globs and
matches no glob of a plugin registered before it. -/
theorem add_suitable_plugins_iff_first_match (fnmatch : String → String → Bool)
    (plugins : List CraPlugin) (filelist : Option (List String)) (p : Nat) :
    p ∈ cra_task_add_suitable_plugins fnmatch plugins filelist [] ↔
      ∃ f ∈ filelist.getD [], ∃ plugin, plugins[p]? = some plugin ∧
        cra_plugin_check_filename fnmatch plugin f = true ∧
        ∀ (q : Nat) (other : CraPlugin), q < p → plugins[q]? = some other →
          cra_plugin_check_filename fnmatch other f = false := by
  unfold cra_task_add_suitable_plugins
  cases filelist with
  | none => simp
  | some files =>
    simp only [Option.getD_some]
    rw [mem_foldl_add_suitable_plugin]
    simp only [List.not_mem_nil, false_or]
    constructor
    · rintro ⟨f, hf, h⟩
      exact ⟨f, hf, (match_fn_eq_some fnmatch f plugins p).1 h⟩
    · rintro ⟨f, hf, h⟩
      exact ⟨f, hf, (match_fn_eq_some fnmatch f plugins p).2 h⟩

/-- C7: the `plugins_to_run` that `cra_task_add_suitable_plugins` builds from
the empty array of a new task holds no plugin twice. -/
theorem add_suitable_plugins_nodup (fnmatch : String → String → Bool)
    (plugins : List CraPlugin) (filelist : Option (List String)) :
    (cra_task_add_suitable_plugins fnmatch plugins filelist []).Nodup := by
  unfold cra_task_add_suitable_plugins
  cases filelist with
  | none => exact List.nodup_nil
  | some files => exact nodup_foldl_add_suitable_plugin fnmatch plugins files [] List.nodup_nil

/-! ## The task: extraction, validation and the sentinel -/

theorem run_plugin_apps (env : CraEnv) (ctx : CraContext) (task : CraTask) (acc : PluginRun)
    (plugin : Nat) :
    (run_plugin env ctx task acc plugin).apps =
      match env.plugin_process plugin task.pkg task.tmpdir with
      | .ok l => l
      | .error _ => [] := by
  unfold run_plugin
  split <;> simp_all

/-- The variable `apps` after the plugin loop holds what the last plugin of
`plugins_to_run` returned, whatever the plugins before it returned. -/
theorem run_plugins_last (env : CraEnv) (ctx : CraContext) (task : CraTask)
    (plugins_to_run : List Nat) (plugin : Nat) :
    (run_plugins env ctx task (plugins_to_run ++ [plugin])).apps =
      match env.plugin_process plugin task.pkg task.tmpdir with
      | .ok l => l
      | .error _ => [] := by
  unfold run_plugins
  rw [List.foldl_append, List.foldl_cons, List.foldl_nil, run_plugin_apps]

/-- C5, at the failing input: the font plugin (index 0) extracts the complete
record `Vera.ttf` and the desktop plugin (index 1) fails.  Both plugins are
matched, the plugin loop ends with `apps` empty and the task adds nothing to
the result set; with the failing plugin first, the record is added. -/
theorem run_plugins_discards_earlier_records :
    (cra_task_process_func
        (example_env (fun i => if i = 0 then
          .ok [example_app (some "Vera.ttf") (some "Vera.png") (some "Vera") (some "A font")]
          else .error "no desktop file"))
        (example_ctx [{ name := "font", globs := ["/usr/share/fonts/*/*.ttf"] },
                      { name := "desktop", globs := ["/usr/share/applications/*.desktop"] }] false)
        (example_task ["/usr/share/fonts/vera/Vera.ttf",
                       "/usr/share/applications/foo.desktop"])).plugins_to_run = [0, 1] ∧
    (run_plugins
        (example_env (fun i => if i = 0 then
          .ok [example_app (some "Vera.ttf") (some "Vera.png") (some "Vera") (some "A font")]
          else .error "no desktop file"))
        (example_ctx [{ name := "font", globs := ["/usr/share/fonts/*/*.ttf"] },
                      { name := "desktop", globs := ["/usr/share/applications/*.desktop"] }] false)
        (example_task ["/usr/share/fonts/vera/Vera.ttf",
                       "/usr/share/applications/foo.desktop"]) [0, 1]).apps = [] ∧
    (cra_task_process_func
        (example_env (fun i => if i = 0 then
          .ok [example_app (some "Vera.ttf") (some "Vera.png") (some "Vera") (some "A font")]
          else .error "no desktop file"))
        (example_ctx [{ name := "font", globs := ["/usr/share/fonts/*/*.ttf"] },
                      { name := "desktop", globs := ["/usr/share/applications/*.desktop"] }] false)
        (example_task ["/usr/share/fonts/vera/Vera.ttf",
                       "/usr/share/applications/foo.desktop"])).ctx_apps = [] ∧
    (cra_task_process_func
        (example_env (fun i => if i = 1 then
          .ok [example_app (some "Vera.ttf") (some "Vera.png") (some "Vera") (some "A font")]
          else .error "no desktop file"))
        (example_ctx [{ name := "desktop", globs := ["/usr/share/applications/*.desktop"] },
                      { name := "font", globs := ["/usr/share/fonts/*/*.ttf"] }] false)
        (example_task ["/usr/share/applications/foo.desktop",
                       "/usr/share/fonts/vera/Vera.ttf"])).ctx_apps =
      [example_app (some "Vera.ttf") (some "Vera.png") (some "Vera") (some "A font")] := by
  decide

theorem add_missing_vetos_complete (a : CraApp) (h : (add_missing_vetos a).vetos.length = 0) :
    add_missing_vetos a = a ∧ record_complete a := by
  unfold add_missing_vetos cra_app_add_veto record_complete at *
  by_cases h1 : a.icon = none <;> by_cases h2 : a.name = none <;>
    by_cases h3 : a.comment = none <;> simp_all

theorem as_app_add_metadata_complete (a : CraApp) (key value : String) (h : record_complete a) :
    record_complete (as_app_add_metadata a key value) := h

/-- One iteration of the loop over the candidate records either leaves the
result set and `nr_added` as they are, or appends one complete record. -/
theorem process_app_spec (env : CraEnv) (ctx : CraContext) (task : CraTask) (app : CraApp)
    (st : AppsState) :
    ((process_app env ctx task app st).2.ctx_apps = st.ctx_apps ∧
      (process_app env ctx task app st).2.nr_added = st.nr_added) ∨
    ∃ a, record_complete a ∧
      (process_app env ctx task app st).2.ctx_apps = st.ctx_apps ++ [a] ∧
      (process_app env ctx task app st).2.nr_added = st.nr_added + 1 := by
  unfold process_app
  by_cases h1 : app.id_full = none
  · rw [if_pos h1]
    exact Or.inl ⟨rfl, rfl⟩
  · rw [if_neg h1]
    by_cases h2 : (cra_glob_value_search env.fnmatch ctx.blacklisted_ids
        (env.app_get_id app)).isSome = true
    · rw [if_pos h2]
      exact Or.inl ⟨rfl, rfl⟩
    · rw [if_neg h2]
      dsimp only
      cases env.plugin_loader_process_app task.pkg (copy_package_data env task app)
          task.tmpdir with
      | error msg => exact Or.inl ⟨rfl, rfl⟩
      | ok app2 =>
        dsimp only
        by_cases h3 : (add_missing_vetos app2).vetos.length > 0 ∨
            (add_missing_vetos app2).requires_appdata.length > 0
        · rw [if_pos h3]
          exact Or.inl ⟨rfl, rfl⟩
        · rw [if_neg h3]
          have hv : (add_missing_vetos app2).vetos.length = 0 := by omega
          have hc : record_complete (add_missing_vetos app2) := by
            rw [(add_missing_vetos_complete app2 hv).1]
            exact (add_missing_vetos_complete app2 hv).2
          cases env.app_save_resources (add_missing_vetos app2) with
          | error msg => exact Or.inl ⟨rfl, rfl⟩
          | ok u =>
            right
            dsimp only
            by_cases h4 : ctx.add_cache_id = true
            · rw [if_pos h4]
              exact ⟨_, as_app_add_metadata_complete _ _ _ hc, rfl, rfl⟩
            · rw [if_neg h4]
              exact ⟨_, hc, rfl, rfl⟩

/-- The loop over the candidate records appends complete records only, and
counts each in `nr_added`. -/
theorem process_apps_spec (env : CraEnv) (ctx : CraContext) (task : CraTask) :
    ∀ (apps : List CraApp) (st : AppsState),
      ∃ valid : List CraApp, (∀ a ∈ valid, record_complete a) ∧
        (process_apps env ctx task apps st).ctx_apps = st.ctx_apps ++ valid ∧
        (process_apps env ctx task apps st).nr_added = st.nr_added + valid.length := by
  intro apps
  induction apps with
  | nil => intro st; exact ⟨[], by simp, by simp [process_apps], by simp [process_apps]⟩
  | cons app rest ih =>
    intro st
    have hstep := process_app_spec env ctx task app st
    unfold process_apps
    rcases hp : process_app env ctx task app st with ⟨c, st'⟩
    rw [hp] at hstep
    simp only at hstep
    cases c with
    | skip =>
      simp only
      rcases hstep with ⟨h1, h2⟩ | ⟨a, ha, h1, h2⟩
      · exact ⟨[], by simp, by simp [h1], by simp [h2]⟩
      · refine ⟨[a], ?_, h1, by simp [h2]⟩
        intro b hb
        simp only [List.mem_singleton] at hb
        subst hb
        exact ha
    | next =>
      simp only
      obtain ⟨valid, hv, h3, h4⟩ := ih st'
      rcases hstep with ⟨h1, h2⟩ | ⟨a, ha, h1, h2⟩
      · exact ⟨valid, hv, by rw [h3, h1], by rw [h4, h2]⟩
      · refine ⟨a :: valid, ?_, by rw [h3, h1]; simp, by rw [h4, h2]; simp; omega⟩
        intro b hb
        rcases List.mem_cons.1 hb with hb | hb
        · subst hb; exact ha
        · exact hv b hb

theorem cra_task_finish_ctx_apps (env : CraEnv) (ctx : CraContext) (task : CraTask)
    (plugins_to_run : List Nat) (exploded : List (CraPackage × String)) (st : AppsState) :
    (cra_task_finish env ctx task plugins_to_run exploded st).ctx_apps =
      (if ctx.add_cache_id ∧ st.nr_added = 0 then
        cra_context_add_app st.ctx_apps (cra_task_dummy env task)
      else st.ctx_apps) ∧
    (cra_task_finish env ctx task plugins_to_run exploded st).nr_added = st.nr_added := by
  unfold cra_task_finish
  dsimp only
  cases env.rmtree task.tmpdir with
  | error msg => exact ⟨rfl, rfl⟩
  | ok u =>
    cases env.package_log_flush task.pkg with
    | error msg => exact ⟨rfl, rfl⟩
    | ok v => exact ⟨rfl, rfl⟩

/-- What a task adds, from the state `st` in which it reaches the label
`skip`, when `st` holds the complete records `valid` after `ctx->apps`. -/
theorem cra_task_finish_spec (env : CraEnv) (ctx : CraContext) (task : CraTask)
    (plugins_to_run : List Nat) (exploded : List (CraPackage × String)) (st : AppsState)
    (valid : List CraApp) (h1 : st.ctx_apps = ctx.apps ++ valid)
    (h2 : st.nr_added = valid.length) :
    (cra_task_finish env ctx task plugins_to_run exploded st).nr_added = valid.length ∧
    (cra_task_finish env ctx task plugins_to_run exploded st).ctx_apps =
      ctx.apps ++ valid ++
        (if ctx.add_cache_id = true ∧ valid = [] then [cra_task_dummy env task] else []) := by
  obtain ⟨h3, h4⟩ := cra_task_finish_ctx_apps env ctx task plugins_to_run exploded st
  refine ⟨by rw [h4, h2], ?_⟩
  rw [h3, h1, h2]
  by_cases hc : ctx.add_cache_id = true
  · cases valid with
    | nil => simp [hc, cra_context_add_app]
    | cons a t => simp [hc]
  · simp [hc]

theorem cra_task_finish_reached_skip (env : CraEnv) (ctx : CraContext) (task : CraTask)
    (plugins_to_run : List Nat) (exploded : List (CraPackage × String)) (st : AppsState) :
    (cra_task_finish env ctx task plugins_to_run exploded st).reached_skip = true := by
  unfold cra_task_finish
  dsimp only
  cases env.rmtree task.tmpdir with
  | error msg => rfl
  | ok u =>
    cases env.package_log_flush task.pkg with
    | error msg => rfl
    | ok v => rfl

/-- The two ways `cra_task_process_func` ends: at `goto out` before the
workspace exists, with nothing added, or through the label `skip`, entered
with complete records after `ctx->apps`. -/
theorem cra_task_process_func_cases (env : CraEnv) (ctx : CraContext) (task : CraTask) :
    ((cra_task_process_func env ctx task).reached_skip = false ∧
      (cra_task_process_func env ctx task).ctx_apps = ctx.apps ∧
      (cra_task_process_func env ctx task).nr_added = 0 ∧
      (cra_task_add_suitable_plugins env.fnmatch ctx.plugins task.pkg.filelist
          task.plugins_to_run = [] ∨
        ∃ msg, env.ensure_exists_and_empty task.tmpdir = .error msg)) ∨
    ∃ (plugins_to_run : List Nat) (exploded : List (CraPackage × String)) (st : AppsState)
      (valid : List CraApp),
      cra_task_process_func env ctx task =
        cra_task_finish env ctx task plugins_to_run exploded st ∧
      st.ctx_apps = ctx.apps ++ valid ∧ st.nr_added = valid.length ∧
      ∀ a ∈ valid, record_complete a := by
  unfold cra_task_process_func
  dsimp only
  by_cases h0 : (cra_task_add_suitable_plugins env.fnmatch ctx.plugins task.pkg.filelist
      task.plugins_to_run).length = 0
  · rw [if_pos h0]
    exact Or.inl ⟨rfl, rfl, rfl, Or.inl (List.length_eq_zero.1 h0)⟩
  · rw [if_neg h0]
    cases h1 : env.ensure_exists_and_empty task.tmpdir with
    | error msg => exact Or.inl ⟨rfl, rfl, rfl, Or.inr ⟨msg, rfl⟩⟩
    | ok u =>
      right
      dsimp only
      cases env.package_explode task.pkg task.tmpdir with
      | error msg => exact ⟨_, _, _, [], rfl, by simp, rfl, by simp⟩
      | ok v =>
        dsimp only
        by_cases h2 : (!(cra_context_explode_extra_packages env ctx task).ret) = true
        · rw [if_pos h2]
          exact ⟨_, _, _, [], rfl, by simp, rfl, by simp⟩
        · rw [if_neg h2]
          obtain ⟨valid, hv, h3, h4⟩ := process_apps_spec env ctx task
            (run_plugins env ctx task (cra_task_add_suitable_plugins env.fnmatch ctx.plugins
              task.pkg.filelist task.plugins_to_run)).apps
            { ctx_apps := ctx.apps, nr_added := 0,
              log := [(CraPackageLogLevel.debug,
                  "Getting filename match for " ++ env.path_get_basename task.filename)] ++
                [(CraPackageLogLevel.debug,
                  "Exploding tree for " ++ name_str (cra_package_get_name task.pkg))] ++
                (cra_context_explode_extra_packages env ctx task).log ++
                (run_plugins env ctx task (cra_task_add_suitable_plugins env.fnmatch ctx.plugins
                  task.pkg.filelist task.plugins_to_run)).log,
              visited := [] }
          exact ⟨_, _, _, valid, rfl, h3, by simpa using h4, hv⟩

/-- What a task adds to the result set: complete records, counted by
`nr_added`, and after them the sentinel when cache ids are added, the label
`skip` was reached and no record was added. -/
theorem cra_task_process_func_adds (env : CraEnv) (ctx : CraContext) (task : CraTask) :
    ∃ valid : List CraApp, (∀ a ∈ valid, record_complete a) ∧
      (cra_task_process_func env ctx task).nr_added = valid.length ∧
      (cra_task_process_func env ctx task).ctx_apps =
        ctx.apps ++ valid ++
          (if ctx.add_cache_id = true ∧ valid = [] ∧
              (cra_task_process_func env ctx task).reached_skip = true
            then [cra_task_dummy env task] else []) := by
  rcases cra_task_process_func_cases env ctx task with ⟨h1, h2, h3, -⟩ | ⟨ptr, expl, st, valid, h1, h2, h3, h4⟩
  · exact ⟨[], by simp, by simp [h3], by simp [h1, h2]⟩
  · obtain ⟨h5, h6⟩ := cra_task_finish_spec env ctx task ptr expl st valid h2 h3
    refine ⟨valid, h4, by rw [h1, h5], ?_⟩
    rw [h1, h6, cra_task_finish_reached_skip]
    simp

/-- C8 as stated fails: when the only matched plugin extracts nothing and
cache ids are added, the one record the task adds to the result set is the
sentinel, which has no icon, no name, no comment and no veto; and a
candidate record without identifier and icon leaves the loop without a
veto. -/
theorem task_adds_incomplete_sentinel_counterexample :
    (cra_task_process_func (example_env (fun _ => .error "nothing interesting"))
        (example_ctx [{ name := "font", globs := ["/usr/share/fonts/*/*.ttf"] }] true)
        (example_task ["/usr/share/fonts/vera/Vera.ttf"])).ctx_apps =
      [{ id_full := some "foo", icon := none, name := none, comment := none,
         url_homepage := none, project_license := none, releases := [],
         metadata := [("X-CreaterepoAsCacheID", "foo-1.0-1.rpm")], vetos := [],
         requires_appdata := [], is_cra_app := false }] ∧
    (cra_task_process_func
        (example_env (fun _ => .ok [example_app none none (some "Vera") (some "A font")]))
        (example_ctx [{ name := "font", globs := ["/usr/share/fonts/*/*.ttf"] }] false)
        (example_task ["/usr/share/fonts/vera/Vera.ttf"])).visited =
      [{ id_full := none, icon := none, name := some "Vera", comment := some "A font",
         url_homepage := none, project_license := none, releases := [], metadata := [],
         vetos := [], requires_appdata := [], is_cra_app := true }] := by
  decide

/-- C8 amended: the records a task adds to the result set are complete
candidate records (icon, name and comment set, no veto), or else the single
sentinel, added only when cache ids are added; and a candidate record that
has an identifier, is not blacklisted and lacks an icon, a name or a comment
after the refine plugins gets a veto and is not added. -/
theorem task_adds_complete_records_or_sentinel (env : CraEnv) (ctx : CraContext)
    (task : CraTask) :
    (∃ valid : List CraApp, (∀ a ∈ valid, record_complete a) ∧
      ((cra_task_process_func env ctx task).ctx_apps = ctx.apps ++ valid ∨
        (valid = [] ∧ ctx.add_cache_id = true ∧
          (cra_task_process_func env ctx task).ctx_apps =
            ctx.apps ++ [cra_task_dummy env task]))) ∧
    (∀ (app app2 : CraApp) (st : AppsState), app.id_full ≠ none →
      cra_glob_value_search env.fnmatch ctx.blacklisted_ids (env.app_get_id app) = none →
      env.plugin_loader_process_app task.pkg (copy_package_data env task app) task.tmpdir =
        .ok app2 →
      (app2.icon = none ∨ app2.name = none ∨ app2.comment = none) →
      (process_app env ctx task app st).1 = LoopControl.next ∧
      (process_app env ctx task app st).2.ctx_apps = st.ctx_apps ∧
      (process_app env ctx task app st).2.nr_added = st.nr_added ∧
      (process_app env ctx task app st).2.visited = st.visited ++ [add_missing_vetos app2] ∧
      (add_missing_vetos app2).vetos ≠ []) := by
  constructor
  · obtain ⟨valid, hv, -, h⟩ := cra_task_process_func_adds env ctx task
    refine ⟨valid, hv, ?_⟩
    by_cases hc : ctx.add_cache_id = true ∧ valid = [] ∧
        (cra_task_process_func env ctx task).reached_skip = true
    · rw [if_pos hc] at h
      right
      refine ⟨hc.2.1, hc.1, ?_⟩
      rw [h, hc.2.1]
      simp
    · rw [if_neg hc] at h
      left
      rw [h]
      simp
  · intro app app2 st hid hbl href hmiss
    have hveto : (add_missing_vetos app2).vetos.length > 0 := by
      by_contra hcon
      have h0 : (add_missing_vetos app2).vetos.length = 0 := by omega
      obtain ⟨h1, h2, h3, -⟩ := (add_missing_vetos_complete app2 h0).2
      rcases hmiss with h | h | h
      · exact h1 h
      · exact h2 h
      · exact h3 h
    have hne : (add_missing_vetos app2).vetos ≠ [] := by
      intro h
      rw [h] at hveto
      simp at hveto
    unfold process_app
    rw [if_neg hid, hbl]
    simp only [Option.isSome_none, Bool.false_eq_true, if_false]
    rw [href]
    dsimp only
    rw [if_pos (Or.inl hveto)]
    exact ⟨rfl, rfl, rfl, rfl, hne⟩

theorem task_adds_complete_records_or_sentinel_witness :
    (process_app (example_env (fun _ => .error "nothing interesting"))
        (example_ctx [] false) (example_task [])
        (example_app (some "Vera.ttf") none (some "Vera") (some "A font"))
        { ctx_apps := [], nr_added := 0, log := [], visited := [] }).1 = LoopControl.next ∧
    (process_app (example_env (fun _ => .error "nothing interesting"))
        (example_ctx [] false) (example_task [])
        (example_app (some "Vera.ttf") none (some "Vera") (some "A font"))
        { ctx_apps := [], nr_added := 0, log := [], visited := [] }).2.ctx_apps = [] ∧
    (process_app (example_env (fun _ => .error "nothing interesting"))
        (example_ctx [] false) (example_task [])
        (example_app (some "Vera.ttf") none (some "Vera") (some "A font"))
        { ctx_apps := [], nr_added := 0, log := [], visited := [] }).2.nr_added = 0 ∧
    (process_app (example_env (fun _ => .error "nothing interesting"))
        (example_ctx [] false) (example_task [])
        (example_app (some "Vera.ttf") none (some "Vera") (some "A font"))
        { ctx_apps := [], nr_added := 0, log := [], visited := [] }).2.visited =
      [] ++ [add_missing_vetos
        (example_app (some "Vera.ttf") none (some "Vera") (some "A font"))] ∧
    (add_missing_vetos
      (example_app (some "Vera.ttf") none (some "Vera") (some "A font"))).vetos ≠ [] :=
  (task_adds_complete_records_or_sentinel (example_env (fun _ => .error "nothing interesting"))
    (example_ctx [] false) (example_task [])).2
    (example_app (some "Vera.ttf") none (some "Vera") (some "A font"))
    (example_app (some "Vera.ttf") none (some "Vera") (some "A font"))
    { ctx_apps := [], nr_added := 0, log := [], visited := [] }
    (by decide) (by decide) (by rfl) (Or.inl rfl)

/-- C9: a candidate record whose identifier is not set is dropped at the top
of the loop body: the iteration logs one line at info level, leaves the
record as it is (no veto is appended), leaves the result set and `nr_added`
as they are without calling the refine plugins, and the loop goes on with
the next candidate record. -/
theorem process_app_drops_record_without_id (env : CraEnv) (ctx : CraContext)
    (task : CraTask) (app : CraApp) (rest : List CraApp) (st : AppsState)
    (hid : app.id_full = none) :
    process_app env ctx task app st =
      (LoopControl.next,
        { ctx_apps := st.ctx_apps, nr_added := st.nr_added,
          log := st.log ++ [(CraPackageLogLevel.info,
            "app id not set for " ++ name_str (cra_package_get_name task.pkg))],
          visited := st.visited ++ [app] }) ∧
    process_apps env ctx task (app :: rest) st =
      process_apps env ctx task rest
        { ctx_apps := st.ctx_apps, nr_added := st.nr_added,
          log := st.log ++ [(CraPackageLogLevel.info,
            "app id not set for " ++ name_str (cra_package_get_name task.pkg))],
          visited := st.visited ++ [app] } := by
  have h : process_app env ctx task app st =
      (LoopControl.next,
        { ctx_apps := st.ctx_apps, nr_added := st.nr_added,
          log := st.log ++ [(CraPackageLogLevel.info,
            "app id not set for " ++ name_str (cra_package_get_name task.pkg))],
          visited := st.visited ++ [app] }) := by
    unfold process_app
    rw [if_pos hid]
  refine ⟨h, ?_⟩
  rw [process_apps, h]

theorem process_app_drops_record_without_id_witness :
    (example_app none none (some "Vera") none).id_full = none ∧
    process_apps (example_env (fun _ => .error "nothing interesting"))
        (example_ctx [] true) (example_task [])
        [example_app none none (some "Vera") none,
         example_app (some "Vera.ttf") (some "Vera.png") (some "Vera") (some "A font")]
        { ctx_apps := [], nr_added := 0, log := [], visited := [] } =
      process_apps (example_env (fun _ => .error "nothing interesting"))
        (example_ctx [] true) (example_task [])
        [example_app (some "Vera.ttf") (some "Vera.png") (some "Vera") (some "A font")]
        { ctx_apps := [], nr_added := 0,
          log := [] ++ [(CraPackageLogLevel.info, "app id not set for " ++
            name_str (cra_package_get_name (example_task []).pkg))],
          visited := [] ++ [example_app none none (some "Vera") none] } :=
  ⟨rfl, (process_app_drops_record_without_id
    (example_env (fun _ => .error "nothing interesting")) (example_ctx [] true)
    (example_task []) (example_app none none (some "Vera") none)
    [example_app (some "Vera.ttf") (some "Vera.png") (some "Vera") (some "A font")]
    { ctx_apps := [], nr_added := 0, log := [], visited := [] } rfl).2⟩

/-- C10 as stated fails: with cache ids added, a task whose package matches
no plugin leaves at `goto out`: it adds nothing to the result set, no
sentinel either. -/
theorem task_without_plugin_emits_no_sentinel_counterexample :
    (example_ctx [{ name := "font", globs := ["/usr/share/fonts/*/*.ttf"] }] true).add_cache_id
      = true ∧
    (cra_task_process_func (example_env (fun _ => .error "nothing interesting"))
        (example_ctx [{ name := "font", globs := ["/usr/share/fonts/*/*.ttf"] }] true)
        (example_task ["/usr/bin/foo"])).plugins_to_run = [] ∧
    (cra_task_process_func (example_env (fun _ => .error "nothing interesting"))
        (example_ctx [{ name := "font", globs := ["/usr/share/fonts/*/*.ttf"] }] true)
        (example_task ["/usr/bin/foo"])).nr_added = 0 ∧
    (cra_task_process_func (example_env (fun _ => .error "nothing interesting"))
        (example_ctx [{ name := "font", globs := ["/usr/share/fonts/*/*.ttf"] }] true)
        (example_task ["/usr/bin/foo"])).ctx_apps = [] := by
  decide

/-- C10 amended: when cache ids are added (`ctx->add_cache_id`), at least one
plugin matched the package and the workspace could be emptied, a task that
adds zero valid records adds exactly one record to the result set: the
sentinel, whose identifier is the package name and whose
`X-CreaterepoAsCacheID` is the cache id of the task's file name. -/
theorem task_emits_sentinel (env : CraEnv) (ctx : CraContext) (task : CraTask)
    (hcache : ctx.add_cache_id = true)
    (hplug : cra_task_add_suitable_plugins env.fnmatch ctx.plugins task.pkg.filelist
      task.plugins_to_run ≠ [])
    (hdir : env.ensure_exists_and_empty task.tmpdir = .ok ())
    (hzero : (cra_task_process_func env ctx task).nr_added = 0) :
    (cra_task_process_func env ctx task).ctx_apps = ctx.apps ++ [cra_task_dummy env task] ∧
    (cra_task_dummy env task).id_full = cra_package_get_name task.pkg ∧
    as_app_get_metadata_item (cra_task_dummy env task) "X-CreaterepoAsCacheID" =
      some (env.cache_id_for_filename task.filename) := by
  refine ⟨?_, rfl, ?_⟩
  · rcases cra_task_process_func_cases env ctx task with
      ⟨-, -, -, h | ⟨msg, h⟩⟩ | ⟨ptr, expl, st, valid, h1, h2, h3, -⟩
    · exact absurd h hplug
    · rw [hdir] at h
      cases h
    · obtain ⟨h5, h6⟩ := cra_task_finish_spec env ctx task ptr expl st valid h2 h3
      rw [h1, h5] at hzero
      have hv : valid = [] := List.length_eq_zero.1 hzero
      rw [h1, h6, hv]
      simp [hcache]
  · simp [cra_task_dummy, as_app_get_metadata_item, as_app_add_metadata]

theorem task_emits_sentinel_witness :
    (cra_task_process_func (example_env (fun _ => .error "nothing interesting"))
        (example_ctx [{ name := "font", globs := ["/usr/share/fonts/*/*.ttf"] }] true)
        (example_task ["/usr/share/fonts/vera/Vera.ttf"])).ctx_apps =
      (example_ctx [{ name := "font", globs := ["/usr/share/fonts/*/*.ttf"] }] true).apps ++
        [cra_task_dummy (example_env (fun _ => .error "nothing interesting"))
          (example_task ["/usr/share/fonts/vera/Vera.ttf"])] ∧
    (cra_task_dummy (example_env (fun _ => .error "nothing interesting"))
        (example_task ["/usr/share/fonts/vera/Vera.ttf"])).id_full =
      cra_package_get_name (example_task ["/usr/share/fonts/vera/Vera.ttf"]).pkg ∧
    as_app_get_metadata_item
        (cra_task_dummy (example_env (fun _ => .error "nothing interesting"))
          (example_task ["/usr/share/fonts/vera/Vera.ttf"])) "X-CreaterepoAsCacheID" =
      some ((example_env (fun _ => .error "nothing interesting")).cache_id_for_filename
        (example_task ["/usr/share/fonts/vera/Vera.ttf"]).filename) :=
  task_emits_sentinel (example_env (fun _ => .error "nothing interesting"))
    (example_ctx [{ name := "font", globs := ["/usr/share/fonts/*/*.ttf"] }] true)
    (example_task ["/usr/share/fonts/vera/Vera.ttf"]) rfl (by decide) rfl (by decide)
/-! ## Overlay packages -/

theorem explode_extra_package_exploded (env : CraEnv) (ctx : CraContext) (task : CraTask)
    (pkg_name : String) :
    (cra_context_explode_extra_package env ctx task pkg_name).exploded =
      (cra_context_find_by_pkgname ctx pkg_name).toList.map (fun p => (p, task.tmpdir)) := by
  unfold cra_context_explode_extra_package
  cases cra_context_find_by_pkgname ctx pkg_name with
  | none => rfl
  | some p =>
    dsimp only
    cases env.package_explode p task.tmpdir <;> rfl

theorem explode_extra_package_ret_of_not_found (env : CraEnv) (ctx : CraContext)
    (task : CraTask) (pkg_name : String) (h : cra_context_find_by_pkgname ctx pkg_name = none) :
    (cra_context_explode_extra_package env ctx task pkg_name).ret = true := by
  unfold cra_context_explode_extra_package
  rw [h]

/-- The loop over the overlay names explodes the packages found for the
names, in the order of the names, up to and including the first that fails. -/
theorem explode_extra_loop_spec (env : CraEnv) (ctx : CraContext) (task : CraTask) :
    ∀ (names : List String) (acc : ExplodeExtra),
      ∃ tried : List String, tried <+: names ∧
        (explode_extra_loop env ctx task names acc).exploded =
          acc.exploded ++ (tried.filterMap (cra_context_find_by_pkgname ctx)).map
            (fun p => (p, task.tmpdir)) ∧
        ((∀ n ∈ names, (cra_context_explode_extra_package env ctx task n).ret = true) →
          tried = names) ∧
        (∀ (before after : List String) (n : String), names = before ++ n :: after →
          (∀ b ∈ before, (cra_context_explode_extra_package env ctx task b).ret = true) →
          (cra_context_explode_extra_package env ctx task n).ret = false →
          tried = before ++ [n] ∧ (explode_extra_loop env ctx task names acc).ret = false ∧
          (explode_extra_loop env ctx task names acc).log =
            acc.log ++ (before ++ [n]).flatMap
              (fun b => (cra_context_explode_extra_package env ctx task b).log)) := by
  intro names
  induction names with
  | nil =>
    intro acc
    refine ⟨[], List.prefix_refl _, by simp [explode_extra_loop], fun _ => rfl, ?_⟩
    intro before after n h
    simp at h
  | cons x xs ih =>
    intro acc
    unfold explode_extra_loop
    dsimp only
    by_cases hx : (cra_context_explode_extra_package env ctx task x).ret = true
    · rw [if_pos hx]
      obtain ⟨tried, hpre, hexp, hall, hfail⟩ := ih
        { ret := (cra_context_explode_extra_package env ctx task x).ret,
          log := acc.log ++ (cra_context_explode_extra_package env ctx task x).log,
          exploded := acc.exploded ++ (cra_context_explode_extra_package env ctx task x).exploded }
      refine ⟨x :: tried, List.prefix_cons_inj x |>.2 hpre, ?_, ?_, ?_⟩
      · rw [hexp]
        dsimp only
        rw [explode_extra_package_exploded]
        cases hfind : cra_context_find_by_pkgname ctx x <;>
          simp [List.filterMap_cons, hfind]
      · intro h
        rw [hall (fun n hn => h n (List.mem_cons_of_mem _ hn))]
      · intro before after n hnames hbefore hn
        cases before with
        | nil =>
          simp only [List.nil_append, List.cons.injEq] at hnames
          rw [← hnames.1, hx] at hn
          cases hn
        | cons b bs =>
          simp only [List.cons_append, List.cons.injEq] at hnames
          obtain ⟨hb, hrest⟩ := hnames
          subst hb
          obtain ⟨h1, h2, h3⟩ := hfail bs after n hrest
            (fun c hc => hbefore c (List.mem_cons_of_mem _ hc)) hn
          refine ⟨by rw [h1]; rfl, h2, ?_⟩
          rw [h3]
          simp [List.flatMap_cons, List.append_assoc]
    · rw [if_neg hx]
      have hxf : (cra_context_explode_extra_package env ctx task x).ret = false := by
        simpa using hx
      refine ⟨[x], ?_, ?_, ?_, ?_⟩
      · exact ⟨xs, rfl⟩
      · dsimp only
        rw [explode_extra_package_exploded]
        cases hfind : cra_context_find_by_pkgname ctx x <;>
          simp [List.filterMap_cons, hfind]
      · intro h
        have := h x (List.mem_cons_self _ _)
        rw [hxf] at this
        cases this
      · intro before after n hnames hbefore hn
        cases before with
        | nil =>
          simp only [List.nil_append, List.cons.injEq] at hnames
          rw [← hnames.1]
          refine ⟨rfl, hxf, ?_⟩
          simp
        | cons b bs =>
          simp only [List.cons_append, List.cons.injEq] at hnames
          have := hbefore b (List.mem_cons_self _ _)
          rw [← hnames.1, hxf] at this
          cases this

theorem cra_task_finish_fields (env : CraEnv) (ctx : CraContext) (task : CraTask)
    (plugins_to_run : List Nat) (exploded : List (CraPackage × String)) (st : AppsState) :
    (cra_task_finish env ctx task plugins_to_run exploded st).exploded = exploded ∧
    (cra_task_finish env ctx task plugins_to_run exploded st).visited = st.visited ∧
    (cra_task_finish env ctx task plugins_to_run exploded st).plugins_to_run = plugins_to_run ∧
    ∃ tail, (cra_task_finish env ctx task plugins_to_run exploded st).log = st.log ++ tail := by
  unfold cra_task_finish
  dsimp only
  cases env.rmtree task.tmpdir with
  | error msg => exact ⟨rfl, rfl, rfl, _, rfl⟩
  | ok u =>
    cases env.package_log_flush task.pkg with
    | error msg => exact ⟨rfl, rfl, rfl, _, rfl⟩
    | ok v => exact ⟨rfl, rfl, rfl, [], by simp⟩

/-- A task that gets as far as exploding its package explodes it first, then
the overlays. -/
theorem cra_task_process_func_exploded (env : CraEnv) (ctx : CraContext) (task : CraTask)
    (hplug : cra_task_add_suitable_plugins env.fnmatch ctx.plugins task.pkg.filelist
      task.plugins_to_run ≠ [])
    (hdir : env.ensure_exists_and_empty task.tmpdir = .ok ())
    (hprim : env.package_explode task.pkg task.tmpdir = .ok ()) :
    (cra_task_process_func env ctx task).exploded =
      (task.pkg, task.tmpdir) :: (cra_context_explode_extra_packages env ctx task).exploded := by
  have h0 : ¬ (cra_task_add_suitable_plugins env.fnmatch ctx.plugins task.pkg.filelist
      task.plugins_to_run).length = 0 := fun h => hplug (List.length_eq_zero.1 h)
  unfold cra_task_process_func
  dsimp only
  rw [if_neg h0, hdir]
  dsimp only
  rw [hprim]
  dsimp only
  by_cases h2 : (!(cra_context_explode_extra_packages env ctx task).ret) = true
  · rw [if_pos h2]
    exact (cra_task_finish_fields env ctx task _ _ _).1
  · rw [if_neg h2]
    exact (cra_task_finish_fields env ctx task _ _ _).1

/-- A task whose overlays fail to explode goes to the label `skip` without
running a plugin: the state it enters `skip` with holds the lines logged so
far and no candidate record. -/
theorem cra_task_process_func_overlay_failed (env : CraEnv) (ctx : CraContext) (task : CraTask)
    (hplug : cra_task_add_suitable_plugins env.fnmatch ctx.plugins task.pkg.filelist
      task.plugins_to_run ≠ [])
    (hdir : env.ensure_exists_and_empty task.tmpdir = .ok ())
    (hprim : env.package_explode task.pkg task.tmpdir = .ok ())
    (hextra : (cra_context_explode_extra_packages env ctx task).ret = false) :
    cra_task_process_func env ctx task =
      cra_task_finish env ctx task
        (cra_task_add_suitable_plugins env.fnmatch ctx.plugins task.pkg.filelist
          task.plugins_to_run)
        ((task.pkg, task.tmpdir) :: (cra_context_explode_extra_packages env ctx task).exploded)
        { ctx_apps := ctx.apps, nr_added := 0,
          log := [(CraPackageLogLevel.debug,
              "Getting filename match for " ++ env.path_get_basename task.filename)] ++
            [(CraPackageLogLevel.debug,
              "Exploding tree for " ++ name_str (cra_package_get_name task.pkg))] ++
            (cra_context_explode_extra_packages env ctx task).log,
          visited := [] } := by
  have h0 : ¬ (cra_task_add_suitable_plugins env.fnmatch ctx.plugins task.pkg.filelist
      task.plugins_to_run).length = 0 := fun h => hplug (List.length_eq_zero.1 h)
  unfold cra_task_process_func
  dsimp only
  rw [if_neg h0, hdir]
  dsimp only
  rw [hprim]
  dsimp only
  rw [hextra]
  rfl

/-- C19: the overlay names are the configured override of the package name,
if there is one, then `<name>-data`, then `<name>-common`;
`cra_context_explode_extra_packages` explodes the packages found for these
names in that order into the task's workspace, all of them when none fails;
and the task explodes them after its own package. -/
theorem overlays_exploded_in_order (env : CraEnv) (ctx : CraContext) (task : CraTask) :
    extra_package_names env ctx task =
      (cra_glob_value_search env.fnmatch ctx.extra_pkgs
        (name_str (cra_package_get_name task.pkg))).toList ++
      [name_str (cra_package_get_name task.pkg) ++ "-data",
       name_str (cra_package_get_name task.pkg) ++ "-common"] ∧
    (∃ tried : List String, tried <+: extra_package_names env ctx task ∧
      (cra_context_explode_extra_packages env ctx task).exploded =
        (tried.filterMap (cra_context_find_by_pkgname ctx)).map (fun p => (p, task.tmpdir)) ∧
      ((∀ n ∈ extra_package_names env ctx task,
          (cra_context_explode_extra_package env ctx task n).ret = true) →
        tried = extra_package_names env ctx task)) ∧
    (cra_task_add_suitable_plugins env.fnmatch ctx.plugins task.pkg.filelist
        task.plugins_to_run ≠ [] →
      env.ensure_exists_and_empty task.tmpdir = .ok () →
      env.package_explode task.pkg task.tmpdir = .ok () →
      (cra_task_process_func env ctx task).exploded =
        (task.pkg, task.tmpdir) ::
          (cra_context_explode_extra_packages env ctx task).exploded) := by
  refine ⟨?_, ?_, cra_task_process_func_exploded env ctx task⟩
  · unfold extra_package_names
    cases cra_glob_value_search env.fnmatch ctx.extra_pkgs
      (name_str (cra_package_get_name task.pkg)) <;> rfl
  · obtain ⟨tried, h1, h2, h3, -⟩ := explode_extra_loop_spec env ctx task
      (extra_package_names env ctx task) { ret := true, log := [], exploded := [] }
    exact ⟨tried, h1, by simpa [cra_context_explode_extra_packages] using h2, h3⟩

theorem overlays_exploded_in_order_witness :
    (cra_task_process_func (example_env (fun _ => .error "nothing interesting"))
        (example_ctx_packages [{ name := "font", globs := ["/usr/share/fonts/*/*.ttf"] }] false
          [example_package "foo-common-1.0-1.rpm" "foo-common" "1.0" "1",
           example_package "foo-data-1.0-1.rpm" "foo-data" "1.0" "1",
           example_package "foo-fonts-1.0-1.rpm" "foo-fonts" "1.0" "1"]
          [{ glob := "foo", value := "foo-fonts" }])
        (example_task ["/usr/share/fonts/vera/Vera.ttf"])).exploded =
      [((example_task ["/usr/share/fonts/vera/Vera.ttf"]).pkg, "./tmp/foo"),
       (example_package "foo-fonts-1.0-1.rpm" "foo-fonts" "1.0" "1", "./tmp/foo"),
       (example_package "foo-data-1.0-1.rpm" "foo-data" "1.0" "1", "./tmp/foo"),
       (example_package "foo-common-1.0-1.rpm" "foo-common" "1.0" "1", "./tmp/foo")] ∧
    (cra_task_process_func (example_env (fun _ => .error "nothing interesting"))
        (example_ctx_packages [{ name := "font", globs := ["/usr/share/fonts/*/*.ttf"] }] false
          [example_package "foo-common-1.0-1.rpm" "foo-common" "1.0" "1",
           example_package "foo-data-1.0-1.rpm" "foo-data" "1.0" "1",
           example_package "foo-fonts-1.0-1.rpm" "foo-fonts" "1.0" "1"]
          [{ glob := "foo", value := "foo-fonts" }])
        (example_task ["/usr/share/fonts/vera/Vera.ttf"])).exploded =
      ((example_task ["/usr/share/fonts/vera/Vera.ttf"]).pkg,
        (example_task ["/usr/share/fonts/vera/Vera.ttf"]).tmpdir) ::
        (cra_context_explode_extra_packages
          (example_env (fun _ => .error "nothing interesting"))
          (example_ctx_packages [{ name := "font", globs := ["/usr/share/fonts/*/*.ttf"] }]
            false
            [example_package "foo-common-1.0-1.rpm" "foo-common" "1.0" "1",
             example_package "foo-data-1.0-1.rpm" "foo-data" "1.0" "1",
             example_package "foo-fonts-1.0-1.rpm" "foo-fonts" "1.0" "1"]
            [{ glob := "foo", value := "foo-fonts" }])
          (example_task ["/usr/share/fonts/vera/Vera.ttf"])).exploded :=
  ⟨by decide,
   (overlays_exploded_in_order (example_env (fun _ => .error "nothing interesting"))
    (example_ctx_packages [{ name := "font", globs := ["/usr/share/fonts/*/*.ttf"] }] false
      [example_package "foo-common-1.0-1.rpm" "foo-common" "1.0" "1",
       example_package "foo-data-1.0-1.rpm" "foo-data" "1.0" "1",
       example_package "foo-fonts-1.0-1.rpm" "foo-fonts" "1.0" "1"]
      [{ glob := "foo", value := "foo-fonts" }])
    (example_task ["/usr/share/fonts/vera/Vera.ttf"])).2.2 (by decide) rfl rfl⟩

/-- C20 as stated fails: the overlay `foo-data` fails to explode; the overlay
`foo-common` is not tried, the font plugin, which would extract a complete
record, is not run, and the task adds nothing to the result set. -/
theorem overlay_failure_counterexample :
    (cra_task_process_func
        (example_env_explode_fails (fun _ =>
          .ok [example_app (some "Vera.ttf") (some "Vera.png") (some "Vera") (some "A font")])
          "foo-data-1.0-1.rpm")
        (example_ctx_packages [{ name := "font", globs := ["/usr/share/fonts/*/*.ttf"] }] false
          [example_package "foo-data-1.0-1.rpm" "foo-data" "1.0" "1",
           example_package "foo-common-1.0-1.rpm" "foo-common" "1.0" "1"] [])
        (example_task ["/usr/share/fonts/vera/Vera.ttf"])).exploded =
      [((example_task ["/usr/share/fonts/vera/Vera.ttf"]).pkg, "./tmp/foo"),
       (example_package "foo-data-1.0-1.rpm" "foo-data" "1.0" "1", "./tmp/foo")] ∧
    (cra_task_process_func
        (example_env_explode_fails (fun _ =>
          .ok [example_app (some "Vera.ttf") (some "Vera.png") (some "Vera") (some "A font")])
          "foo-data-1.0-1.rpm")
        (example_ctx_packages [{ name := "font", globs := ["/usr/share/fonts/*/*.ttf"] }] false
          [example_package "foo-data-1.0-1.rpm" "foo-data" "1.0" "1",
           example_package "foo-common-1.0-1.rpm" "foo-common" "1.0" "1"] [])
        (example_task ["/usr/share/fonts/vera/Vera.ttf"])).log =
      [(CraPackageLogLevel.debug, "Getting filename match for foo-1.0-1.rpm"),
       (CraPackageLogLevel.debug, "Exploding tree for foo"),
       (CraPackageLogLevel.debug, "Adding extra package foo-data for foo"),
       (CraPackageLogLevel.warning, "Failed to explode extra file: corrupt")] ∧
    (cra_task_process_func
        (example_env_explode_fails (fun _ =>
          .ok [example_app (some "Vera.ttf") (some "Vera.png") (some "Vera") (some "A font")])
          "foo-data-1.0-1.rpm")
        (example_ctx_packages [{ name := "font", globs := ["/usr/share/fonts/*/*.ttf"] }] false
          [example_package "foo-data-1.0-1.rpm" "foo-data" "1.0" "1",
           example_package "foo-common-1.0-1.rpm" "foo-common" "1.0" "1"] [])
        (example_task ["/usr/share/fonts/vera/Vera.ttf"])).ctx_apps = [] ∧
    (cra_task_process_func
        (example_env (fun _ =>
          .ok [example_app (some "Vera.ttf") (some "Vera.png") (some "Vera") (some "A font")]))
        (example_ctx_packages [{ name := "font", globs := ["/usr/share/fonts/*/*.ttf"] }] false
          [example_package "foo-data-1.0-1.rpm" "foo-data" "1.0" "1",
           example_package "foo-common-1.0-1.rpm" "foo-common" "1.0" "1"] [])
        (example_task ["/usr/share/fonts/vera/Vera.ttf"])).ctx_apps =
      [example_app (some "Vera.ttf") (some "Vera.png") (some "Vera") (some "A font")] := by
  decide

theorem cra_task_finish_log (env : CraEnv) (ctx : CraContext) (task : CraTask)
    (plugins_to_run : List Nat) (exploded : List (CraPackage × String)) (st : AppsState) :
    ∃ tail : List LogEntry,
      (cra_task_finish env ctx task plugins_to_run exploded st).log = st.log ++ tail ∧
      (tail = [] ∨
        (∃ msg, tail = [(CraPackageLogLevel.warning, "Failed to delete tree: " ++ msg)]) ∨
        ∃ msg, tail = [(CraPackageLogLevel.warning, "Failed to write package log: " ++ msg)]) := by
  unfold cra_task_finish
  dsimp only
  cases env.rmtree task.tmpdir with
  | error msg => exact ⟨_, rfl, Or.inr (Or.inl ⟨msg, rfl⟩)⟩
  | ok u =>
    cases env.package_log_flush task.pkg with
    | error msg => exact ⟨_, rfl, Or.inr (Or.inr ⟨msg, rfl⟩)⟩
    | ok v => exact ⟨[], by simp, Or.inl rfl⟩

theorem explode_extra_package_failed (env : CraEnv) (ctx : CraContext) (task : CraTask)
    (pkg_name : String)
    (h : (cra_context_explode_extra_package env ctx task pkg_name).ret = false) :
    ∃ (pkg_extra : CraPackage) (msg : String),
      cra_context_find_by_pkgname ctx pkg_name = some pkg_extra ∧
      env.package_explode pkg_extra task.tmpdir = .error msg ∧
      (CraPackageLogLevel.warning, "Failed to explode extra file: " ++ msg) ∈
        (cra_context_explode_extra_package env ctx task pkg_name).log := by
  unfold cra_context_explode_extra_package at h ⊢
  cases hfind : cra_context_find_by_pkgname ctx pkg_name with
  | none => rw [hfind] at h; cases h
  | some p =>
    rw [hfind] at h
    dsimp only at h ⊢
    cases hex : env.package_explode p task.tmpdir with
    | ok u => rw [hex] at h; cases h
    | error msg => exact ⟨p, msg, rfl, hex, by simp⟩

/-- C20 amended: when an overlay package fails to explode (the overlays
before it having exploded), the failure is logged as a warning and ends the
task's extraction: the overlays after it are not tried, no plugin is run and
no candidate record is visited or added; the task goes to the label `skip`,
where it adds the sentinel if cache ids are added, and cleans up. -/
theorem overlay_failure_skips_plugins (env : CraEnv) (ctx : CraContext) (task : CraTask)
    (before after : List String) (n : String)
    (hplug : cra_task_add_suitable_plugins env.fnmatch ctx.plugins task.pkg.filelist
      task.plugins_to_run ≠ [])
    (hdir : env.ensure_exists_and_empty task.tmpdir = .ok ())
    (hprim : env.package_explode task.pkg task.tmpdir = .ok ())
    (hnames : extra_package_names env ctx task = before ++ n :: after)
    (hbefore : ∀ b ∈ before, (cra_context_explode_extra_package env ctx task b).ret = true)
    (hfail : (cra_context_explode_extra_package env ctx task n).ret = false) :
    (∃ (pkg_extra : CraPackage) (msg : String),
      cra_context_find_by_pkgname ctx n = some pkg_extra ∧
      env.package_explode pkg_extra task.tmpdir = .error msg ∧
      (CraPackageLogLevel.warning, "Failed to explode extra file: " ++ msg) ∈
        (cra_task_process_func env ctx task).log) ∧
    (cra_task_process_func env ctx task).exploded =
      (task.pkg, task.tmpdir) ::
        ((before ++ [n]).filterMap (cra_context_find_by_pkgname ctx)).map
          (fun p => (p, task.tmpdir)) ∧
    (cra_task_process_func env ctx task).visited = [] ∧
    (cra_task_process_func env ctx task).nr_added = 0 ∧
    (cra_task_process_func env ctx task).reached_skip = true ∧
    (cra_task_process_func env ctx task).ctx_apps =
      ctx.apps ++ (if ctx.add_cache_id = true then [cra_task_dummy env task] else []) ∧
    ∃ tail : List LogEntry,
      (cra_task_process_func env ctx task).log =
        [(CraPackageLogLevel.debug,
            "Getting filename match for " ++ env.path_get_basename task.filename),
          (CraPackageLogLevel.debug,
            "Exploding tree for " ++ name_str (cra_package_get_name task.pkg))] ++
          (before ++ [n]).flatMap
            (fun b => (cra_context_explode_extra_package env ctx task b).log) ++ tail ∧
      (tail = [] ∨
        (∃ msg, tail = [(CraPackageLogLevel.warning, "Failed to delete tree: " ++ msg)]) ∨
        ∃ msg, tail = [(CraPackageLogLevel.warning, "Failed to write package log: " ++ msg)]) := by
  obtain ⟨tried, -, hexp, -, hdec⟩ := explode_extra_loop_spec env ctx task
    (extra_package_names env ctx task) { ret := true, log := [], exploded := [] }
  obtain ⟨htried, hret, hlog⟩ := hdec before after n hnames hbefore hfail
  have hret2 : (cra_context_explode_extra_packages env ctx task).ret = false := hret
  have hlog2 : (cra_context_explode_extra_packages env ctx task).log =
      (before ++ [n]).flatMap
        (fun b => (cra_context_explode_extra_package env ctx task b).log) := by
    have : (cra_context_explode_extra_packages env ctx task).log = _ := hlog
    rw [this]
    simp
  have hexp2 : (cra_context_explode_extra_packages env ctx task).exploded =
      ((before ++ [n]).filterMap (cra_context_find_by_pkgname ctx)).map
        (fun p => (p, task.tmpdir)) := by
    have : (cra_context_explode_extra_packages env ctx task).exploded = _ := hexp
    rw [this, htried]
    simp
  have hres := cra_task_process_func_overlay_failed env ctx task hplug hdir hprim hret2
  obtain ⟨hf1, hf2, -, -⟩ := cra_task_finish_fields env ctx task
    (cra_task_add_suitable_plugins env.fnmatch ctx.plugins task.pkg.filelist
      task.plugins_to_run)
    ((task.pkg, task.tmpdir) :: (cra_context_explode_extra_packages env ctx task).exploded)
    { ctx_apps := ctx.apps, nr_added := 0,
      log := [(CraPackageLogLevel.debug,
          "Getting filename match for " ++ env.path_get_basename task.filename)] ++
        [(CraPackageLogLevel.debug,
          "Exploding tree for " ++ name_str (cra_package_get_name task.pkg))] ++
        (cra_context_explode_extra_packages env ctx task).log,
      visited := [] }
  obtain ⟨tail, ht1, ht2⟩ := cra_task_finish_log env ctx task
    (cra_task_add_suitable_plugins env.fnmatch ctx.plugins task.pkg.filelist
      task.plugins_to_run)
    ((task.pkg, task.tmpdir) :: (cra_context_explode_extra_packages env ctx task).exploded)
    { ctx_apps := ctx.apps, nr_added := 0,
      log := [(CraPackageLogLevel.debug,
          "Getting filename match for " ++ env.path_get_basename task.filename)] ++
        [(CraPackageLogLevel.debug,
          "Exploding tree for " ++ name_str (cra_package_get_name task.pkg))] ++
        (cra_context_explode_extra_packages env ctx task).log,
      visited := [] }
  obtain ⟨hc1, hc2⟩ := cra_task_finish_ctx_apps env ctx task
    (cra_task_add_suitable_plugins env.fnmatch ctx.plugins task.pkg.filelist
      task.plugins_to_run)
    ((task.pkg, task.tmpdir) :: (cra_context_explode_extra_packages env ctx task).exploded)
    { ctx_apps := ctx.apps, nr_added := 0,
      log := [(CraPackageLogLevel.debug,
          "Getting filename match for " ++ env.path_get_basename task.filename)] ++
        [(CraPackageLogLevel.debug,
          "Exploding tree for " ++ name_str (cra_package_get_name task.pkg))] ++
        (cra_context_explode_extra_packages env ctx task).log,
      visited := [] }
  have hlogfull : (cra_task_process_func env ctx task).log =
      [(CraPackageLogLevel.debug,
          "Getting filename match for " ++ env.path_get_basename task.filename),
        (CraPackageLogLevel.debug,
          "Exploding tree for " ++ name_str (cra_package_get_name task.pkg))] ++
        (before ++ [n]).flatMap
          (fun b => (cra_context_explode_extra_package env ctx task b).log) ++ tail := by
    rw [hres, ht1]
    dsimp only
    rw [hlog2]
    simp
  refine ⟨?_, ?_, ?_, ?_, ?_, ?_, tail, hlogfull, ht2⟩
  · obtain ⟨p, msg, h1, h2, h3⟩ := explode_extra_package_failed env ctx task n hfail
    refine ⟨p, msg, h1, h2, ?_⟩
    rw [hlogfull]
    simp only [List.mem_append, List.mem_flatMap]
    left
    right
    exact ⟨n, Or.inr (List.mem_singleton.2 rfl), h3⟩
  · rw [hres, hf1, hexp2]
  · rw [hres, hf2]
  · rw [hres, hc2]
  · rw [hres, cra_task_finish_reached_skip]
  · rw [hres, hc1]
    by_cases hc : ctx.add_cache_id = true
    · simp [hc, cra_context_add_app]
    · simp [hc]

theorem overlay_failure_skips_plugins_witness :
    (cra_task_process_func
        (example_env_explode_fails (fun _ =>
          .ok [example_app (some "Vera.ttf") (some "Vera.png") (some "Vera") (some "A font")])
          "foo-data-1.0-1.rpm")
        (example_ctx_packages [{ name := "font", globs := ["/usr/share/fonts/*/*.ttf"] }] true
          [example_package "foo-data-1.0-1.rpm" "foo-data" "1.0" "1",
           example_package "foo-common-1.0-1.rpm" "foo-common" "1.0" "1"] [])
        (example_task ["/usr/share/fonts/vera/Vera.ttf"])).visited = [] ∧
    (cra_task_process_func
        (example_env_explode_fails (fun _ =>
          .ok [example_app (some "Vera.ttf") (some "Vera.png") (some "Vera") (some "A font")])
          "foo-data-1.0-1.rpm")
        (example_ctx_packages [{ name := "font", globs := ["/usr/share/fonts/*/*.ttf"] }] true
          [example_package "foo-data-1.0-1.rpm" "foo-data" "1.0" "1",
           example_package "foo-common-1.0-1.rpm" "foo-common" "1.0" "1"] [])
        (example_task ["/usr/share/fonts/vera/Vera.ttf"])).nr_added = 0 ∧
    (cra_task_process_func
        (example_env_explode_fails (fun _ =>
          .ok [example_app (some "Vera.ttf") (some "Vera.png") (some "Vera") (some "A font")])
          "foo-data-1.0-1.rpm")
        (example_ctx_packages [{ name := "font", globs := ["/usr/share/fonts/*/*.ttf"] }] true
          [example_package "foo-data-1.0-1.rpm" "foo-data" "1.0" "1",
           example_package "foo-common-1.0-1.rpm" "foo-common" "1.0" "1"] [])
        (example_task ["/usr/share/fonts/vera/Vera.ttf"])).reached_skip = true :=
  have h := overlay_failure_skips_plugins
    (example_env_explode_fails (fun _ =>
      .ok [example_app (some "Vera.ttf") (some "Vera.png") (some "Vera") (some "A font")])
      "foo-data-1.0-1.rpm")
    (example_ctx_packages [{ name := "font", globs := ["/usr/share/fonts/*/*.ttf"] }] true
      [example_package "foo-data-1.0-1.rpm" "foo-data" "1.0" "1",
       example_package "foo-common-1.0-1.rpm" "foo-common" "1.0" "1"] [])
    (example_task ["/usr/share/fonts/vera/Vera.ttf"]) [] ["foo-common"] "foo-data"
    (by decide) rfl rfl (by decide) (by decide) (by decide)
  ⟨h.2.2.1, h.2.2.2.1, h.2.2.2.2.1⟩
/-! ## The incremental cache -/

theorem foldl_cra_context_add_app (hits : List CraApp) :
    ∀ apps : List CraApp, hits.foldl cra_context_add_app apps = apps ++ hits := by
  induction hits with
  | nil => intro apps; simp
  | cons h t ih =>
    intro apps
    rw [List.foldl_cons, ih]
    simp [cra_context_add_app]

theorem cra_main_find_in_cache_hit (env : CraEnv) (ctx : CraContext) (filename : String)
    (h : as_store_get_apps_by_metadata ctx.old_md_cache "X-CreaterepoAsCacheID"
      (env.cache_id_for_filename filename) ≠ []) :
    cra_main_find_in_cache env ctx filename =
      (true, { ctx with apps := (ctx.apps ++
        as_store_get_apps_by_metadata ctx.old_md_cache "X-CreaterepoAsCacheID"
          (env.cache_id_for_filename filename)) }) := by
  unfold cra_main_find_in_cache
  dsimp only
  rw [if_neg (fun hl => h (List.length_eq_zero.1 hl)), foldl_cra_context_add_app]

theorem cra_main_find_in_cache_miss (env : CraEnv) (ctx : CraContext) (filename : String)
    (h : as_store_get_apps_by_metadata ctx.old_md_cache "X-CreaterepoAsCacheID"
      (env.cache_id_for_filename filename) = []) :
    cra_main_find_in_cache env ctx filename = (false, ctx) := by
  unfold cra_main_find_in_cache
  dsimp only
  rw [if_pos (by rw [h]; rfl)]

theorem cra_context_add_filename_spec (env : CraMainEnv) (st : ScanState) (filename : String) :
    (cra_context_add_filename env st filename).2.ctx.old_md_cache = st.ctx.old_md_cache ∧
    (cra_context_add_filename env st filename).2.ctx.apps = st.ctx.apps ∧
    (∀ f ∈ (cra_context_add_filename env st filename).2.opened, f ∈ st.opened ∨ f = filename) ∧
    (∀ p ∈ (cra_context_add_filename env st filename).2.ctx.packages,
      p ∈ st.ctx.packages ∨
        (p.filename = filename ∧ filename ∈ (cra_context_add_filename env st filename).2.opened)) ∧
    (∀ f ∈ st.opened, f ∈ (cra_context_add_filename env st filename).2.opened) := by
  unfold cra_context_add_filename
  by_cases h1 : ((env.have_rpm && g_str_has_suffix filename ".rpm") ||
      g_str_has_suffix filename ".deb") = true
  · rw [if_pos h1]
    cases env.package_open filename with
    | error msg =>
      refine ⟨rfl, rfl, ?_, fun p hp => Or.inl hp, ?_⟩
      · intro f hf
        simpa using hf
      · intro f hf
        simp [hf]
    | ok header =>
      dsimp only
      by_cases h2 : (cra_glob_value_search env.fnmatch st.ctx.blacklisted_pkgs
          (name_str (cra_package_get_name { header with filename := filename }))).isSome = true
      · rw [if_pos h2]
        refine ⟨rfl, rfl, ?_, fun p hp => Or.inl hp, ?_⟩
        · intro f hf
          simpa using hf
        · intro f hf
          simp [hf]
      · rw [if_neg h2]
        refine ⟨rfl, rfl, ?_, ?_, ?_⟩
        · intro f hf
          simpa using hf
        · intro p hp
          simp only [List.mem_append, List.mem_singleton] at hp
          rcases hp with hp | hp
          · exact Or.inl hp
          · right
            subst hp
            exact ⟨rfl, by simp⟩
        · intro f hf
          simp [hf]
  · rw [if_neg h1]
    exact ⟨rfl, rfl, fun f hf => Or.inl hf, fun p hp => Or.inl hp, fun f hf => hf⟩

/-- The scan leaves the cache as it is, opens only files that are not found
in the cache, and adds only packages of files it opened. -/
theorem scan_packages_spec (env : CraMainEnv) :
    ∀ (files : List String) (st : ScanState),
      (scan_packages env files st).2.ctx.old_md_cache = st.ctx.old_md_cache ∧
      (∀ f ∈ (scan_packages env files st).2.opened, f ∈ st.opened ∨
        as_store_get_apps_by_metadata st.ctx.old_md_cache "X-CreaterepoAsCacheID"
          (env.cache_id_for_filename f) = []) ∧
      (∀ p ∈ (scan_packages env files st).2.ctx.packages, p ∈ st.ctx.packages ∨
        p.filename ∈ (scan_packages env files st).2.opened) ∧
      (∀ f ∈ st.opened, f ∈ (scan_packages env files st).2.opened) := by
  intro files
  induction files with
  | nil =>
    intro st
    exact ⟨rfl, fun f hf => Or.inl hf, fun p hp => Or.inl hp, fun f hf => hf⟩
  | cons filename rest ih =>
    intro st
    unfold scan_packages
    by_cases hhit : as_store_get_apps_by_metadata st.ctx.old_md_cache "X-CreaterepoAsCacheID"
        (env.cache_id_for_filename filename) = []
    · rw [cra_main_find_in_cache_miss env.toCraEnv st.ctx filename hhit]
      dsimp only
      obtain ⟨a1, a2, a3, a4, a5⟩ := cra_context_add_filename_spec env st filename
      rcases hadd : cra_context_add_filename env st filename with ⟨res, st'⟩
      rw [hadd] at a1 a2 a3 a4 a5
      dsimp only at a1 a2 a3 a4 a5
      cases res with
      | some msg =>
        dsimp only
        refine ⟨a1, ?_, ?_, a5⟩
        · intro f hf
          rcases a3 f hf with h | h
          · exact Or.inl h
          · right; rw [h]; exact hhit
        · intro p hp
          rcases a4 p hp with h | h
          · exact Or.inl h
          · right; rw [h.1]; exact h.2
      | none =>
        dsimp only
        obtain ⟨b1, b2, b3, b4⟩ := ih st'
        refine ⟨by rw [b1, a1], ?_, ?_, fun f hf => b4 f (a5 f hf)⟩
        · intro f hf
          rcases b2 f hf with h | h
          · rcases a3 f h with h' | h'
            · exact Or.inl h'
            · right; rw [h']; exact hhit
          · right; rw [← a1]; exact h
        · intro p hp
          rcases b3 p hp with h | h
          · rcases a4 p h with h' | h'
            · exact Or.inl h'
            · right; rw [h'.1]; exact b4 _ h'.2
          · exact Or.inr h
    · rw [cra_main_find_in_cache_hit env.toCraEnv st.ctx filename hhit]
      dsimp only
      exact ih _

theorem create_tasks_filenames (env : CraMainEnv) (temp_dir : String) :
    ∀ (packages : List CraPackage) (i : Nat) (tasks : List CraTask),
      ∀ t ∈ (create_tasks env temp_dir i packages tasks).2,
        t ∈ tasks ∨ ∃ p ∈ packages, t.filename = p.filename ∧ t.pkg = p := by
  intro packages
  induction packages with
  | nil => intro i tasks t ht; exact Or.inl ht
  | cons pkg rest ih =>
    intro i tasks t ht
    unfold create_tasks at ht
    by_cases hen : (!pkg.enabled) = true
    · rw [if_pos hen] at ht
      rcases ih (i + 1) tasks t ht with h | ⟨p, hp, h⟩
      · exact Or.inl h
      · exact Or.inr ⟨p, List.mem_cons_of_mem _ hp, h⟩
    · rw [if_neg hen] at ht
      dsimp only at ht
      cases hpush : env.thread_pool_push
          { filename := pkg.filename,
            tmpdir := env.build_filename temp_dir (cra_package_get_name pkg),
            pkg := pkg, id := i, plugins_to_run := [] } with
      | error msg =>
        rw [hpush] at ht
        simp only [List.mem_append, List.mem_singleton] at ht
        rcases ht with h | h
        · exact Or.inl h
        · right
          subst h
          exact ⟨pkg, List.mem_cons_self _ _, rfl, rfl⟩
      | ok u =>
        rw [hpush] at ht
        rcases ih (i + 1) _ t ht with h | ⟨p, hp, h⟩
        · simp only [List.mem_append, List.mem_singleton] at h
          rcases h with h | h
          · exact Or.inl h
          · right
            subst h
            exact ⟨pkg, List.mem_cons_self _ _, rfl, rfl⟩
        · exact Or.inr ⟨p, List.mem_cons_of_mem _ hp, h⟩

theorem disable_older_filename (compare : CraPackage → CraPackage → Int)
    (ps0 : List CraPackage) (p : CraPackage)
    (hp : p ∈ cra_context_disable_older_packages compare ps0) :
    ∃ p0 ∈ ps0, p.filename = p0.filename := by
  obtain ⟨j, hj⟩ := List.getElem?_of_mem hp
  obtain ⟨p0, h0, hs⟩ := disable_older_shape compare ps0 j p hj
  refine ⟨p0, List.getElem?_mem h0, ?_⟩
  rcases hs with h | h <;> rw [h]
  rfl

/-- In every run, a file that is opened has no record in the loaded cache,
and every package and task of the run comes from a file that was opened. -/
theorem cra_main_opened (env : CraMainEnv) (opts : CraOptions) (filenames : List String)
    (file : String) (cache : List CraApp)
    (hfile : opts.old_metadata = some file) (hload : env.store_from_file file = .ok cache) :
    (∀ f ∈ (cra_main env opts filenames).opened,
      as_store_get_apps_by_metadata cache "X-CreaterepoAsCacheID"
        (env.cache_id_for_filename f) = []) ∧
    (∀ p ∈ (cra_main env opts filenames).packages,
      p.filename ∈ (cra_main env opts filenames).opened) ∧
    (∀ t ∈ (cra_main env opts filenames).tasks,
      t.filename ∈ (cra_main env opts filenames).opened) := by
  unfold cra_main
  cases env.setup with
  | error msg => simp [run_failed]
  | ok u =>
    dsimp only
    rw [hfile]
    dsimp only
    rw [hload]
    dsimp only
    cases env.extra_apps with
    | error msg => simp [run_failed]
    | ok extra =>
      dsimp only
      obtain ⟨s1, s2, s3, -⟩ := scan_packages_spec env filenames
        { ctx := { env.context_new with
            add_cache_id := opts.add_cache_id || (some file).isSome,
            old_md_cache := cache, packages := [], apps := extra },
          opened := [] }
      rcases hscan : scan_packages env filenames
        { ctx := { env.context_new with
            add_cache_id := opts.add_cache_id || (some file).isSome,
            old_md_cache := cache, packages := [], apps := extra },
          opened := [] } with ⟨res, st⟩
      rw [hscan] at s1 s2 s3
      dsimp only at s1 s2 s3
      have hop : ∀ f ∈ st.opened, as_store_get_apps_by_metadata cache "X-CreaterepoAsCacheID"
          (env.cache_id_for_filename f) = [] := by
        intro f hf
        rcases s2 f hf with h | h
        · simp at h
        · exact h
      have hpk : ∀ p ∈ st.ctx.packages, p.filename ∈ st.opened := by
        intro p hp
        rcases s3 p hp with h | h
        · simp at h
        · exact h
      have hpk2 : ∀ p ∈ cra_context_disable_older_packages env.package_compare st.ctx.packages,
          p.filename ∈ st.opened := by
        intro p hp
        obtain ⟨p0, h0, hf⟩ := disable_older_filename _ _ p hp
        rw [hf]
        exact hpk p0 h0
      cases res with
      | some msg =>
        dsimp only
        exact ⟨hop, hpk, by simp⟩
      | none =>
        dsimp only
        have htk : ∀ t ∈ (create_tasks env opts.temp_dir 0
            (cra_context_disable_older_packages env.package_compare st.ctx.packages) []).2,
            t.filename ∈ st.opened := by
          intro t ht
          rcases create_tasks_filenames env opts.temp_dir _ 0 [] t ht with h | ⟨p, hp, h, -⟩
          · simp at h
          · rw [h]; exact hpk2 p hp
        rcases htasks : create_tasks env opts.temp_dir 0
          (cra_context_disable_older_packages env.package_compare st.ctx.packages) [] with
          ⟨tres, tasks⟩
        rw [htasks] at htk
        dsimp only at htk
        cases tres with
        | some msg => exact ⟨hop, hpk2, htk⟩
        | none => exact ⟨hop, hpk2, htk⟩

/-- C11: when the old metadata holds at least one record tagged with the
cache id of the file name, `cra_main_find_in_cache` appends exactly those
records, as they are, to the result set and returns `TRUE`; the scan of
`main` then goes on to the next file without opening the package, and no
package or task of the run has that file name.  When the old metadata holds
none, it returns `FALSE` and leaves the context as it is. -/
theorem find_in_cache_adds_cached_records (env : CraMainEnv) (ctx : CraContext)
    (filename : String) :
    (as_store_get_apps_by_metadata ctx.old_md_cache "X-CreaterepoAsCacheID"
        (env.cache_id_for_filename filename) ≠ [] →
      cra_main_find_in_cache env.toCraEnv ctx filename =
        (true, { ctx with apps := (ctx.apps ++
          as_store_get_apps_by_metadata ctx.old_md_cache "X-CreaterepoAsCacheID"
            (env.cache_id_for_filename filename)) }) ∧
      (∀ (rest opened : List String),
        scan_packages env (filename :: rest) { ctx := ctx, opened := opened } =
          scan_packages env rest
            { ctx := { ctx with apps := (ctx.apps ++
                as_store_get_apps_by_metadata ctx.old_md_cache "X-CreaterepoAsCacheID"
                  (env.cache_id_for_filename filename)) },
              opened := opened }) ∧
      (∀ (opts : CraOptions) (filenames : List String) (file : String),
        opts.old_metadata = some file → env.store_from_file file = .ok ctx.old_md_cache →
        filename ∉ (cra_main env opts filenames).opened ∧
        (∀ p ∈ (cra_main env opts filenames).packages, p.filename ≠ filename) ∧
        (∀ t ∈ (cra_main env opts filenames).tasks, t.filename ≠ filename))) ∧
    (as_store_get_apps_by_metadata ctx.old_md_cache "X-CreaterepoAsCacheID"
        (env.cache_id_for_filename filename) = [] →
      cra_main_find_in_cache env.toCraEnv ctx filename = (false, ctx)) := by
  refine ⟨fun hhit => ⟨cra_main_find_in_cache_hit env.toCraEnv ctx filename hhit, ?_, ?_⟩,
    cra_main_find_in_cache_miss env.toCraEnv ctx filename⟩
  · intro rest opened
    rw [scan_packages, cra_main_find_in_cache_hit env.toCraEnv ctx filename hhit]
  · intro opts filenames file hfile hload
    obtain ⟨h1, h2, h3⟩ := cra_main_opened env opts filenames file ctx.old_md_cache hfile hload
    refine ⟨fun hmem => hhit (h1 filename hmem), ?_, ?_⟩
    · intro p hp heq
      exact hhit (h1 filename (heq ▸ h2 p hp))
    · intro t ht heq
      exact hhit (h1 filename (heq ▸ h3 t ht))

theorem find_in_cache_adds_cached_records_witness :
    (cra_main_find_in_cache
        (example_main_env (fun _ => .error "nothing interesting")
          [{ name := "font", globs := ["/usr/share/fonts/*/*.ttf"] }]
          [("foo-1.0-1.rpm", (example_task ["/usr/share/fonts/vera/Vera.ttf"]).pkg)]
          [cra_task_dummy (example_env (fun _ => .error "nothing interesting"))
            (example_task ["/usr/share/fonts/vera/Vera.ttf"])] []).toCraEnv
        { example_ctx [{ name := "font", globs := ["/usr/share/fonts/*/*.ttf"] }] true with
          old_md_cache := [cra_task_dummy (example_env (fun _ => .error "nothing interesting"))
            (example_task ["/usr/share/fonts/vera/Vera.ttf"])] }
        "foo-1.0-1.rpm").1 = true ∧
    (cra_main
        (example_main_env (fun _ => .error "nothing interesting")
          [{ name := "font", globs := ["/usr/share/fonts/*/*.ttf"] }]
          [("foo-1.0-1.rpm", (example_task ["/usr/share/fonts/vera/Vera.ttf"]).pkg)]
          [cra_task_dummy (example_env (fun _ => .error "nothing interesting"))
            (example_task ["/usr/share/fonts/vera/Vera.ttf"])] [])
        { add_cache_id := true, temp_dir := "./tmp", old_metadata := some "old.xml.gz" }
        ["foo-1.0-1.rpm"]).opened = [] ∧
    "foo-1.0-1.rpm" ∉ (cra_main
        (example_main_env (fun _ => .error "nothing interesting")
          [{ name := "font", globs := ["/usr/share/fonts/*/*.ttf"] }]
          [("foo-1.0-1.rpm", (example_task ["/usr/share/fonts/vera/Vera.ttf"]).pkg)]
          [cra_task_dummy (example_env (fun _ => .error "nothing interesting"))
            (example_task ["/usr/share/fonts/vera/Vera.ttf"])] [])
        { add_cache_id := true, temp_dir := "./tmp", old_metadata := some "old.xml.gz" }
        ["foo-1.0-1.rpm"]).opened :=
  have h := (find_in_cache_adds_cached_records
    (example_main_env (fun _ => .error "nothing interesting")
      [{ name := "font", globs := ["/usr/share/fonts/*/*.ttf"] }]
      [("foo-1.0-1.rpm", (example_task ["/usr/share/fonts/vera/Vera.ttf"]).pkg)]
      [cra_task_dummy (example_env (fun _ => .error "nothing interesting"))
        (example_task ["/usr/share/fonts/vera/Vera.ttf"])] [])
    { example_ctx [{ name := "font", globs := ["/usr/share/fonts/*/*.ttf"] }] true with
      old_md_cache := [cra_task_dummy (example_env (fun _ => .error "nothing interesting"))
        (example_task ["/usr/share/fonts/vera/Vera.ttf"])] }
    "foo-1.0-1.rpm").1 (by decide)
  ⟨by rw [h.1], by decide,
    (h.2.2 { add_cache_id := true, temp_dir := "./tmp", old_metadata := some "old.xml.gz" }
      ["foo-1.0-1.rpm"] "old.xml.gz" rfl rfl).1⟩

/-! ## The records a task adds -/

/-- One iteration of the loop over the candidate records either leaves the
result set and `nr_added` as they are, or appends one record that passed
the whole body. -/
theorem process_app_added (env : CraEnv) (ctx : CraContext) (task : CraTask) (app : CraApp)
    (st : AppsState) :
    ((process_app env ctx task app st).2.ctx_apps = st.ctx_apps ∧
      (process_app env ctx task app st).2.nr_added = st.nr_added) ∨
    ∃ a, task_record env ctx task a ∧
      (process_app env ctx task app st).2.ctx_apps = st.ctx_apps ++ [a] ∧
      (process_app env ctx task app st).2.nr_added = st.nr_added + 1 := by
  unfold process_app
  by_cases h1 : app.id_full = none
  · rw [if_pos h1]
    exact Or.inl ⟨rfl, rfl⟩
  · rw [if_neg h1]
    by_cases h2 : (cra_glob_value_search env.fnmatch ctx.blacklisted_ids
        (env.app_get_id app)).isSome = true
    · rw [if_pos h2]
      exact Or.inl ⟨rfl, rfl⟩
    · rw [if_neg h2]
      dsimp only
      cases href : env.plugin_loader_process_app task.pkg (copy_package_data env task app)
          task.tmpdir with
      | error msg => exact Or.inl ⟨rfl, rfl⟩
      | ok app2 =>
        dsimp only
        by_cases h3 : (add_missing_vetos app2).vetos.length > 0 ∨
            (add_missing_vetos app2).requires_appdata.length > 0
        · rw [if_pos h3]
          exact Or.inl ⟨rfl, rfl⟩
        · rw [if_neg h3]
          have hv : (add_missing_vetos app2).vetos.length = 0 := by omega
          have hr : (add_missing_vetos app2).requires_appdata.length = 0 := by omega
          cases env.app_save_resources (add_missing_vetos app2) with
          | error msg => exact Or.inl ⟨rfl, rfl⟩
          | ok u =>
            right
            dsimp only
            exact ⟨_, ⟨app, app2, h1, href, hv, hr, rfl⟩, rfl, rfl⟩

/-- The loop over the candidate records appends only records for which the
property `P` of the records one iteration appends holds, and counts each in
`nr_added`. -/
theorem process_apps_added (env : CraEnv) (ctx : CraContext) (task : CraTask) :
    ∀ (apps : List CraApp) (st : AppsState),
      ∃ valid : List CraApp, (∀ a ∈ valid, task_record env ctx task a) ∧
        (process_apps env ctx task apps st).ctx_apps = st.ctx_apps ++ valid ∧
        (process_apps env ctx task apps st).nr_added = st.nr_added + valid.length := by
  intro apps
  induction apps with
  | nil => intro st; exact ⟨[], by simp, by simp [process_apps], by simp [process_apps]⟩
  | cons app rest ih =>
    intro st
    have hstep := process_app_added env ctx task app st
    unfold process_apps
    rcases hp : process_app env ctx task app st with ⟨c, st'⟩
    rw [hp] at hstep
    simp only at hstep
    cases c with
    | skip =>
      simp only
      rcases hstep with ⟨h1, h2⟩ | ⟨a, ha, h1, h2⟩
      · exact ⟨[], by simp, by simp [h1], by simp [h2]⟩
      · refine ⟨[a], ?_, h1, by simp [h2]⟩
        intro b hb
        simp only [List.mem_singleton] at hb
        subst hb
        exact ha
    | next =>
      simp only
      obtain ⟨valid, hv, h3, h4⟩ := ih st'
      rcases hstep with ⟨h1, h2⟩ | ⟨a, ha, h1, h2⟩
      · exact ⟨valid, hv, by rw [h3, h1], by rw [h4, h2]⟩
      · refine ⟨a :: valid, ?_, by rw [h3, h1]; simp, by rw [h4, h2]; simp; omega⟩
        intro b hb
        rcases List.mem_cons.1 hb with hb | hb
        · subst hb; exact ha
        · exact hv b hb

/-- What a task adds to the result set: records that passed the whole loop
body, counted by `nr_added`, and after them the sentinel when cache ids are
added, the label `skip` was reached and no record was added. -/
theorem cra_task_process_func_records (env : CraEnv) (ctx : CraContext) (task : CraTask) :
    ∃ valid : List CraApp, (∀ a ∈ valid, task_record env ctx task a) ∧
      (cra_task_process_func env ctx task).nr_added = valid.length ∧
      (cra_task_process_func env ctx task).ctx_apps =
        ctx.apps ++ valid ++
          (if ctx.add_cache_id = true ∧ valid = [] ∧
              (cra_task_process_func env ctx task).reached_skip = true
            then [cra_task_dummy env task] else []) := by
  have hfin : ∀ (ptr : List Nat) (expl : List (CraPackage × String)) (st : AppsState)
      (valid : List CraApp), st.ctx_apps = ctx.apps ++ valid → st.nr_added = valid.length →
      (cra_task_finish env ctx task ptr expl st).nr_added = valid.length ∧
      (cra_task_finish env ctx task ptr expl st).ctx_apps =
        ctx.apps ++ valid ++
          (if ctx.add_cache_id = true ∧ valid = [] ∧
              (cra_task_finish env ctx task ptr expl st).reached_skip = true
            then [cra_task_dummy env task] else []) := by
    intro ptr expl st valid h2 h3
    obtain ⟨h5, h6⟩ := cra_task_finish_spec env ctx task ptr expl st valid h2 h3
    refine ⟨h5, ?_⟩
    rw [h6, cra_task_finish_reached_skip]
    simp
  unfold cra_task_process_func
  dsimp only
  by_cases h0 : (cra_task_add_suitable_plugins env.fnmatch ctx.plugins task.pkg.filelist
      task.plugins_to_run).length = 0
  · rw [if_pos h0]
    exact ⟨[], by simp, rfl, by simp⟩
  · rw [if_neg h0]
    cases env.ensure_exists_and_empty task.tmpdir with
    | error msg => exact ⟨[], by simp, rfl, by simp⟩
    | ok u =>
      dsimp only
      cases env.package_explode task.pkg task.tmpdir with
      | error msg =>
        dsimp only
        obtain ⟨h5, h6⟩ := hfin
          (cra_task_add_suitable_plugins env.fnmatch ctx.plugins task.pkg.filelist
            task.plugins_to_run) [(task.pkg, task.tmpdir)]
          { ctx_apps := ctx.apps, nr_added := 0,
            log := [(CraPackageLogLevel.debug,
                "Getting filename match for " ++ env.path_get_basename task.filename)] ++
              [(CraPackageLogLevel.debug,
                "Exploding tree for " ++ name_str (cra_package_get_name task.pkg))] ++
              [(CraPackageLogLevel.warning, "Failed to explode: " ++ msg)],
            visited := [] } [] (by simp) rfl
        exact ⟨[], by simp, h5, h6⟩
      | ok v =>
        dsimp only
        by_cases h2 : (!(cra_context_explode_extra_packages env ctx task).ret) = true
        · rw [if_pos h2]
          obtain ⟨h5, h6⟩ := hfin
            (cra_task_add_suitable_plugins env.fnmatch ctx.plugins task.pkg.filelist
              task.plugins_to_run)
            ((task.pkg, task.tmpdir) :: (cra_context_explode_extra_packages env ctx task).exploded)
            { ctx_apps := ctx.apps, nr_added := 0,
              log := [(CraPackageLogLevel.debug,
                  "Getting filename match for " ++ env.path_get_basename task.filename)] ++
                [(CraPackageLogLevel.debug,
                  "Exploding tree for " ++ name_str (cra_package_get_name task.pkg))] ++
                (cra_context_explode_extra_packages env ctx task).log,
              visited := [] } [] (by simp) rfl
          exact ⟨[], by simp, h5, h6⟩
        · rw [if_neg h2]
          obtain ⟨valid, hv, h3, h4⟩ := process_apps_added env ctx task
            (run_plugins env ctx task (cra_task_add_suitable_plugins env.fnmatch ctx.plugins
              task.pkg.filelist task.plugins_to_run)).apps
            { ctx_apps := ctx.apps, nr_added := 0,
              log := [(CraPackageLogLevel.debug,
                  "Getting filename match for " ++ env.path_get_basename task.filename)] ++
                [(CraPackageLogLevel.debug,
                  "Exploding tree for " ++ name_str (cra_package_get_name task.pkg))] ++
                (cra_context_explode_extra_packages env ctx task).log ++
                (run_plugins env ctx task (cra_task_add_suitable_plugins env.fnmatch ctx.plugins
                  task.pkg.filelist task.plugins_to_run)).log,
              visited := [] }
          obtain ⟨h5, h6⟩ := hfin
            (cra_task_add_suitable_plugins env.fnmatch ctx.plugins task.pkg.filelist
              task.plugins_to_run)
            ((task.pkg, task.tmpdir) :: (cra_context_explode_extra_packages env ctx task).exploded)
            _ valid h3 (by simpa using h4)
          exact ⟨valid, hv, h5, h6⟩

theorem as_app_get_metadata_item_add (a : CraApp) (key value : String) :
    as_app_get_metadata_item (as_app_add_metadata a key value) key = some value := by
  simp [as_app_get_metadata_item, as_app_add_metadata]

theorem task_record_tagged (env : CraEnv) (ctx : CraContext) (task : CraTask) (a : CraApp)
    (hcache : ctx.add_cache_id = true) (h : task_record env ctx task a) :
    as_app_get_metadata_item a "X-CreaterepoAsCacheID" =
      some (env.cache_id_for_filename task.filename) := by
  obtain ⟨app, app2, -, -, -, -, ha⟩ := h
  rw [ha, if_pos hcache, as_app_get_metadata_item_add]

/-- With cache ids added, every record a task appends to the result set is
tagged with the cache id of the task's file name. -/
theorem cra_task_process_func_tagged (env : CraEnv) (ctx : CraContext) (task : CraTask)
    (hcache : ctx.add_cache_id = true) :
    ∃ added : List CraApp,
      (cra_task_process_func env ctx task).ctx_apps = ctx.apps ++ added ∧
      (∀ a ∈ added, as_app_get_metadata_item a "X-CreaterepoAsCacheID" =
        some (env.cache_id_for_filename task.filename)) ∧
      ((cra_task_process_func env ctx task).reached_skip = true → added ≠ []) := by
  obtain ⟨valid, hv, -, h⟩ := cra_task_process_func_records env ctx task
  refine ⟨valid ++ (if ctx.add_cache_id = true ∧ valid = [] ∧
      (cra_task_process_func env ctx task).reached_skip = true
    then [cra_task_dummy env task] else []), by rw [h, List.append_assoc], ?_, ?_⟩
  · intro a ha
    rcases List.mem_append.1 ha with ha | ha
    · exact task_record_tagged env ctx task a hcache (hv a ha)
    · split_ifs at ha
      · simp only [List.mem_singleton] at ha
        rw [ha]
        exact as_app_get_metadata_item_add _ _ _
      · simp at ha
  · intro hskip
    cases valid with
    | nil => simp [hcache, hskip]
    | cons a t => simp

/-- C13: with cache ids added, every record a task appends to the result set,
the valid records and the sentinel alike, carries the metadata item
`X-CreaterepoAsCacheID` with the cache id of the task's file name; that is
the value `cra_main_find_in_cache` looks up for the file name, so it finds
the record in any old metadata that holds it. -/
theorem task_records_carry_cache_id (env : CraEnv) (ctx : CraContext) (task : CraTask)
    (hcache : ctx.add_cache_id = true) :
    ∃ added : List CraApp,
      (cra_task_process_func env ctx task).ctx_apps = ctx.apps ++ added ∧
      ∀ a ∈ added,
        as_app_get_metadata_item a "X-CreaterepoAsCacheID" =
          some (env.cache_id_for_filename task.filename) ∧
        ∀ ctx2 : CraContext, a ∈ ctx2.old_md_cache →
          (cra_main_find_in_cache env ctx2 task.filename).1 = true ∧
          a ∈ (cra_main_find_in_cache env ctx2 task.filename).2.apps := by
  obtain ⟨added, h1, h2, -⟩ := cra_task_process_func_tagged env ctx task hcache
  refine ⟨added, h1, fun a ha => ⟨h2 a ha, ?_⟩⟩
  intro ctx2 hmem
  have hin : a ∈ as_store_get_apps_by_metadata ctx2.old_md_cache "X-CreaterepoAsCacheID"
      (env.cache_id_for_filename task.filename) := by
    unfold as_store_get_apps_by_metadata
    rw [List.mem_filter]
    exact ⟨hmem, by simp [h2 a ha]⟩
  have hne : as_store_get_apps_by_metadata ctx2.old_md_cache "X-CreaterepoAsCacheID"
      (env.cache_id_for_filename task.filename) ≠ [] := List.ne_nil_of_mem hin
  rw [cra_main_find_in_cache_hit env ctx2 task.filename hne]
  exact ⟨rfl, List.mem_append_right _ hin⟩

theorem task_records_carry_cache_id_witness :
    (cra_task_process_func
        (example_env (fun _ =>
          .ok [example_app (some "Vera.ttf") (some "Vera.png") (some "Vera") (some "A font")]))
        (example_ctx [{ name := "font", globs := ["/usr/share/fonts/*/*.ttf"] }] true)
        (example_task ["/usr/share/fonts/vera/Vera.ttf"])).ctx_apps =
      [{ example_app (some "Vera.ttf") (some "Vera.png") (some "Vera") (some "A font") with
         metadata := [("X-CreaterepoAsCacheID", "foo-1.0-1.rpm")] }] ∧
    ∃ added : List CraApp,
      (cra_task_process_func
        (example_env (fun _ =>
          .ok [example_app (some "Vera.ttf") (some "Vera.png") (some "Vera") (some "A font")]))
        (example_ctx [{ name := "font", globs := ["/usr/share/fonts/*/*.ttf"] }] true)
        (example_task ["/usr/share/fonts/vera/Vera.ttf"])).ctx_apps =
        (example_ctx [{ name := "font", globs := ["/usr/share/fonts/*/*.ttf"] }] true).apps ++
          added ∧
      ∀ a ∈ added,
        as_app_get_metadata_item a "X-CreaterepoAsCacheID" =
          some ((example_env (fun _ =>
            .ok [example_app (some "Vera.ttf") (some "Vera.png") (some "Vera")
              (some "A font")])).cache_id_for_filename
            (example_task ["/usr/share/fonts/vera/Vera.ttf"]).filename) ∧
        ∀ ctx2 : CraContext, a ∈ ctx2.old_md_cache →
          (cra_main_find_in_cache
            (example_env (fun _ =>
              .ok [example_app (some "Vera.ttf") (some "Vera.png") (some "Vera")
                (some "A font")]))
            ctx2 (example_task ["/usr/share/fonts/vera/Vera.ttf"]).filename).1 = true ∧
          a ∈ (cra_main_find_in_cache
            (example_env (fun _ =>
              .ok [example_app (some "Vera.ttf") (some "Vera.png") (some "Vera")
                (some "A font")]))
            ctx2 (example_task ["/usr/share/fonts/vera/Vera.ttf"]).filename).2.apps :=
  ⟨by decide, task_records_carry_cache_id
    (example_env (fun _ =>
      .ok [example_app (some "Vera.ttf") (some "Vera.png") (some "Vera") (some "A font")]))
    (example_ctx [{ name := "font", globs := ["/usr/share/fonts/*/*.ttf"] }] true)
    (example_task ["/usr/share/fonts/vera/Vera.ttf"]) rfl⟩

/-! ## The font plugin: the loop invariant of `cra_font_merge_family` -/

theorem mem_font_hash_insert (h : FontHash) (key : String) (v : Nat × CraApp)
    (e : String × (Nat × CraApp)) :
    e ∈ font_hash_insert h key v ↔ (e ∈ h ∧ e.1 ≠ key) ∨ e = (key, v) := by
  unfold font_hash_insert
  simp [List.mem_filter]

theorem font_hash_insert_keys_nodup (h : FontHash) (key : String) (v : Nat × CraApp)
    (hk : (h.map Prod.fst).Nodup) : ((font_hash_insert h key v).map Prod.fst).Nodup := by
  unfold font_hash_insert
  rw [List.map_append, List.nodup_append]
  refine ⟨?_, by simp, ?_⟩
  · exact List.Sublist.nodup (List.Sublist.map _ (List.filter_sublist _)) hk
  · intro a ha hb
    simp only [List.map_cons, List.map_nil, List.mem_singleton] at hb
    subst hb
    simp [List.mem_filter] at ha

theorem font_hash_lookup_none (h : FontHash) (key : String) :
    font_hash_lookup h key = none ↔ ∀ v, (key, v) ∉ h := by
  induction h with
  | nil => simp [font_hash_lookup]
  | cons e t ih =>
    obtain ⟨k, w⟩ := e
    unfold font_hash_lookup
    by_cases hk : k = key
    · subst hk
      rw [if_pos rfl]
      constructor
      · intro h; cases h
      · intro h; exact absurd (List.mem_cons_self _ _) (h w)
    · rw [if_neg hk, ih]
      constructor
      · intro h v hv
        rcases List.mem_cons.1 hv with hv | hv
        · cases hv; exact hk rfl
        · exact h v hv
      · intro h v hv
        exact h v (List.mem_cons_of_mem _ hv)

theorem font_hash_lookup_mem (h : FontHash) (key : String) (v : Nat × CraApp)
    (hl : font_hash_lookup h key = some v) : (key, v) ∈ h := by
  induction h with
  | nil => simp [font_hash_lookup] at hl
  | cons e t ih =>
    obtain ⟨k, w⟩ := e
    unfold font_hash_lookup at hl
    by_cases hk : k = key
    · subst hk
      rw [if_pos rfl] at hl
      cases hl
      exact List.mem_cons_self _ _
    · rw [if_neg hk] at hl
      exact List.mem_cons_of_mem _ (ih hl)

theorem font_hash_mem_unique (h : FontHash) (hk : (h.map Prod.fst).Nodup) (key : String)
    (v w : Nat × CraApp) (hv : (key, v) ∈ h) (hw : (key, w) ∈ h) : v = w := by
  have := List.inj_on_of_nodup_map hk hv hw rfl
  exact (Prod.mk.inj this).2

theorem subsumed_into_mono (sub extra : List (Nat × Nat)) (j m : Nat)
    (h : Relation.ReflTransGen (subsumed_into sub) j m) :
    Relation.ReflTransGen (subsumed_into (sub ++ extra)) j m := by
  refine Relation.ReflTransGen.mono ?_ h
  intro a b hab
  exact List.mem_append_left _ hab

theorem cra_font_get_app_sortable_idx_congr (get_id : CraApp → String) (a b : CraApp)
    (h : get_id a = get_id b) :
    cra_font_get_app_sortable_idx get_id a = cra_font_get_app_sortable_idx get_id b := by
  unfold cra_font_get_app_sortable_idx
  rw [h]

theorem fontMergeInv_init (get_id : CraApp → String) (subsume : CraApp → CraApp → CraApp)
    (md_key : String) (l : List CraApp) :
    FontMergeInv get_id subsume md_key l 0 { list_new := [], hash := [], subsumed := [] } where
  keys := by simp
  new_keyless := by simp
  keyless_new := by intro j r h; omega
  new_nodup := by simp
  holder := by simp
  group := by intro j r v h; omega

theorem fontMergeInv_step (get_id : CraApp → String) (subsume : CraApp → CraApp → CraApp)
    (md_key : String) (l : List CraApp) (n : Nat) (st : FontMerge) (hn : n < l.length)
    (inv : FontMergeInv get_id subsume md_key l n st) :
    FontMergeInv get_id subsume md_key l (n + 1)
      (font_merge_step get_id subsume md_key l st n) := by
  have hl : l[n]? = some l[n] := List.getElem?_eq_getElem hn
  generalize hgen : l[n] = app at hl
  unfold font_merge_step
  rw [hl]
  dsimp only
  cases hitem : as_app_get_metadata_item app md_key with
  | none =>
    dsimp only
    refine ⟨inv.keys, ?_, ?_, ?_, ?_, ?_⟩
    · intro e he
      simp only [cra_plugin_add_app, List.mem_append, List.mem_singleton] at he
      rcases he with he | he
      · obtain ⟨h1, h2⟩ := inv.new_keyless e he
        exact ⟨by omega, h2⟩
      · subst he
        exact ⟨by simp, hl, hitem⟩
    · intro j r hj hjr hr
      simp only [cra_plugin_add_app, List.mem_append, List.mem_singleton]
      by_cases hjn : j = n
      · subst hjn
        rw [hl] at hjr
        cases hjr
        exact Or.inr rfl
      · exact Or.inl (inv.keyless_new j r (by omega) hjr hr)
    · simp only [cra_plugin_add_app, List.map_append, List.map_cons, List.map_nil]
      rw [List.nodup_append]
      refine ⟨inv.new_nodup, by simp, ?_⟩
      intro a ha hb
      simp only [List.mem_singleton] at hb
      subst hb
      obtain ⟨e, he, hea⟩ := List.mem_map.1 ha
      have := (inv.new_keyless e he).1
      omega
    · intro v m s hm
      obtain ⟨h1, r, h2, h3, h4, h5, h6⟩ := inv.holder v m s hm
      refine ⟨by omega, r, h2, h3, h4, h5, ?_⟩
      intro huniq
      apply h6
      intro j r' hj
      exact huniq j r' (by omega)
    · intro j r v hj hjr hr
      have hjn : j ≠ n := by
        intro h
        subst h
        rw [hl] at hjr
        cases hjr
        rw [hitem] at hr
        cases hr
      exact inv.group j r v (by omega) hjr hr
  | some tmp =>
    dsimp only
    cases hlook : font_hash_lookup st.hash tmp with
    | none =>
      dsimp only
      have hnone := (font_hash_lookup_none st.hash tmp).1 hlook
      refine ⟨font_hash_insert_keys_nodup _ _ _ inv.keys, ?_, ?_, inv.new_nodup, ?_, ?_⟩
      · intro e he
        obtain ⟨h1, h2⟩ := inv.new_keyless e he
        exact ⟨by omega, h2⟩
      · intro j r hj hjr hr
        have hjn : j ≠ n := by
          intro h
          subst h
          rw [hl] at hjr
          cases hjr
          rw [hitem] at hr
          cases hr
        exact inv.keyless_new j r (by omega) hjr hr
      · intro v m s hm
        rcases (mem_font_hash_insert _ _ _ _).1 hm with ⟨hm, -⟩ | hm
        · obtain ⟨h1, r, h2, h3, h4, h5, h6⟩ := inv.holder v m s hm
          refine ⟨by omega, r, h2, h3, h4, h5, ?_⟩
          intro huniq
          apply h6
          intro j r' hj
          exact huniq j r' (by omega)
        · cases hm
          exact ⟨by omega, app, hl, hitem, fun _ => rfl, fun _ => hitem, fun _ => rfl⟩
      · intro j r v hj hjr hr
        by_cases hjn : j = n
        · subst hjn
          rw [hl] at hjr
          cases hjr
          rw [hitem] at hr
          cases hr
          refine ⟨j, app, app, (mem_font_hash_insert _ _ _ _).2 (Or.inr rfl), hl,
            Relation.ReflTransGen.refl, fun _ => ⟨le_refl _, fun h => absurd h (by omega)⟩⟩
        · obtain ⟨m, s, rm, h1, h2, h3, h4⟩ := inv.group j r v (by omega) hjr hr
          have hv : v ≠ tmp := by
            intro h
            subst h
            exact hnone _ h1
          exact ⟨m, s, rm, (mem_font_hash_insert _ _ _ _).2 (Or.inl ⟨h1, hv⟩), h2, h3, h4⟩
    | some found =>
      obtain ⟨m0, s0⟩ := found
      dsimp only
      have hfound := font_hash_lookup_mem st.hash tmp (m0, s0) hlook
      obtain ⟨hm0, r0, hr0, hr0item, hr0id, hr0keep, -⟩ := inv.holder tmp m0 s0 hfound
      by_cases hc : cra_font_get_app_sortable_idx get_id app <
          cra_font_get_app_sortable_idx get_id s0
      · rw [if_pos hc]
        refine ⟨font_hash_insert_keys_nodup _ _ _ inv.keys, ?_, ?_, inv.new_nodup, ?_, ?_⟩
        · intro e he
          obtain ⟨h1, h2⟩ := inv.new_keyless e he
          exact ⟨by omega, h2⟩
        · intro j r hj hjr hr
          have hjn : j ≠ n := by
            intro h
            subst h
            rw [hl] at hjr
            cases hjr
            rw [hitem] at hr
            cases hr
          exact inv.keyless_new j r (by omega) hjr hr
        · intro v m s hm
          rcases (mem_font_hash_insert _ _ _ _).1 hm with ⟨hm, -⟩ | hm
          · obtain ⟨h1, r, h2, h3, h4, h5, h6⟩ := inv.holder v m s hm
            refine ⟨by omega, r, h2, h3, h4, h5, ?_⟩
            intro huniq
            apply h6
            intro j r' hj
            exact huniq j r' (by omega)
          · cases hm
            refine ⟨by omega, app, hl, hitem, fun hid => hid app s0, ?_, ?_⟩
            · intro hkeep
              rcases hkeep app s0 md_key with h | h
              · rw [h, hitem]
              · rw [h, hr0keep hkeep]
            · intro huniq
              have := huniq m0 r0 (by omega) hr0 hr0item
              omega
        · intro j r v hj hjr hr
          by_cases hv : v = tmp
          · subst hv
            refine ⟨n, subsume app s0, app, (mem_font_hash_insert _ _ _ _).2 (Or.inr rfl), hl,
              ?_, ?_⟩
            · by_cases hjn : j = n
              · subst hjn
                exact Relation.ReflTransGen.refl
              · obtain ⟨m, s, rm, h1, h2, h3, h4⟩ := inv.group j r v (by omega) hjr hr
                have hms := font_hash_mem_unique st.hash inv.keys v _ _ h1 hfound
                cases hms
                refine Relation.ReflTransGen.tail (subsumed_into_mono _ _ _ _ h3) ?_
                show (n, m0) ∈ st.subsumed ++ [(n, m0)]
                simp
            · intro hid
              by_cases hjn : j = n
              · subst hjn
                rw [hl] at hjr
                cases hjr
                exact ⟨le_refl _, fun h => absurd h (by omega)⟩
              · obtain ⟨m, s, rm, h1, h2, h3, h4⟩ := inv.group j r v (by omega) hjr hr
                have hms := font_hash_mem_unique st.hash inv.keys v _ _ h1 hfound
                cases hms
                rw [hr0] at h2
                cases h2
                have hs0 := cra_font_get_app_sortable_idx_congr get_id _ _ (hr0id hid)
                have := (h4 hid).1
                constructor
                · omega
                · intro _; omega
          · have hjn : j ≠ n := by
              intro h
              subst h
              rw [hl] at hjr
              cases hjr
              rw [hitem] at hr
              cases hr
              exact hv rfl
            obtain ⟨m, s, rm, h1, h2, h3, h4⟩ := inv.group j r v (by omega) hjr hr
            exact ⟨m, s, rm, (mem_font_hash_insert _ _ _ _).2 (Or.inl ⟨h1, hv⟩), h2,
              subsumed_into_mono _ _ _ _ h3, h4⟩
      · rw [if_neg hc]
        refine ⟨font_hash_insert_keys_nodup _ _ _ inv.keys, ?_, ?_, inv.new_nodup, ?_, ?_⟩
        · intro e he
          obtain ⟨h1, h2⟩ := inv.new_keyless e he
          exact ⟨by omega, h2⟩
        · intro j r hj hjr hr
          have hjn : j ≠ n := by
            intro h
            subst h
            rw [hl] at hjr
            cases hjr
            rw [hitem] at hr
            cases hr
          exact inv.keyless_new j r (by omega) hjr hr
        · intro v m s hm
          rcases (mem_font_hash_insert _ _ _ _).1 hm with ⟨hm, -⟩ | hm
          · obtain ⟨h1, r, h2, h3, h4, h5, h6⟩ := inv.holder v m s hm
            refine ⟨by omega, r, h2, h3, h4, h5, ?_⟩
            intro huniq
            apply h6
            intro j r' hj
            exact huniq j r' (by omega)
          · cases hm
            refine ⟨by omega, r0, hr0, hr0item, ?_, ?_, ?_⟩
            · intro hid
              rw [hid s0 app]
              exact hr0id hid
            · intro hkeep
              rcases hkeep s0 app md_key with h | h
              · rw [h, hr0keep hkeep]
              · rw [h, hitem]
            · intro huniq
              have := huniq n app (by omega) hl hitem
              omega
        · intro j r v hj hjr hr
          by_cases hv : v = tmp
          · subst hv
            refine ⟨m0, subsume s0 app, r0, (mem_font_hash_insert _ _ _ _).2 (Or.inr rfl), hr0,
              ?_, ?_⟩
            · by_cases hjn : j = n
              · subst hjn
                refine Relation.ReflTransGen.single ?_
                show (m0, j) ∈ st.subsumed ++ [(m0, j)]
                simp
              · obtain ⟨m, s, rm, h1, h2, h3, h4⟩ := inv.group j r v (by omega) hjr hr
                have hms := font_hash_mem_unique st.hash inv.keys v _ _ h1 hfound
                cases hms
                exact subsumed_into_mono _ _ _ _ h3
            · intro hid
              have hs0 := cra_font_get_app_sortable_idx_congr get_id _ _ (hr0id hid)
              by_cases hjn : j = n
              · subst hjn
                rw [hl] at hjr
                cases hjr
                constructor
                · omega
                · intro _; omega
              · obtain ⟨m, s, rm, h1, h2, h3, h4⟩ := inv.group j r v (by omega) hjr hr
                have hms := font_hash_mem_unique st.hash inv.keys v _ _ h1 hfound
                cases hms
                rw [hr0] at h2
                cases h2
                exact h4 hid
          · have hjn : j ≠ n := by
              intro h
              subst h
              rw [hl] at hjr
              cases hjr
              rw [hitem] at hr
              cases hr
              exact hv rfl
            obtain ⟨m, s, rm, h1, h2, h3, h4⟩ := inv.group j r v (by omega) hjr hr
            exact ⟨m, s, rm, (mem_font_hash_insert _ _ _ _).2 (Or.inl ⟨h1, hv⟩), h2,
              subsumed_into_mono _ _ _ _ h3, h4⟩

theorem fontMergeInv_loop (get_id : CraApp → String) (subsume : CraApp → CraApp → CraApp)
    (md_key : String) (l : List CraApp) (n : Nat) (hn : n ≤ l.length) :
    FontMergeInv get_id subsume md_key l n (font_merge_loop get_id subsume md_key l n) := by
  induction n with
  | zero => exact fontMergeInv_init get_id subsume md_key l
  | succ n ih =>
    unfold font_merge_loop
    rw [List.range_succ, List.foldl_append]
    exact fontMergeInv_step get_id subsume md_key l n _ (by omega) (ih (by omega))

/-! ## The font plugin: what `cra_font_merge_family` returns -/

theorem foldl_cra_plugin_add_app {α : Type} (vs : List α) :
    ∀ l : List α, vs.foldl cra_plugin_add_app l = l ++ vs := by
  induction vs with
  | nil => intro l; simp
  | cons v t ih =>
    intro l
    rw [List.foldl_cons, ih]
    simp [cra_plugin_add_app]

theorem cra_font_merge_family_indexed_eq (get_id : CraApp → String)
    (subsume : CraApp → CraApp → CraApp) (list : List CraApp) (md_key : String) :
    cra_font_merge_family_indexed get_id subsume list md_key =
      (font_merge_loop get_id subsume md_key list list.length).list_new ++
        font_hash_values (font_merge_loop get_id subsume md_key list list.length).hash := by
  unfold cra_font_merge_family_indexed
  rw [foldl_cra_plugin_add_app]

theorem mem_font_hash_values (h : FontHash) (e : Nat × CraApp) :
    e ∈ font_hash_values h ↔ ∃ v, (v, e) ∈ h := by
  unfold font_hash_values
  constructor
  · intro he
    obtain ⟨x, hx, hxe⟩ := List.mem_map.1 he
    exact ⟨x.1, by rw [← hxe]; exact hx⟩
  · rintro ⟨v, hv⟩
    exact List.mem_map.2 ⟨(v, e), hv, rfl⟩

/-- No position of the input list occurs twice in the new list. -/
theorem cra_font_merge_family_indexed_nodup (get_id : CraApp → String)
    (subsume : CraApp → CraApp → CraApp) (list : List CraApp) (md_key : String) :
    ((cra_font_merge_family_indexed get_id subsume list md_key).map Prod.fst).Nodup := by
  have inv := fontMergeInv_loop get_id subsume md_key list list.length (le_refl _)
  rw [cra_font_merge_family_indexed_eq, List.map_append, List.nodup_append]
  refine ⟨inv.new_nodup, ?_, ?_⟩
  · unfold font_hash_values
    rw [List.map_map]
    refine List.Nodup.map_on ?_ (List.Nodup.of_map _ inv.keys)
    rintro ⟨v, m, s⟩ hx ⟨v', m', s'⟩ hy hxy
    simp only [Function.comp] at hxy
    subst hxy
    obtain ⟨-, r, h1, h2, -⟩ := inv.holder v m s hx
    obtain ⟨-, r', h1', h2', -⟩ := inv.holder v' m s' hy
    rw [h1] at h1'
    cases h1'
    rw [h2] at h2'
    cases h2'
    have := font_hash_mem_unique _ inv.keys v _ _ hx hy
    rw [this]
  · intro a ha hb
    obtain ⟨e, he, hea⟩ := List.mem_map.1 ha
    obtain ⟨e', he', hea'⟩ := List.mem_map.1 hb
    obtain ⟨v, hv⟩ := (mem_font_hash_values _ _).1 he'
    obtain ⟨-, h1, h2⟩ := inv.new_keyless e he
    obtain ⟨-, r, h3, h4, -⟩ := inv.holder v e'.1 e'.2 hv
    rw [hea', ← hea, h1] at h3
    cases h3
    rw [h2] at h4
    cases h4

theorem filter_eq_singleton {α : Type} (p : α → Bool) :
    ∀ (l : List α) (x : α), l.Nodup → x ∈ l → p x = true →
      (∀ e ∈ l, p e = true → e = x) → l.filter p = [x] := by
  intro l
  induction l with
  | nil => intro x _ hx; simp at hx
  | cons a t ih =>
    intro x hn hx hp hall
    rw [List.nodup_cons] at hn
    by_cases hax : a = x
    · subst hax
      have ht : t.filter p = [] := by
        rw [List.filter_eq_nil_iff]
        intro e he hpe
        have := hall e (List.mem_cons_of_mem _ he) hpe
        subst this
        exact hn.1 he
      simp [List.filter_cons, hp, ht]
    · have hxt : x ∈ t := by
        rcases List.mem_cons.1 hx with h | h
        · exact absurd h.symm hax
        · exact h
      have hpa : p a = false := by
        by_contra hcon
        have hpa : p a = true := by simpa using hcon
        exact hax (hall a (List.mem_cons_self _ _) hpa)
      simp only [List.filter_cons, hpa]
      exact ih x hn.2 hxt hp (fun e he => hall e (List.mem_cons_of_mem _ he))

theorem font_group_iff (l : List CraApp) (md_key v : String) (j : Nat) :
    font_group l md_key v j = true ↔
      ∃ r, l[j]? = some r ∧ as_app_get_metadata_item r md_key = some v := by
  unfold font_group
  cases l[j]? with
  | none => simp
  | some r => simp

/-- C14: for every list, metadata key and value `v` of the key that occurs
(`cra_app_subsume` leaving identifiers as they are), exactly one record of
the group of `v` is in the new list of `cra_font_merge_family`: the one at
the earliest position among those of minimal score; it keeps its
identifier, and every other record of the group was subsumed, directly or
through the record that held the group before, into it and is not in the
new list. -/
theorem merge_family_keeps_earliest_best (get_id : CraApp → String)
    (subsume : CraApp → CraApp → CraApp) (hid : SubsumeKeepsId get_id subsume)
    (list : List CraApp) (md_key v : String)
    (hv : ∃ r ∈ list, as_app_get_metadata_item r md_key = some v) :
    ∃ (m : Nat) (rm s : CraApp), list[m]? = some rm ∧
      as_app_get_metadata_item rm md_key = some v ∧
      (∀ (j : Nat) (r : CraApp), list[j]? = some r →
        as_app_get_metadata_item r md_key = some v →
        cra_font_get_app_sortable_idx get_id rm ≤ cra_font_get_app_sortable_idx get_id r ∧
        (j < m → cra_font_get_app_sortable_idx get_id rm <
          cra_font_get_app_sortable_idx get_id r)) ∧
      (cra_font_merge_family_indexed get_id subsume list md_key).filter
        (fun e => font_group list md_key v e.1) = [(m, s)] ∧
      get_id s = get_id rm ∧
      (∀ (j : Nat) (r : CraApp), list[j]? = some r →
        as_app_get_metadata_item r md_key = some v → j ≠ m →
        Relation.TransGen
          (subsumed_into (font_merge_loop get_id subsume md_key list list.length).subsumed)
          j m ∧
        ∀ e ∈ cra_font_merge_family_indexed get_id subsume list md_key, e.1 ≠ j) := by
  have inv := fontMergeInv_loop get_id subsume md_key list list.length (le_refl _)
  obtain ⟨r0, hr0, hr0v⟩ := hv
  obtain ⟨j0, hj0⟩ := List.getElem?_of_mem hr0
  have hj0lt : j0 < list.length := (List.getElem?_eq_some.1 hj0).1
  obtain ⟨m, s, rm, hmem, hrm, -, -⟩ := inv.group j0 r0 v hj0lt hj0 hr0v
  obtain ⟨hmlt, rm', hrm', hrmv, hsid, -, -⟩ := inv.holder v m s hmem
  rw [hrm] at hrm'
  cases hrm'
  have hgroup : ∀ (j : Nat) (r : CraApp), list[j]? = some r →
      as_app_get_metadata_item r md_key = some v →
      Relation.ReflTransGen
        (subsumed_into (font_merge_loop get_id subsume md_key list list.length).subsumed) j m ∧
      cra_font_get_app_sortable_idx get_id rm ≤ cra_font_get_app_sortable_idx get_id r ∧
      (j < m → cra_font_get_app_sortable_idx get_id rm <
        cra_font_get_app_sortable_idx get_id r) := by
    intro j r hj hr
    have hjlt : j < list.length := (List.getElem?_eq_some.1 hj).1
    obtain ⟨m', s', rm', h1, h2, h3, h4⟩ := inv.group j r v hjlt hj hr
    have := font_hash_mem_unique _ inv.keys v _ _ h1 hmem
    cases this
    rw [hrm] at h2
    cases h2
    exact ⟨h3, h4 hid⟩
  have hout : (m, s) ∈ cra_font_merge_family_indexed get_id subsume list md_key := by
    rw [cra_font_merge_family_indexed_eq]
    exact List.mem_append_right _ ((mem_font_hash_values _ _).2 ⟨v, hmem⟩)
  have honly : ∀ e ∈ cra_font_merge_family_indexed get_id subsume list md_key,
      font_group list md_key v e.1 = true → e = (m, s) := by
    intro e he hg
    obtain ⟨r, hr, hrv⟩ := (font_group_iff _ _ _ _).1 hg
    rw [cra_font_merge_family_indexed_eq] at he
    rcases List.mem_append.1 he with he | he
    · obtain ⟨-, h1, h2⟩ := inv.new_keyless e he
      rw [hr] at h1
      cases h1
      rw [hrv] at h2
      cases h2
    · obtain ⟨v', hv'⟩ := (mem_font_hash_values _ _).1 he
      obtain ⟨-, r', h1, h2, -⟩ := inv.holder v' e.1 e.2 hv'
      rw [hr] at h1
      cases h1
      rw [hrv] at h2
      cases h2
      exact font_hash_mem_unique _ inv.keys v _ _ hv' hmem
  refine ⟨m, rm, s, hrm, hrmv, fun j r hj hr => (hgroup j r hj hr).2, ?_, hsid hid, ?_⟩
  · exact filter_eq_singleton _ _ _
      (List.Nodup.of_map _ (cra_font_merge_family_indexed_nodup get_id subsume list md_key))
      hout ((font_group_iff _ _ _ _).2 ⟨rm, hrm, hrmv⟩) honly
  · intro j r hj hr hjm
    constructor
    · rcases Relation.reflTransGen_iff_eq_or_transGen.1 (hgroup j r hj hr).1 with h | h
      · exact absurd h.symm hjm
      · exact h
    · intro e he hej
      have := honly e he ((font_group_iff _ _ _ _).2 ⟨r, by rw [hej]; exact hj, hr⟩)
      rw [this] at hej
      exact hjm hej.symm

/-- C16: a record that has no value for the metadata key, and a record whose
value of the key no other record of the list has, is in the new list of
`cra_font_merge_family` exactly once, in the state it had in the input
list. -/
theorem merge_family_passes_singletons (get_id : CraApp → String)
    (subsume : CraApp → CraApp → CraApp) (list : List CraApp) (md_key : String)
    (j : Nat) (r : CraApp) (hj : list[j]? = some r)
    (hsingle : as_app_get_metadata_item r md_key = none ∨
      ∀ (i : Nat) (r' : CraApp), list[i]? = some r' →
        as_app_get_metadata_item r' md_key = as_app_get_metadata_item r md_key → i = j) :
    (cra_font_merge_family_indexed get_id subsume list md_key).filter
        (fun e => decide (e.1 = j)) = [(j, r)] ∧
    r ∈ cra_font_merge_family get_id subsume list md_key := by
  have inv := fontMergeInv_loop get_id subsume md_key list list.length (le_refl _)
  have hjlt : j < list.length := (List.getElem?_eq_some.1 hj).1
  have hnd := cra_font_merge_family_indexed_nodup get_id subsume list md_key
  have hout : (j, r) ∈ cra_font_merge_family_indexed get_id subsume list md_key := by
    rw [cra_font_merge_family_indexed_eq]
    cases hitem : as_app_get_metadata_item r md_key with
    | none => exact List.mem_append_left _ (inv.keyless_new j r hjlt hj hitem)
    | some v =>
      have huniq : ∀ (i : Nat) (r' : CraApp), list[i]? = some r' →
          as_app_get_metadata_item r' md_key = some v → i = j := by
        rcases hsingle with h | h
        · rw [hitem] at h; cases h
        · intro i r' hi hr'
          exact h i r' hi (by rw [hr', hitem])
      obtain ⟨m, s, rm, hmem, hrm, -, -⟩ := inv.group j r v hjlt hj hitem
      obtain ⟨-, rm', hrm', hrmv, -, -, hsame⟩ := inv.holder v m s hmem
      have hmj : m = j := huniq m rm' hrm' hrmv
      subst hmj
      rw [hj] at hrm'
      cases hrm'
      have hs : s = r := hsame (fun i r' _ hi hr' => huniq i r' hi hr')
      subst hs
      exact List.mem_append_right _ ((mem_font_hash_values _ _).2 ⟨v, hmem⟩)
  refine ⟨?_, ?_⟩
  · refine filter_eq_singleton _ _ _ (List.Nodup.of_map _ hnd) hout (by simp) ?_
    intro e he hej
    have hej' : e.1 = j := by simpa using hej
    exact List.inj_on_of_nodup_map hnd he hout hej'
  · unfold cra_font_merge_family
    exact List.mem_map.2 ⟨(j, r), hout, rfl⟩

theorem example_subsume_keeps_id : SubsumeKeepsId example_get_id example_subsume :=
  fun _ _ => rfl

theorem find_filter_of_imp {α : Type} (p q : α → Bool) (hpq : ∀ e, p e = true → q e = true) :
    ∀ l : List α, (l.filter q).find? p = l.find? p := by
  intro l
  induction l with
  | nil => rfl
  | cons a t ih =>
    by_cases hq : q a = true
    · rw [List.filter_cons_of_pos hq]
      by_cases hp : p a = true
      · simp [List.find?_cons, hp]
      · simp [List.find?_cons, hp, ih]
    · rw [List.filter_cons_of_neg hq]
      have hp : ¬ p a = true := fun h => hq (hpq a h)
      simp [List.find?_cons, hp, ih]

theorem example_subsume_keeps_items : SubsumeKeepsItems example_subsume := by
  intro a d key
  unfold as_app_get_metadata_item example_subsume
  dsimp only
  rw [List.find?_append]
  cases ha : List.find? (fun e => decide (e.1 = key)) a.metadata with
  | some x => left; simp
  | none =>
    right
    simp only [Option.none_or]
    rw [find_filter_of_imp]
    intro e he
    have hek : e.1 = key := by simpa using he
    simp [as_app_get_metadata_item, hek, ha]

theorem merge_family_keeps_earliest_best_witness :
    (cra_font_merge_family example_get_id example_subsume
        [example_font "Vera-Bold.ttf" "Vera" none, example_font "Vera.ttf" "Vera" none]
        "FontFamily").map CraApp.id_full = [some "Vera.ttf"] ∧
    (cra_font_merge_family example_get_id example_subsume
        [example_font "Vera.ttf" "Vera" none, example_font "Vera-Bold.ttf" "Vera" none]
        "FontFamily").map CraApp.id_full = [some "Vera.ttf"] ∧
    ∃ (m : Nat) (rm s : CraApp),
      [example_font "Vera-Bold.ttf" "Vera" none, example_font "Vera.ttf" "Vera" none][m]? =
        some rm ∧
      as_app_get_metadata_item rm "FontFamily" = some "Vera" ∧
      (∀ (j : Nat) (r : CraApp),
        [example_font "Vera-Bold.ttf" "Vera" none, example_font "Vera.ttf" "Vera" none][j]? =
          some r →
        as_app_get_metadata_item r "FontFamily" = some "Vera" →
        cra_font_get_app_sortable_idx example_get_id rm ≤
          cra_font_get_app_sortable_idx example_get_id r ∧
        (j < m → cra_font_get_app_sortable_idx example_get_id rm <
          cra_font_get_app_sortable_idx example_get_id r)) ∧
      (cra_font_merge_family_indexed example_get_id example_subsume
        [example_font "Vera-Bold.ttf" "Vera" none, example_font "Vera.ttf" "Vera" none]
        "FontFamily").filter
        (fun e => font_group
          [example_font "Vera-Bold.ttf" "Vera" none, example_font "Vera.ttf" "Vera" none]
          "FontFamily" "Vera" e.1) = [(m, s)] ∧
      example_get_id s = example_get_id rm ∧
      (∀ (j : Nat) (r : CraApp),
        [example_font "Vera-Bold.ttf" "Vera" none, example_font "Vera.ttf" "Vera" none][j]? =
          some r →
        as_app_get_metadata_item r "FontFamily" = some "Vera" → j ≠ m →
        Relation.TransGen
          (subsumed_into (font_merge_loop example_get_id example_subsume "FontFamily"
            [example_font "Vera-Bold.ttf" "Vera" none, example_font "Vera.ttf" "Vera" none]
            [example_font "Vera-Bold.ttf" "Vera" none,
             example_font "Vera.ttf" "Vera" none].length).subsumed)
          j m ∧
        ∀ e ∈ cra_font_merge_family_indexed example_get_id example_subsume
          [example_font "Vera-Bold.ttf" "Vera" none, example_font "Vera.ttf" "Vera" none]
          "FontFamily", e.1 ≠ j) :=
  ⟨by decide, by decide,
   merge_family_keeps_earliest_best example_get_id example_subsume example_subsume_keeps_id
    [example_font "Vera-Bold.ttf" "Vera" none, example_font "Vera.ttf" "Vera" none]
    "FontFamily" "Vera" (by decide)⟩

theorem merge_family_passes_singletons_witness :
    (cra_font_merge_family_indexed example_get_id example_subsume
        [example_font "Vera-Bold.ttf" "Vera" none, example_font "Cantarell.otf" "Cantarell" none,
         example_font "Vera.ttf" "Vera" none] "FontFamily").filter
        (fun e => decide (e.1 = 1)) = [(1, example_font "Cantarell.otf" "Cantarell" none)] ∧
    example_font "Cantarell.otf" "Cantarell" none ∈
      cra_font_merge_family example_get_id example_subsume
        [example_font "Vera-Bold.ttf" "Vera" none, example_font "Cantarell.otf" "Cantarell" none,
         example_font "Vera.ttf" "Vera" none] "FontFamily" :=
  merge_family_passes_singletons example_get_id example_subsume
    [example_font "Vera-Bold.ttf" "Vera" none, example_font "Cantarell.otf" "Cantarell" none,
     example_font "Vera.ttf" "Vera" none] "FontFamily" 1
    (example_font "Cantarell.otf" "Cantarell" none) (by decide)
    (Or.inr (by
      intro i r' hi hr'
      match i, hi with
      | 0, hi => simp at hi; subst hi; revert hr'; decide
      | 1, _ => rfl
      | 2, hi => simp at hi; subst hi; revert hr'; decide
      | n + 3, hi => simp at hi))

/-! ## The font plugin: merge groups after `cra_plugin_merge` -/

theorem cra_font_merge_family_eq_states (get_id : CraApp → String)
    (subsume : CraApp → CraApp → CraApp) (list : List CraApp) (md_key : String) :
    cra_font_merge_family get_id subsume list md_key =
      font_states (font_merge_loop get_id subsume md_key list list.length) := by
  unfold cra_font_merge_family font_states
  rw [cra_font_merge_family_indexed_eq, List.map_append]

theorem key_values_append (key : String) (xs ys : List CraApp) :
    key_values key (xs ++ ys) = key_values key xs ++ key_values key ys := by
  unfold key_values
  rw [List.filterMap_append]

theorem font_hash_filter_of_lookup_none (h : FontHash) (key : String)
    (hl : font_hash_lookup h key = none) :
    h.filter (fun e => !decide (e.1 = key)) = h := by
  rw [List.filter_eq_self]
  intro e he
  have := (font_hash_lookup_none h key).1 hl e.2
  have hne : e.1 ≠ key := by
    intro heq
    apply this
    rw [← heq]
    exact he
  simp [hne]

theorem font_hash_perm_of_mem :
    ∀ (h : FontHash) (key : String) (x : Nat × CraApp), (h.map Prod.fst).Nodup → (key, x) ∈ h →
      h.Perm ((key, x) :: h.filter (fun e => !decide (e.1 = key))) := by
  intro h
  induction h with
  | nil => intro key x _ hx; simp at hx
  | cons e t ih =>
    intro key x hn hx
    rw [List.map_cons, List.nodup_cons] at hn
    rcases List.mem_cons.1 hx with hx | hx
    · subst hx
      have ht : t.filter (fun e => !decide (e.1 = key)) = t := by
        rw [List.filter_eq_self]
        intro e2 he
        have hne : e2.1 ≠ key := by
          intro heq
          apply hn.1
          exact List.mem_map.2 ⟨e2, he, heq⟩
        simp [hne]
      simp [List.filter_cons, ht]
    · have hne : e.1 ≠ key := by
        intro heq
        apply hn.1
        rw [heq]
        exact List.mem_map.2 ⟨(key, x), hx, rfl⟩
      have hfil : (e :: t).filter (fun e => !decide (e.1 = key)) =
          e :: t.filter (fun e => !decide (e.1 = key)) := by
        simp [List.filter_cons, hne]
      rw [hfil]
      exact (List.Perm.cons e (ih key x hn.2 hx)).trans (List.Perm.swap _ _ _)

/-- The records held after replacing the entry of `key`, which held `s0`, by
an entry holding `s`: those held before without `s0`, and `s`. -/
theorem font_states_insert_found (st : FontMerge) (key : String) (m0 m : Nat) (s0 s : CraApp)
    (sub : List (Nat × Nat)) (hn : (st.hash.map Prod.fst).Nodup)
    (hmem : (key, (m0, s0)) ∈ st.hash) :
    ∃ others : List CraApp,
      (font_states st).Perm (s0 :: others) ∧
      (font_states { st with hash := font_hash_insert st.hash key (m, s),
                             subsumed := sub }).Perm (s :: others) := by
  refine ⟨st.list_new.map (fun e => e.2) ++
    ((st.hash.filter (fun e => !decide (e.1 = key))).map (fun e => e.2)).map (fun e => e.2),
    ?_, ?_⟩
  · unfold font_states font_hash_values
    have hp := font_hash_perm_of_mem st.hash key (m0, s0) hn hmem
    have hp2 := (hp.map (fun e => e.2)).map (fun e : Nat × CraApp => e.2)
    simp only [List.map_cons] at hp2
    exact (List.Perm.append_left _ hp2).trans List.perm_middle
  · unfold font_states font_hash_values font_hash_insert
    dsimp only
    simp only [List.map_append, List.map_cons, List.map_nil]
    rw [← List.append_assoc]
    exact List.perm_append_singleton _ _

theorem key_values_subsume_le (subsume : CraApp → CraApp → CraApp)
    (hkeep : SubsumeKeepsItems subsume) (key : String) (a d : CraApp) :
    ((key_values key [subsume a d] : List String) : Multiset String) ≤
      ((key_values key [a] : List String) : Multiset String) +
        ((key_values key [d] : List String) : Multiset String) := by
  have hone : ∀ x : CraApp, key_values key [x] = (as_app_get_metadata_item x key).toList := by
    intro x
    unfold key_values
    cases h : as_app_get_metadata_item x key <;> simp [List.filterMap_cons, h]
  rcases hkeep a d key with h | h
  · rw [hone, hone a, h]
    exact Multiset.le_add_right _ _
  · rw [hone, hone d, h]
    exact Multiset.le_add_left _ _

theorem key_values_perm (key : String) (xs ys : List CraApp) (h : xs.Perm ys) :
    ((key_values key xs : List String) : Multiset String) =
      ((key_values key ys : List String) : Multiset String) :=
  Multiset.coe_eq_coe.2 (h.filterMap _)

theorem key_values_cons (key : String) (x : CraApp) (xs : List CraApp) :
    ((key_values key (x :: xs) : List String) : Multiset String) =
      ((key_values key [x] : List String) : Multiset String) +
        ((key_values key xs : List String) : Multiset String) := by
  rw [Multiset.coe_add, ← key_values_append]
  rfl

theorem font_states_add_new (st : FontMerge) (e : Nat × CraApp) :
    font_states { st with list_new := cra_plugin_add_app st.list_new e } =
      st.list_new.map (fun e => e.2) ++ [e.2] ++
        (font_hash_values st.hash).map (fun e => e.2) := by
  unfold font_states cra_plugin_add_app
  simp

theorem font_states_insert_new (st : FontMerge) (key : String) (e : Nat × CraApp)
    (hl : font_hash_lookup st.hash key = none) :
    font_states { st with hash := font_hash_insert st.hash key e } =
      font_states st ++ [e.2] := by
  unfold font_states font_hash_values font_hash_insert
  dsimp only
  rw [font_hash_filter_of_lookup_none _ _ hl]
  simp

/-- One iteration of the loop of `cra_font_merge_family` does not add to the
values that the records held and the records to come have for a metadata
key. -/
theorem font_merge_step_key_values (get_id : CraApp → String)
    (subsume : CraApp → CraApp → CraApp) (hkeep : SubsumeKeepsItems subsume)
    (md_key key : String) (l : List CraApp) (n : Nat) (st : FontMerge) (hn : n < l.length)
    (hkeys : (st.hash.map Prod.fst).Nodup) :
    ((key_values key (font_states (font_merge_step get_id subsume md_key l st n)) :
        List String) : Multiset String) +
      ((key_values key (l.drop (n + 1)) : List String) : Multiset String) ≤
    ((key_values key (font_states st) : List String) : Multiset String) +
      ((key_values key (l.drop n) : List String) : Multiset String) := by
  have hl : l[n]? = some l[n] := List.getElem?_eq_getElem hn
  rw [List.drop_eq_getElem_cons hn, key_values_cons]
  generalize l[n] = app at hl
  unfold font_merge_step
  rw [hl]
  dsimp only
  cases as_app_get_metadata_item app md_key with
  | none =>
    dsimp only
    rw [font_states_add_new]
    apply le_of_eq
    have hp : (st.list_new.map (fun e => e.2) ++ [app] ++
        (font_hash_values st.hash).map (fun e => e.2)).Perm (app :: font_states st) := by
      unfold font_states
      rw [List.append_assoc]
      exact List.perm_middle
    rw [key_values_perm key _ _ hp, key_values_cons]
    abel
  | some tmp =>
    dsimp only
    cases hlook : font_hash_lookup st.hash tmp with
    | none =>
      dsimp only
      rw [font_states_insert_new _ _ _ hlook]
      apply le_of_eq
      rw [key_values_perm key _ _ (List.perm_append_singleton app (font_states st)),
        key_values_cons]
      abel
    | some found =>
      obtain ⟨m0, s0⟩ := found
      dsimp only
      have hfound := font_hash_lookup_mem st.hash tmp (m0, s0) hlook
      by_cases hc : cra_font_get_app_sortable_idx get_id app <
          cra_font_get_app_sortable_idx get_id s0
      · rw [if_pos hc]
        obtain ⟨others, hp1, hp2⟩ := font_states_insert_found st tmp m0 n s0 (subsume app s0)
          (st.subsumed ++ [(n, m0)]) hkeys hfound
        rw [key_values_perm key _ _ hp1, key_values_perm key _ _ hp2, key_values_cons,
          key_values_cons key s0]
        have h := key_values_subsume_le subsume hkeep key app s0
        calc ((key_values key [subsume app s0] : List String) : Multiset String) +
              ((key_values key others : List String) : Multiset String) +
              ((key_values key (l.drop (n + 1)) : List String) : Multiset String)
            = ((key_values key [subsume app s0] : List String) : Multiset String) +
              (((key_values key others : List String) : Multiset String) +
              ((key_values key (l.drop (n + 1)) : List String) : Multiset String)) := by abel
          _ ≤ (((key_values key [app] : List String) : Multiset String) +
              ((key_values key [s0] : List String) : Multiset String)) +
              (((key_values key others : List String) : Multiset String) +
              ((key_values key (l.drop (n + 1)) : List String) : Multiset String)) :=
            add_le_add_right h _
          _ = _ := by abel
      · rw [if_neg hc]
        obtain ⟨others, hp1, hp2⟩ := font_states_insert_found st tmp m0 m0 s0 (subsume s0 app)
          (st.subsumed ++ [(m0, n)]) hkeys hfound
        rw [key_values_perm key _ _ hp1, key_values_perm key _ _ hp2, key_values_cons,
          key_values_cons key s0]
        have h := key_values_subsume_le subsume hkeep key s0 app
        calc ((key_values key [subsume s0 app] : List String) : Multiset String) +
              ((key_values key others : List String) : Multiset String) +
              ((key_values key (l.drop (n + 1)) : List String) : Multiset String)
            = ((key_values key [subsume s0 app] : List String) : Multiset String) +
              (((key_values key others : List String) : Multiset String) +
              ((key_values key (l.drop (n + 1)) : List String) : Multiset String)) := by abel
          _ ≤ (((key_values key [s0] : List String) : Multiset String) +
              ((key_values key [app] : List String) : Multiset String)) +
              (((key_values key others : List String) : Multiset String) +
              ((key_values key (l.drop (n + 1)) : List String) : Multiset String)) :=
            add_le_add_right h _
          _ = _ := by abel

theorem font_merge_loop_key_values (get_id : CraApp → String)
    (subsume : CraApp → CraApp → CraApp) (hkeep : SubsumeKeepsItems subsume)
    (md_key key : String) (l : List CraApp) (n : Nat) (hn : n ≤ l.length) :
    ((key_values key (font_states (font_merge_loop get_id subsume md_key l n)) :
        List String) : Multiset String) +
      ((key_values key (l.drop n) : List String) : Multiset String) ≤
    ((key_values key l : List String) : Multiset String) := by
  induction n with
  | zero => simp [font_merge_loop, font_states, font_hash_values, key_values]
  | succ n ih =>
    have hstep := font_merge_step_key_values get_id subsume hkeep md_key key l n
      (font_merge_loop get_id subsume md_key l n) (by omega)
      (fontMergeInv_loop get_id subsume md_key l n (by omega)).keys
    have heq : font_merge_loop get_id subsume md_key l (n + 1) =
        font_merge_step get_id subsume md_key l (font_merge_loop get_id subsume md_key l n) n := by
      unfold font_merge_loop
      rw [List.range_succ, List.foldl_append]
      rfl
    rw [heq]
    exact le_trans hstep (ih (by omega))

/-- A pass of `cra_font_merge_family` over any key keeps the values of a
metadata key distinct, when they are distinct in the input list. -/
theorem merge_family_preserves_distinct (get_id : CraApp → String)
    (subsume : CraApp → CraApp → CraApp) (hkeep : SubsumeKeepsItems subsume)
    (md_key key : String) (l : List CraApp) (h : (key_values key l).Nodup) :
    (key_values key (cra_font_merge_family get_id subsume l md_key)).Nodup := by
  have hle := font_merge_loop_key_values get_id subsume hkeep md_key key l l.length (le_refl _)
  rw [List.drop_length] at hle
  have hle2 : ((key_values key (font_states (font_merge_loop get_id subsume md_key l
      l.length)) : List String) : Multiset String) ≤
      ((key_values key l : List String) : Multiset String) := by
    simpa [key_values] using hle
  rw [cra_font_merge_family_eq_states]
  exact Multiset.coe_nodup.1 (Multiset.nodup_of_le hle2 (Multiset.coe_nodup.2 h))

/-- After a pass of `cra_font_merge_family` over a key, no two records of the
new list have the same value of that key. -/
theorem merge_family_distinct (get_id : CraApp → String)
    (subsume : CraApp → CraApp → CraApp) (hkeep : SubsumeKeepsItems subsume)
    (md_key : String) (l : List CraApp) :
    (key_values md_key (cra_font_merge_family get_id subsume l md_key)).Nodup := by
  have inv := fontMergeInv_loop get_id subsume md_key l l.length (le_refl _)
  rw [cra_font_merge_family_eq_states]
  unfold font_states
  rw [key_values_append]
  have h1 : key_values md_key ((font_merge_loop get_id subsume md_key l l.length).list_new.map
      (fun e => e.2)) = [] := by
    unfold key_values
    rw [List.filterMap_eq_nil_iff]
    intro a ha
    obtain ⟨e, he, hea⟩ := List.mem_map.1 ha
    rw [← hea]
    exact (inv.new_keyless e he).2.2
  have h2 : ∀ h : FontHash, (∀ v m s, (v, (m, s)) ∈ h →
      as_app_get_metadata_item s md_key = some v) →
      key_values md_key ((font_hash_values h).map (fun e => e.2)) = h.map Prod.fst := by
    intro h
    induction h with
    | nil => intro _; rfl
    | cons e t ih =>
      intro hall
      obtain ⟨v, m, s⟩ := e
      have hs := hall v m s (List.mem_cons_self _ _)
      have ht := ih (fun v' m' s' hm => hall v' m' s' (List.mem_cons_of_mem _ hm))
      unfold key_values font_hash_values at ht ⊢
      simp only [List.map_cons, List.filterMap_cons, hs]
      rw [ht]
  rw [h1, List.nil_append, h2 _ (fun v m s hm => (inv.holder v m s hm).2.choose_spec.2.2.2.1 hkeep)]
  exact inv.keys

theorem filterMap_nodup_index {α β : Type} (f : α → Option β) :
    ∀ (l : List α) (i j : Nat) (a b : α) (v : β), (l.filterMap f).Nodup →
      l[i]? = some a → l[j]? = some b → f a = some v → f b = some v → i = j := by
  intro l
  induction l with
  | nil => intro i j a b v _ hi; simp at hi
  | cons x t ih =>
    intro i j a b v hn hi hj ha hb
    have htail : (t.filterMap f).Nodup := by
      cases hx : f x with
      | none => rw [List.filterMap_cons, hx] at hn; exact hn
      | some w =>
        rw [List.filterMap_cons, hx] at hn
        exact (List.nodup_cons.1 hn).2
    have hclash : ∀ (k : Nat) (c d : α), (x :: t)[0]? = some c → (x :: t)[k + 1]? = some d →
        f c = some v → f d = some v → False := by
      intro k c d hc hd hfc hfd
      have hcx : x = c := by simpa using hc
      subst hcx
      rw [List.filterMap_cons, hfc] at hn
      have hd2 : t[k]? = some d := by simpa using hd
      exact (List.nodup_cons.1 hn).1 (List.mem_filterMap.2 ⟨d, List.getElem?_mem hd2, hfd⟩)
    cases i with
    | zero =>
      cases j with
      | zero => rfl
      | succ j => exact absurd (hclash j a b hi hj ha hb) id
    | succ i =>
      cases j with
      | zero => exact absurd (hclash i b a hj hi hb ha) id
      | succ j =>
        have hi2 : t[i]? = some a := by simpa using hi
        have hj2 : t[j]? = some b := by simpa using hj
        rw [ih i j a b v htail hi2 hj2 ha hb]

/-- One iteration of the loop of `cra_font_merge_family` over a list whose
values of the key are distinct adds the record unchanged. -/
theorem font_merge_step_of_distinct (get_id : CraApp → String)
    (subsume : CraApp → CraApp → CraApp) (md_key : String) (l : List CraApp) (n : Nat)
    (st : FontMerge) (inv : FontMergeInv get_id subsume md_key l n st)
    (hd : (key_values md_key l).Nodup) (app : CraApp) (hl : l[n]? = some app) :
    (font_states (font_merge_step get_id subsume md_key l st n)).Perm
      (font_states st ++ [app]) := by
  unfold font_merge_step
  rw [hl]
  dsimp only
  cases hitem : as_app_get_metadata_item app md_key with
  | none =>
    dsimp only
    rw [font_states_add_new]
    unfold font_states
    rw [List.append_assoc, List.append_assoc]
    exact List.Perm.append_left _ List.perm_append_comm
  | some tmp =>
    dsimp only
    cases hlook : font_hash_lookup st.hash tmp with
    | none =>
      dsimp only
      rw [font_states_insert_new _ _ _ hlook]
    | some found =>
      obtain ⟨m0, s0⟩ := found
      exfalso
      have hfound := font_hash_lookup_mem st.hash tmp (m0, s0) hlook
      obtain ⟨hlt, r, hr, hrv, _⟩ := inv.holder tmp m0 s0 hfound
      have := filterMap_nodup_index (fun a => as_app_get_metadata_item a md_key) l m0 n r app tmp
        hd hr hl hrv hitem
      omega

theorem font_merge_loop_of_distinct (get_id : CraApp → String)
    (subsume : CraApp → CraApp → CraApp) (md_key : String) (l : List CraApp)
    (hd : (key_values md_key l).Nodup) (n : Nat) (hn : n ≤ l.length) :
    (font_states (font_merge_loop get_id subsume md_key l n) ++ l.drop n).Perm l := by
  induction n with
  | zero => simp [font_merge_loop, font_states, font_hash_values]
  | succ n ih =>
    have hlt : n < l.length := by omega
    have heq : font_merge_loop get_id subsume md_key l (n + 1) =
        font_merge_step get_id subsume md_key l (font_merge_loop get_id subsume md_key l n) n := by
      unfold font_merge_loop
      rw [List.range_succ, List.foldl_append]
      rfl
    have hstep := font_merge_step_of_distinct get_id subsume md_key l n
      (font_merge_loop get_id subsume md_key l n)
      (fontMergeInv_loop get_id subsume md_key l n (by omega)) hd l[n]
      (List.getElem?_eq_getElem hlt)
    rw [heq]
    have h2 := ih (by omega)
    rw [List.drop_eq_getElem_cons hlt] at h2
    refine List.Perm.trans (List.Perm.append_right _ hstep) ?_
    rw [List.append_assoc]
    exact h2

/-- A pass of `cra_font_merge_family` over a list whose values of the key are
distinct returns the records of the list, none changed. -/
theorem merge_family_perm_of_distinct (get_id : CraApp → String)
    (subsume : CraApp → CraApp → CraApp) (md_key : String) (l : List CraApp)
    (hd : (key_values md_key l).Nodup) :
    (cra_font_merge_family get_id subsume l md_key).Perm l := by
  have h := font_merge_loop_of_distinct get_id subsume md_key l hd l.length (le_refl _)
  rw [List.drop_length, List.append_nil] at h
  rw [cra_font_merge_family_eq_states]
  exact h

/-- After `cra_plugin_merge` no two records have the same value of the key
FontFamily, and no two the same value of the key FontParent. -/
theorem cra_plugin_merge_distinct (get_id : CraApp → String)
    (subsume : CraApp → CraApp → CraApp) (hkeep : SubsumeKeepsItems subsume)
    (l : List CraApp) :
    (key_values "FontFamily" (cra_plugin_merge get_id subsume l)).Nodup ∧
    (key_values "FontParent" (cra_plugin_merge get_id subsume l)).Nodup := by
  unfold cra_plugin_merge
  exact ⟨merge_family_preserves_distinct get_id subsume hkeep "FontParent" "FontFamily" _
      (merge_family_distinct get_id subsume hkeep "FontFamily" l),
    merge_family_distinct get_id subsume hkeep "FontParent" _⟩

/-- C15: when `cra_app_subsume` leaves each metadata item of the record as it
was or sets it to the donor's, applying `cra_plugin_merge` (the FontFamily
pass, then the FontParent pass) to its own result returns the same records,
each as often, as applying it once: the second application merges nothing. -/
theorem merge_twice_same_records (get_id : CraApp → String)
    (subsume : CraApp → CraApp → CraApp) (hkeep : SubsumeKeepsItems subsume)
    (l : List CraApp) :
    (cra_plugin_merge get_id subsume (cra_plugin_merge get_id subsume l)).Perm
      (cra_plugin_merge get_id subsume l) := by
  obtain ⟨hfam, hpar⟩ := cra_plugin_merge_distinct get_id subsume hkeep l
  have h1 := merge_family_perm_of_distinct get_id subsume "FontFamily"
    (cra_plugin_merge get_id subsume l) hfam
  have hpar2 : (key_values "FontParent" (cra_font_merge_family get_id subsume
      (cra_plugin_merge get_id subsume l) "FontFamily")).Nodup :=
    (List.Perm.nodup_iff (h1.filterMap _)).2 hpar
  have h2 := merge_family_perm_of_distinct get_id subsume "FontParent" _ hpar2
  exact h2.trans h1

theorem merge_twice_same_records_witness :
    SubsumeKeepsItems example_subsume ∧
    (cra_plugin_merge example_get_id example_subsume
      [example_font "Vera-Bold.ttf" "Vera" (some "Bitstream"),
       example_font "Vera.ttf" "Vera" (some "Bitstream"),
       example_font "VeraMono.ttf" "Vera Mono" (some "Bitstream"),
       example_app (some "foo.desktop") (some "foo") (some "Foo") (some "A foo")]).map
        CraApp.id_full = [some "foo.desktop", some "Vera.ttf"] ∧
    (cra_plugin_merge example_get_id example_subsume
      (cra_plugin_merge example_get_id example_subsume
        [example_font "Vera-Bold.ttf" "Vera" (some "Bitstream"),
         example_font "Vera.ttf" "Vera" (some "Bitstream"),
         example_font "VeraMono.ttf" "Vera Mono" (some "Bitstream"),
         example_app (some "foo.desktop") (some "foo") (some "Foo") (some "A foo")])).Perm
      (cra_plugin_merge example_get_id example_subsume
        [example_font "Vera-Bold.ttf" "Vera" (some "Bitstream"),
         example_font "Vera.ttf" "Vera" (some "Bitstream"),
         example_font "VeraMono.ttf" "Vera Mono" (some "Bitstream"),
         example_app (some "foo.desktop") (some "foo") (some "Foo") (some "A foo")]) :=
  ⟨example_subsume_keeps_items, by decide,
    merge_twice_same_records example_get_id example_subsume example_subsume_keeps_items
      [example_font "Vera-Bold.ttf" "Vera" (some "Bitstream"),
       example_font "Vera.ttf" "Vera" (some "Bitstream"),
       example_font "VeraMono.ttf" "Vera Mono" (some "Bitstream"),
       example_app (some "foo.desktop") (some "foo") (some "Foo") (some "A foo")]⟩

/-- C17, as stated, fails: two packages `foo` and `bar` that each ship
`foo.desktop` give two tasks, each adds a record with the identifier
`foo.desktop`, and both records are there after the merge functions have run,
in the list that `main` keeps and in the store that is written: the only
merge function in the source groups records by the keys FontFamily and
FontParent, never by identifier. -/
theorem same_identifier_counterexample :
    (cra_main
      (example_main_env
        (fun _ => .ok [example_app (some "foo.desktop") (some "foo") (some "Foo") (some "A foo")])
        [{ name := "desktop", globs := ["/usr/share/applications/*.desktop"] }]
        [("foo-1.0-1.rpm", { example_package "foo-1.0-1.rpm" "foo" "1.0" "1" with
            filelist := some ["/usr/share/applications/foo.desktop"] }),
         ("bar-1.0-1.rpm", { example_package "bar-1.0-1.rpm" "bar" "1.0" "1" with
            filelist := some ["/usr/share/applications/foo.desktop"] })]
        [] [cra_plugin_merge example_get_id example_subsume])
      { add_cache_id := false, temp_dir := "./tmp", old_metadata := none }
      ["foo-1.0-1.rpm", "bar-1.0-1.rpm"]).apps.map CraApp.id_full =
      [some "foo.desktop", some "foo.desktop"] ∧
    (cra_main
      (example_main_env
        (fun _ => .ok [example_app (some "foo.desktop") (some "foo") (some "Foo") (some "A foo")])
        [{ name := "desktop", globs := ["/usr/share/applications/*.desktop"] }]
        [("foo-1.0-1.rpm", { example_package "foo-1.0-1.rpm" "foo" "1.0" "1" with
            filelist := some ["/usr/share/applications/foo.desktop"] }),
         ("bar-1.0-1.rpm", { example_package "bar-1.0-1.rpm" "bar" "1.0" "1" with
            filelist := some ["/usr/share/applications/foo.desktop"] })]
        [] [cra_plugin_merge example_get_id example_subsume])
      { add_cache_id := false, temp_dir := "./tmp", old_metadata := none }
      ["foo-1.0-1.rpm", "bar-1.0-1.rpm"]).store.map (fun s => s.map CraApp.id_full) =
      some [some "foo.desktop", some "foo.desktop"] ∧
    (cra_plugin_merge example_get_id example_subsume
      [example_app (some "foo.desktop") (some "foo") (some "Foo") (some "A foo"),
       example_app (some "foo.desktop") (some "foo") (some "Foo") (some "A foo")]).map
        CraApp.id_full = [some "foo.desktop", some "foo.desktop"] := by
  decide

/-- C17, amended: when `cra_app_subsume` leaves each metadata item of the
record as it was or sets it to the donor's, no two records that are in the
list after `cra_plugin_merge` have the same value of the key FontFamily, and
no two have the same value of the key FontParent. -/
theorem merge_survivors_distinct_groups (get_id : CraApp → String)
    (subsume : CraApp → CraApp → CraApp) (hkeep : SubsumeKeepsItems subsume)
    (l : List CraApp) (key : String) (hkey : key = "FontFamily" ∨ key = "FontParent")
    (i j : Nat) (a b : CraApp) (v : String)
    (ha : (cra_plugin_merge get_id subsume l)[i]? = some a)
    (hb : (cra_plugin_merge get_id subsume l)[j]? = some b)
    (hav : as_app_get_metadata_item a key = some v)
    (hbv : as_app_get_metadata_item b key = some v) : i = j := by
  have hd := cra_plugin_merge_distinct get_id subsume hkeep l
  have hn : (key_values key (cra_plugin_merge get_id subsume l)).Nodup := by
    rcases hkey with h | h
    · rw [h]; exact hd.1
    · rw [h]; exact hd.2
  exact filterMap_nodup_index (fun a => as_app_get_metadata_item a key) _ i j a b v hn ha hb
    hav hbv

theorem merge_survivors_distinct_groups_witness :
    SubsumeKeepsItems example_subsume ∧
    key_values "FontParent" (cra_plugin_merge example_get_id example_subsume
      [example_font "Vera-Bold.ttf" "Vera" (some "Bitstream"),
       example_font "Vera.ttf" "Vera" (some "Bitstream"),
       example_font "VeraMono.ttf" "Vera Mono" (some "Bitstream"),
       example_app (some "foo.desktop") (some "foo") (some "Foo") (some "A foo")]) =
      ["Bitstream"] ∧
    (cra_plugin_merge example_get_id example_subsume
      [example_font "Vera-Bold.ttf" "Vera" (some "Bitstream"),
       example_font "Vera.ttf" "Vera" (some "Bitstream"),
       example_font "VeraMono.ttf" "Vera Mono" (some "Bitstream"),
       example_app (some "foo.desktop") (some "foo") (some "Foo") (some "A foo")])[1]? =
      some (example_subsume
        (example_subsume (example_font "Vera.ttf" "Vera" (some "Bitstream"))
          (example_font "Vera-Bold.ttf" "Vera" (some "Bitstream")))
        (example_font "VeraMono.ttf" "Vera Mono" (some "Bitstream"))) ∧
    (1 : Nat) = 1 :=
  ⟨example_subsume_keeps_items, by decide, by decide,
    merge_survivors_distinct_groups example_get_id example_subsume example_subsume_keeps_items
      [example_font "Vera-Bold.ttf" "Vera" (some "Bitstream"),
       example_font "Vera.ttf" "Vera" (some "Bitstream"),
       example_font "VeraMono.ttf" "Vera Mono" (some "Bitstream"),
       example_app (some "foo.desktop") (some "foo") (some "Foo") (some "A foo")]
      "FontParent" (Or.inr rfl) 1 1
      (example_subsume
        (example_subsume (example_font "Vera.ttf" "Vera" (some "Bitstream"))
          (example_font "Vera-Bold.ttf" "Vera" (some "Bitstream")))
        (example_font "VeraMono.ttf" "Vera Mono" (some "Bitstream")))
      (example_subsume
        (example_subsume (example_font "Vera.ttf" "Vera" (some "Bitstream"))
          (example_font "Vera-Bold.ttf" "Vera" (some "Bitstream")))
        (example_font "VeraMono.ttf" "Vera Mono" (some "Bitstream")))
      "Bitstream" (by decide) (by decide) (by decide) (by decide)⟩

/-! ## The records of the output store -/

/-- A run that reaches `cra_context_write_xml` loaded the old metadata and the
extra records, scanned every file, created every task, and handed the store
the records of the merged result set that the writer does not skip. -/
theorem cra_main_store_inv (env : CraMainEnv) (opts : CraOptions) (filenames : List String)
    (store : List CraApp) (h : (cra_main env opts filenames).store = some store) :
    ∃ (cache extra : List CraApp) (st : ScanState) (tasks : List CraTask),
      (match opts.old_metadata with
        | some file => env.store_from_file file
        | none => .ok []) = .ok cache ∧
      env.extra_apps = .ok extra ∧
      scan_packages env filenames
        { ctx := { env.context_new with
            add_cache_id := opts.add_cache_id || opts.old_metadata.isSome,
            old_md_cache := cache, packages := [], apps := extra },
          opened := [] } = (none, st) ∧
      create_tasks env opts.temp_dir 0
        (cra_context_disable_older_packages env.package_compare st.ctx.packages) [] =
        (none, tasks) ∧
      (cra_main env opts filenames).tasks = tasks ∧
      (cra_main env opts filenames).task_results =
        run_tasks env.toCraEnv
          { st.ctx with packages :=
            cra_context_disable_older_packages env.package_compare st.ctx.packages }
          tasks st.ctx.apps ∧
      (cra_main env opts filenames).opened = st.opened ∧
      (cra_main env opts filenames).apps_scanned = st.ctx.apps ∧
      (cra_main env opts filenames).apps_before_merge =
        apps_after_tasks env.toCraEnv
          { st.ctx with packages :=
            cra_context_disable_older_packages env.package_compare st.ctx.packages }
          tasks st.ctx.apps ∧
      (cra_main env opts filenames).apps =
        cra_plugin_loader_merge env.plugin_merges (cra_main env opts filenames).apps_before_merge ∧
      store = write_xml_store (cra_main env opts filenames).apps ∧
      env.setup = .ok () := by
  unfold cra_main at h ⊢
  cases hsetup : env.setup with
  | error msg => rw [hsetup] at h; simp [run_failed] at h
  | ok u =>
    rw [hsetup] at h
    dsimp only at h ⊢
    cases hload : (match opts.old_metadata with
        | some file => env.store_from_file file
        | none => .ok []) with
    | error msg => rw [hload] at h; simp [run_failed] at h
    | ok cache =>
      rw [hload] at h
      dsimp only at h ⊢
      cases hextra : env.extra_apps with
      | error msg => rw [hextra] at h; simp [run_failed] at h
      | ok extra =>
        rw [hextra] at h
        dsimp only at h ⊢
        rcases hscan : scan_packages env filenames
          { ctx := { env.context_new with
              add_cache_id := opts.add_cache_id || opts.old_metadata.isSome,
              old_md_cache := cache, packages := [], apps := extra },
            opened := [] } with ⟨res, st⟩
        rw [hscan] at h
        cases res with
        | some msg => simp at h
        | none =>
          dsimp only at h ⊢
          rcases htasks : create_tasks env opts.temp_dir 0
            (cra_context_disable_older_packages env.package_compare st.ctx.packages) [] with
            ⟨tres, tasks⟩
          rw [htasks] at h
          cases tres with
          | some msg => simp at h
          | none =>
            dsimp only at h ⊢
            refine ⟨cache, extra, st, tasks, rfl, rfl, hscan, htasks, ?_⟩
            refine ⟨rfl, rfl, rfl, rfl, rfl, rfl, ?_, rfl⟩
            exact (Option.some.inj h).symm

theorem allHaveId_append (xs ys : List CraApp) (hx : AllHaveId xs) (hy : AllHaveId ys) :
    AllHaveId (xs ++ ys) := by
  intro a ha
  rcases List.mem_append.1 ha with h | h
  · exact hx a h
  · exact hy a h

theorem add_missing_vetos_id_full (app : CraApp) :
    (add_missing_vetos app).id_full = app.id_full := by
  unfold add_missing_vetos cra_app_add_veto
  dsimp only
  split_ifs <;> rfl

theorem copy_package_data_id_full (env : CraEnv) (task : CraTask) (app : CraApp) :
    (copy_package_data env task app).id_full = app.id_full := by
  have hfold : ∀ (rs : List String) (a : CraApp),
      (rs.foldl as_app_add_release a).id_full = a.id_full := by
    intro rs
    induction rs with
    | nil => intro a; rfl
    | cons r t ih => intro a; rw [List.foldl_cons, ih]; rfl
  unfold copy_package_data
  dsimp only
  rw [hfold]
  cases task.pkg.url <;> cases task.pkg.license <;> rfl

/-- A record that a task adds has its identifier set, when the refine plugins
leave a set identifier set. -/
theorem task_record_id_full (env : CraEnv) (ctx : CraContext) (task : CraTask) (a : CraApp)
    (hrefine : ∀ (pkg : CraPackage) (a a2 : CraApp) (dir : String),
      env.plugin_loader_process_app pkg a dir = .ok a2 → a.id_full ≠ none → a2.id_full ≠ none)
    (h : task_record env ctx task a) : a.id_full ≠ none := by
  obtain ⟨app, app2, hid, href, -, -, ha⟩ := h
  have h2 : app2.id_full ≠ none :=
    hrefine _ _ _ _ href (by rw [copy_package_data_id_full]; exact hid)
  have h3 : (add_missing_vetos app2).id_full ≠ none := by
    rw [add_missing_vetos_id_full]; exact h2
  rw [ha]
  by_cases hc : ctx.add_cache_id = true
  · rw [if_pos hc]; exact h3
  · rw [if_neg hc]; exact h3

theorem cra_task_process_func_ids (env : CraEnv) (ctx : CraContext) (task : CraTask)
    (hrefine : ∀ (pkg : CraPackage) (a a2 : CraApp) (dir : String),
      env.plugin_loader_process_app pkg a dir = .ok a2 → a.id_full ≠ none → a2.id_full ≠ none)
    (hname : task.pkg.name ≠ none) (hctx : AllHaveId ctx.apps) :
    AllHaveId (cra_task_process_func env ctx task).ctx_apps := by
  obtain ⟨valid, hv, -, h⟩ := cra_task_process_func_records env ctx task
  rw [h]
  refine allHaveId_append _ _ (allHaveId_append _ _ hctx ?_) ?_
  · intro a ha
    exact task_record_id_full env ctx task a hrefine (hv a ha)
  · intro a ha
    split_ifs at ha
    · simp only [List.mem_singleton] at ha
      rw [ha]
      exact hname
    · simp at ha

theorem run_tasks_cons (env : CraEnv) (ctx : CraContext) (task : CraTask)
    (rest : List CraTask) (apps : List CraApp) :
    run_tasks env ctx (task :: rest) apps =
      cra_task_process_func env { ctx with apps := apps } task ::
        run_tasks env ctx rest
          (cra_task_process_func env { ctx with apps := apps } task).ctx_apps := by
  rw [run_tasks]

theorem apps_after_tasks_cons (env : CraEnv) (ctx : CraContext) (task : CraTask)
    (rest : List CraTask) (apps : List CraApp) :
    apps_after_tasks env ctx (task :: rest) apps =
      apps_after_tasks env ctx rest
        (cra_task_process_func env { ctx with apps := apps } task).ctx_apps := by
  unfold apps_after_tasks
  rw [run_tasks_cons]
  cases run_tasks env ctx rest
      (cra_task_process_func env { ctx with apps := apps } task).ctx_apps with
  | nil => rfl
  | cons r rs =>
    rw [List.getLast?_cons_cons, List.getLast?_eq_getLast _ (List.cons_ne_nil r rs)]

theorem apps_after_tasks_ids (env : CraEnv) (ctx : CraContext)
    (hrefine : ∀ (pkg : CraPackage) (a a2 : CraApp) (dir : String),
      env.plugin_loader_process_app pkg a dir = .ok a2 → a.id_full ≠ none → a2.id_full ≠ none) :
    ∀ (tasks : List CraTask) (apps : List CraApp), (∀ t ∈ tasks, t.pkg.name ≠ none) →
      AllHaveId apps → AllHaveId (apps_after_tasks env ctx tasks apps) := by
  intro tasks
  induction tasks with
  | nil => intro apps _ h; exact h
  | cons t rest ih =>
    intro apps hn h
    rw [apps_after_tasks_cons]
    exact ih _ (fun t2 ht2 => hn t2 (List.mem_cons_of_mem _ ht2))
      (cra_task_process_func_ids env _ t hrefine (hn t (List.mem_cons_self _ _)) h)

theorem cra_context_add_filename_names (env : CraMainEnv) (st : ScanState) (filename : String)
    (hopen : ∀ (filename : String) (header : CraPackage),
      env.package_open filename = .ok header → header.name ≠ none)
    (hst : ∀ p ∈ st.ctx.packages, p.name ≠ none) :
    ∀ p ∈ (cra_context_add_filename env st filename).2.ctx.packages, p.name ≠ none := by
  unfold cra_context_add_filename
  by_cases h1 : ((env.have_rpm && g_str_has_suffix filename ".rpm") ||
      g_str_has_suffix filename ".deb") = true
  · rw [if_pos h1]
    cases hop : env.package_open filename with
    | error msg => exact hst
    | ok header =>
      dsimp only
      by_cases h2 : (cra_glob_value_search env.fnmatch st.ctx.blacklisted_pkgs
          (name_str (cra_package_get_name { header with filename := filename }))).isSome = true
      · rw [if_pos h2]
        exact hst
      · rw [if_neg h2]
        intro p hp
        simp only [List.mem_append, List.mem_singleton] at hp
        rcases hp with hp | hp
        · exact hst p hp
        · rw [hp]
          exact hopen filename header hop
  · rw [if_neg h1]
    exact hst

theorem scan_packages_ids (env : CraMainEnv)
    (hopen : ∀ (filename : String) (header : CraPackage),
      env.package_open filename = .ok header → header.name ≠ none) :
    ∀ (files : List String) (st : ScanState), AllHaveId st.ctx.old_md_cache →
      AllHaveId st.ctx.apps → (∀ p ∈ st.ctx.packages, p.name ≠ none) →
      AllHaveId (scan_packages env files st).2.ctx.apps ∧
      (∀ p ∈ (scan_packages env files st).2.ctx.packages, p.name ≠ none) := by
  intro files
  induction files with
  | nil => intro st _ h2 h3; exact ⟨h2, h3⟩
  | cons filename rest ih =>
    intro st h1 h2 h3
    unfold scan_packages
    by_cases hhit : as_store_get_apps_by_metadata st.ctx.old_md_cache "X-CreaterepoAsCacheID"
        (env.cache_id_for_filename filename) = []
    · rw [cra_main_find_in_cache_miss env.toCraEnv st.ctx filename hhit]
      dsimp only
      obtain ⟨a1, a2, -, -, -⟩ := cra_context_add_filename_spec env st filename
      have a3 := cra_context_add_filename_names env st filename hopen h3
      rcases hadd : cra_context_add_filename env st filename with ⟨res, st2⟩
      rw [hadd] at a1 a2 a3
      dsimp only at a1 a2 a3
      cases res with
      | some msg =>
        dsimp only
        exact ⟨by rw [a2]; exact h2, a3⟩
      | none =>
        dsimp only
        exact ih st2 (by rw [a1]; exact h1) (by rw [a2]; exact h2) a3
    · rw [cra_main_find_in_cache_hit env.toCraEnv st.ctx filename hhit]
      dsimp only
      refine ih _ h1 ?_ h3
      refine allHaveId_append _ _ h2 ?_
      intro a ha
      exact h1 a (List.mem_filter.1 ha).1

theorem disable_older_names (compare : CraPackage → CraPackage → Int)
    (ps0 : List CraPackage) (h : ∀ p ∈ ps0, p.name ≠ none) :
    ∀ p ∈ cra_context_disable_older_packages compare ps0, p.name ≠ none := by
  intro p hp
  obtain ⟨j, hj⟩ := List.getElem?_of_mem hp
  obtain ⟨p0, h0, hs⟩ := disable_older_shape compare ps0 j p hj
  rcases hs with hs | hs <;> rw [hs]
  · exact h p0 (List.getElem?_mem h0)
  · exact h p0 (List.getElem?_mem h0)

theorem cra_plugin_loader_merge_ids :
    ∀ (merges : List (List CraApp → List CraApp)) (apps : List CraApp),
      (∀ f ∈ merges, ∀ apps : List CraApp, AllHaveId apps → AllHaveId (f apps)) →
      AllHaveId apps → AllHaveId (cra_plugin_loader_merge merges apps) := by
  intro merges
  induction merges with
  | nil => intro apps _ h; exact h
  | cons f rest ih =>
    intro apps hm h
    unfold cra_plugin_loader_merge
    rw [List.foldl_cons]
    exact ih (f apps) (fun g hg => hm g (List.mem_cons_of_mem _ hg))
      (hm f (List.mem_cons_self _ _) apps h)

/-- C18, amended: in every run that reaches `cra_context_write_xml`, every
record handed to the output store has no veto; it has its identifier set
when the calls made outside the sources keep identifiers (`IdsKept`): every
opened package has a name, the refine plugins keep a set identifier, the
records of the old metadata and of the extra directory have identifiers, and
the merge functions return records with identifiers when given such. -/
theorem store_records_valid (env : CraMainEnv) (opts : CraOptions) (filenames : List String)
    (store : List CraApp) (hstore : (cra_main env opts filenames).store = some store)
    (a : CraApp) (ha : a ∈ store) :
    cra_app_vetos_len a = 0 ∧ (IdsKept env → a.id_full ≠ none) := by
  obtain ⟨cache, extra, st, tasks, hload, hextra, hscan, htasks, -, -, -, -, hbefore, happs,
    hs, -⟩ :=
    cra_main_store_inv env opts filenames store hstore
  rw [hs] at ha
  obtain ⟨hmem, hveto⟩ := List.mem_filter.1 (by unfold write_xml_store at ha; exact ha)
  constructor
  · unfold cra_app_vetos_len
    by_cases hc : a.is_cra_app = true
    · rw [if_pos hc]
      simp only [hc, Bool.true_and, Bool.not_eq_true', decide_eq_false_iff_not] at hveto
      omega
    · rw [if_neg hc]
  · intro hext
    have hcache : AllHaveId cache := by
      cases hmd : opts.old_metadata with
      | none =>
        rw [hmd] at hload
        have : cache = [] := (Except.ok.inj hload).symm
        rw [this]
        intro x hx
        simp at hx
      | some file =>
        rw [hmd] at hload
        exact hext.cache_ids file cache hload
    have hsc := scan_packages_ids env hext.open_named filenames
      { ctx := { env.context_new with
          add_cache_id := opts.add_cache_id || opts.old_metadata.isSome,
          old_md_cache := cache, packages := [], apps := extra },
        opened := [] } hcache (hext.extra_ids extra hextra) (by intro p hp; simp at hp)
    rw [hscan] at hsc
    obtain ⟨hsapps, hspk⟩ := hsc
    have hpk := disable_older_names env.package_compare st.ctx.packages hspk
    have htk : ∀ t ∈ tasks, t.pkg.name ≠ none := by
      intro t ht
      have ht2 : t ∈ (create_tasks env opts.temp_dir 0
          (cra_context_disable_older_packages env.package_compare st.ctx.packages) []).2 := by
        rw [htasks]; exact ht
      rcases create_tasks_filenames env opts.temp_dir _ 0 [] t ht2 with h | ⟨p, hp, -, h⟩
      · simp at h
      · rw [h]; exact hpk p hp
    have h1 := apps_after_tasks_ids env.toCraEnv
      { st.ctx with packages :=
        cra_context_disable_older_packages env.package_compare st.ctx.packages }
      hext.refine_keeps tasks st.ctx.apps htk hsapps
    rw [← hbefore] at h1
    have h2 := cra_plugin_loader_merge_ids env.plugin_merges _ hext.merge_keeps h1
    rw [← happs] at h2
    exact h2 a hmem

theorem example_open_named :
    ∀ (table : List (String × CraPackage)), (∀ e ∈ table, e.2.name ≠ none) →
      ∀ (filename : String) (header : CraPackage),
        example_open table filename = .ok header → header.name ≠ none := by
  intro table
  induction table with
  | nil =>
    intro _ filename header h
    simp [example_open, List.lookup] at h
  | cons e t ih =>
    intro ht filename header h
    obtain ⟨k, v⟩ := e
    unfold example_open at h
    rw [List.lookup_cons] at h
    cases hk : filename == k with
    | true =>
      rw [hk] at h
      dsimp only at h
      rw [← Except.ok.inj h]
      exact ht (k, v) (List.mem_cons_self _ _)
    | false =>
      rw [hk] at h
      dsimp only at h
      exact ih (fun e2 he2 => ht e2 (List.mem_cons_of_mem _ he2)) filename header h

theorem idsKept_example_main_env (extract : Nat → Except String (List CraApp))
    (plugins : List CraPlugin) (table : List (String × CraPackage)) (cache : List CraApp)
    (htable : ∀ e ∈ table, e.2.name ≠ none) (hcache : AllHaveId cache) :
    IdsKept (example_main_env extract plugins table cache []) where
  refine_keeps := by
    intro pkg a a2 dir h ha
    have : a = a2 := Except.ok.inj h
    rw [← this]
    exact ha
  open_named := example_open_named table htable
  cache_ids := by
    intro file store h
    have : cache = store := Except.ok.inj h
    rw [← this]
    exact hcache
  extra_ids := by
    intro apps h
    have : [] = apps := Except.ok.inj h
    rw [← this]
    intro a ha
    simp at ha
  merge_keeps := by
    intro f hf
    simp [example_main_env] at hf

theorem store_records_valid_witness :
    (cra_main
      (example_main_env
        (fun _ => .ok [example_app (some "foo.desktop") (some "foo") (some "Foo") (some "A foo"),
          example_app none (some "bar") (some "Bar") (some "A bar"),
          example_app (some "baz.desktop") none (some "Baz") (some "A baz")])
        [{ name := "desktop", globs := ["/usr/share/applications/*.desktop"] }]
        [("foo-1.0-1.rpm", { example_package "foo-1.0-1.rpm" "foo" "1.0" "1" with
            filelist := some ["/usr/share/applications/foo.desktop"] })]
        [] [])
      { add_cache_id := false, temp_dir := "./tmp", old_metadata := none }
      ["foo-1.0-1.rpm"]).store =
      some [example_app (some "foo.desktop") (some "foo") (some "Foo") (some "A foo")] ∧
    cra_app_vetos_len
      (example_app (some "foo.desktop") (some "foo") (some "Foo") (some "A foo")) = 0 ∧
    (example_app (some "foo.desktop") (some "foo") (some "Foo") (some "A foo")).id_full ≠ none :=
  have h := store_records_valid
    (example_main_env
      (fun _ => .ok [example_app (some "foo.desktop") (some "foo") (some "Foo") (some "A foo"),
        example_app none (some "bar") (some "Bar") (some "A bar"),
        example_app (some "baz.desktop") none (some "Baz") (some "A baz")])
      [{ name := "desktop", globs := ["/usr/share/applications/*.desktop"] }]
      [("foo-1.0-1.rpm", { example_package "foo-1.0-1.rpm" "foo" "1.0" "1" with
          filelist := some ["/usr/share/applications/foo.desktop"] })]
      [] [])
    { add_cache_id := false, temp_dir := "./tmp", old_metadata := none }
    ["foo-1.0-1.rpm"]
    [example_app (some "foo.desktop") (some "foo") (some "Foo") (some "A foo")]
    (by decide)
    (example_app (some "foo.desktop") (some "foo") (some "Foo") (some "A foo"))
    (List.mem_singleton.2 rfl)
  ⟨by decide, h.1,
    h.2 (idsKept_example_main_env _ _ _ [] (by decide) (by intro a ha; simp at ha))⟩

/-- C18, as stated, fails for the identifier: with cache ids added, a package
whose header has no name and from which the plugins extract nothing gets the
sentinel, whose identifier is the package name (cra-main.c:430), `NULL` here;
the sentinel is a plain `AsApp`, so `cra_context_write_xml` hands it to the
store. -/
theorem store_record_without_id_counterexample :
    (cra_main example_nameless_env
      { add_cache_id := true, temp_dir := "./tmp", old_metadata := none }
      ["anon-1.0-1.rpm", "anon-2.0-1.rpm"]).store.map (fun s => s.map CraApp.id_full) =
      some [none, none] ∧
    (cra_main example_nameless_env
      { add_cache_id := true, temp_dir := "./tmp", old_metadata := none }
      ["anon-1.0-1.rpm", "anon-2.0-1.rpm"]).store.map (fun s => s.map cra_app_vetos_len) =
      some [0, 0] ∧
    (cra_main example_nameless_env
      { add_cache_id := true, temp_dir := "./tmp", old_metadata := none }
      ["anon-1.0-1.rpm", "anon-2.0-1.rpm"]).error = none := by
  decide

/-! ## The score of a font record -/

theorem ite_succ_eq_add_toNat (b : Bool) (n : Nat) :
    (if b = true then n + 1 else n) = n + b.toNat := by
  cases b <;> simp

theorem length_filter_cons_toNat {α : Type} (p : α → Bool) (a : α) (l : List α) :
    ((a :: l).filter p).length = (p a).toNat + (l.filter p).length := by
  rw [List.filter_cons]
  cases p a <;> simp [Nat.add_comm]

theorem g_strstr_len_iff (haystack needle : String) :
    g_strstr_len haystack needle = true ↔
      ∃ t, t <:+ haystack.data ∧ needle.data <+: t := by
  unfold g_strstr_len
  rw [List.any_eq_true]
  constructor
  · rintro ⟨t, ht, hp⟩
    exact ⟨t, (List.mem_tails _ _).1 ht, List.isPrefixOf_iff_prefix.1 hp⟩
  · rintro ⟨t, ht, hp⟩
    exact ⟨t, (List.mem_tails _ _).2 ht, List.isPrefixOf_iff_prefix.2 hp⟩

/-- An identifier in which `ExtraLight` occurs has `Lig` in it. -/
theorem g_strstr_len_extralight (s : String) (h : g_strstr_len s "ExtraLight" = true) :
    g_strstr_len s "Lig" = true := by
  rw [g_strstr_len_iff] at h ⊢
  obtain ⟨t, ht, r, hr⟩ := h
  refine ⟨t.drop 5, (List.drop_suffix 5 t).trans ht, ?_⟩
  rw [← hr]
  exact ⟨'h' :: 't' :: r, by simp⟩

/-- C26: `cra_font_get_app_sortable_idx` returns the number of the 14 words
(It, Bold, Semibold, ExtraLight, Lig, Medium, Bla, Hai, Keyboard, Kufi, Tamil,
Hebrew, Arabic, Fallback) that occur in the identifier, case-sensitively: at
most 14, 0 when none occurs, and at least 2 when `ExtraLight` occurs, which
has `Lig` in it. -/
theorem sortable_idx_counts_keywords (get_id : CraApp → String) (app : CraApp) :
    cra_font_get_app_sortable_idx get_id app =
      (font_keywords.filter (fun k => g_strstr_len (get_id app) k)).length ∧
    font_keywords.length = 14 ∧
    cra_font_get_app_sortable_idx get_id app ≤ 14 ∧
    ((∀ k ∈ font_keywords, g_strstr_len (get_id app) k = false) →
      cra_font_get_app_sortable_idx get_id app = 0) ∧
    (g_strstr_len (get_id app) "ExtraLight" = true →
      2 ≤ cra_font_get_app_sortable_idx get_id app) := by
  have hcount : cra_font_get_app_sortable_idx get_id app =
      (font_keywords.filter (fun k => g_strstr_len (get_id app) k)).length := by
    unfold cra_font_get_app_sortable_idx font_keywords
    simp only [ite_succ_eq_add_toNat, length_filter_cons_toNat, List.filter_nil,
      List.length_nil]
    omega
  refine ⟨hcount, rfl, ?_, ?_, ?_⟩
  · rw [hcount]
    exact (List.length_filter_le _ _).trans (le_of_eq rfl)
  · intro hnone
    rw [hcount, List.length_eq_zero, List.filter_eq_nil_iff]
    intro k hk
    rw [hnone k hk]
    simp
  · intro hextra
    have hlig := g_strstr_len_extralight (get_id app) hextra
    unfold cra_font_get_app_sortable_idx
    simp only [ite_succ_eq_add_toNat]
    rw [hextra, hlig]
    simp only [Bool.toNat_true]
    omega

theorem sortable_idx_counts_keywords_witness :
    cra_font_get_app_sortable_idx example_get_id
      (example_font "Noto-ExtraLightItalic.ttf" "Noto" none) = 3 ∧
    2 ≤ cra_font_get_app_sortable_idx example_get_id
      (example_font "Noto-ExtraLightItalic.ttf" "Noto" none) ∧
    cra_font_get_app_sortable_idx example_get_id (example_font "Noto-Semibold.ttf" "Noto" none) =
      1 :=
  ⟨by decide,
    (sortable_idx_counts_keywords example_get_id
      (example_font "Noto-ExtraLightItalic.ttf" "Noto" none)).2.2.2.2 (by decide),
    by decide⟩

/-! ## Records that still require appdata -/

theorem add_missing_vetos_requires_appdata (app : CraApp) :
    (add_missing_vetos app).requires_appdata = app.requires_appdata := by
  unfold add_missing_vetos cra_app_add_veto
  dsimp only
  split_ifs <;> rfl

/-- The loop body for a record that has an identifier, is not blacklisted and
comes out of the refine plugins as `app2`, up to the test `if (!valid)`. -/
theorem process_app_invalid (env : CraEnv) (ctx : CraContext) (task : CraTask)
    (app app2 : CraApp) (st : AppsState) (hid : app.id_full ≠ none)
    (hbl : (cra_glob_value_search env.fnmatch ctx.blacklisted_ids
      (env.app_get_id app)).isSome = false)
    (href : env.plugin_loader_process_app task.pkg (copy_package_data env task app)
      task.tmpdir = .ok app2)
    (hinvalid : (add_missing_vetos app2).vetos.length > 0 ∨
      (add_missing_vetos app2).requires_appdata.length > 0) :
    process_app env ctx task app st =
      (LoopControl.next,
        { ctx_apps := st.ctx_apps, nr_added := st.nr_added,
          log := st.log ++ veto_log (add_missing_vetos app2) ++
            requires_appdata_log (add_missing_vetos app2),
          visited := st.visited ++ [add_missing_vetos app2] }) := by
  unfold process_app
  rw [if_neg hid, if_neg (by rw [hbl]; simp)]
  dsimp only
  rw [href]
  dsimp only
  rw [if_pos hinvalid]

/-- C27: a record that has an identifier, is not blacklisted and comes out of
the refine plugins with a non-empty requires-appdata list is not added to the
result set, whether or not it has an icon, a name, a comment or a veto: the
loop goes on to the next record with the result set and `nr_added` as they
were, so that with cache ids added and nothing added before, the code at the
label `skip` adds the sentinel. -/
theorem requires_appdata_record_not_added (env : CraEnv) (ctx : CraContext) (task : CraTask)
    (app app2 : CraApp) (rest : List CraApp) (st : AppsState) (hid : app.id_full ≠ none)
    (hbl : (cra_glob_value_search env.fnmatch ctx.blacklisted_ids
      (env.app_get_id app)).isSome = false)
    (href : env.plugin_loader_process_app task.pkg (copy_package_data env task app)
      task.tmpdir = .ok app2)
    (hreq : app2.requires_appdata.length > 0) :
    (process_app env ctx task app st).1 = LoopControl.next ∧
    (process_app env ctx task app st).2.ctx_apps = st.ctx_apps ∧
    (process_app env ctx task app st).2.nr_added = st.nr_added ∧
    process_apps env ctx task (app :: rest) st =
      process_apps env ctx task rest (process_app env ctx task app st).2 ∧
    (ctx.add_cache_id = true → st.nr_added = 0 →
      ∀ (plugins_to_run : List Nat) (exploded : List (CraPackage × String)),
        (cra_task_finish env ctx task plugins_to_run exploded
          (process_app env ctx task app st).2).ctx_apps =
          st.ctx_apps ++ [cra_task_dummy env task]) := by
  have h := process_app_invalid env ctx task app app2 st hid hbl href
    (Or.inr (by rw [add_missing_vetos_requires_appdata]; exact hreq))
  refine ⟨by rw [h], by rw [h], by rw [h], ?_, ?_⟩
  · rw [process_apps, h]
  · intro hcache hzero ptr expl
    rw [(cra_task_finish_ctx_apps env ctx task ptr expl _).1, h]
    dsimp only
    rw [if_pos ⟨hcache, hzero⟩]
    rfl

theorem requires_appdata_record_not_added_witness :
    (cra_task_process_func
      (example_env (fun _ => .ok
        [{ example_app (some "Vera.ttf") (some "Vera.png") (some "Vera") (some "A font") with
            requires_appdata := [none] }]))
      (example_ctx [{ name := "font", globs := ["/usr/share/fonts/*/*.ttf"] }] true)
      (example_task ["/usr/share/fonts/vera/Vera.ttf"])).ctx_apps =
      [cra_task_dummy (example_env (fun _ => .error "unused"))
        (example_task ["/usr/share/fonts/vera/Vera.ttf"])] ∧
    (process_app
      (example_env (fun _ => .ok
        [{ example_app (some "Vera.ttf") (some "Vera.png") (some "Vera") (some "A font") with
            requires_appdata := [none] }]))
      (example_ctx [{ name := "font", globs := ["/usr/share/fonts/*/*.ttf"] }] true)
      (example_task ["/usr/share/fonts/vera/Vera.ttf"])
      { example_app (some "Vera.ttf") (some "Vera.png") (some "Vera") (some "A font") with
        requires_appdata := [none] }
      { ctx_apps := [], nr_added := 0, log := [], visited := [] }).2.nr_added = 0 ∧
    (process_app
      (example_env (fun _ => .ok
        [{ example_app (some "Vera.ttf") (some "Vera.png") (some "Vera") (some "A font") with
            requires_appdata := [none] }]))
      (example_ctx [{ name := "font", globs := ["/usr/share/fonts/*/*.ttf"] }] true)
      (example_task ["/usr/share/fonts/vera/Vera.ttf"])
      { example_app (some "Vera.ttf") (some "Vera.png") (some "Vera") (some "A font") with
        requires_appdata := [none] }
      { ctx_apps := [], nr_added := 0, log := [], visited := [] }).2.ctx_apps = [] :=
  have h := requires_appdata_record_not_added
    (example_env (fun _ => .ok
      [{ example_app (some "Vera.ttf") (some "Vera.png") (some "Vera") (some "A font") with
          requires_appdata := [none] }]))
    (example_ctx [{ name := "font", globs := ["/usr/share/fonts/*/*.ttf"] }] true)
    (example_task ["/usr/share/fonts/vera/Vera.ttf"])
    { example_app (some "Vera.ttf") (some "Vera.png") (some "Vera") (some "A font") with
      requires_appdata := [none] }
    { example_app (some "Vera.ttf") (some "Vera.png") (some "Vera") (some "A font") with
      requires_appdata := [none] }
    [] { ctx_apps := [], nr_added := 0, log := [], visited := [] }
    (by decide) (by decide) rfl (by decide)
  ⟨by decide, h.2.2.1, h.2.1⟩

/-! ## The order of the refine plugins and the veto checks -/

/-- C24, as stated, fails: a record that has no icon after extraction, and
that the refine plugins give an icon, carries no veto and is added to the
result set: the checks for icon, name and comment (cra-main.c:336-342) come
after the call of the refine plugins (320-334). -/
theorem veto_check_before_refine_counterexample :
    (example_app (some "foo.desktop") none (some "Foo") (some "A foo")).icon = none ∧
    (cra_task_process_func
      (example_refine_env (fun _ => .ok
        [example_app (some "foo.desktop") none (some "Foo") (some "A foo")]))
      (example_ctx [{ name := "desktop", globs := ["/usr/share/applications/*.desktop"] }] false)
      (example_task ["/usr/share/applications/foo.desktop"])).ctx_apps =
      [example_app (some "foo.desktop") (some "refined.png") (some "Foo") (some "A foo")] ∧
    (cra_task_process_func
      (example_refine_env (fun _ => .ok
        [example_app (some "foo.desktop") none (some "Foo") (some "A foo")]))
      (example_ctx [{ name := "desktop", globs := ["/usr/share/applications/*.desktop"] }] false)
      (example_task ["/usr/share/applications/foo.desktop"])).visited.map CraApp.vetos =
      [[]] := by
  decide

theorem add_missing_vetos_vetos (app : CraApp) :
    (add_missing_vetos app).vetos = app.vetos ++
      ((if app.icon = none then ["Has no Icon"] else []) ++
        ((if app.name = none then ["Has no Name"] else []) ++
          (if app.comment = none then ["Has no Comment"] else []))) := by
  unfold add_missing_vetos cra_app_add_veto
  dsimp only
  by_cases h1 : app.icon = none <;> by_cases h2 : app.name = none <;>
    by_cases h3 : app.comment = none <;> simp [h1, h2, h3]

/-- C24, amended: for a candidate record that has an identifier and is not
blacklisted, the refine plugins run first and the checks for icon, name and
comment are made on the record as the refine plugins leave it (`app2`): the
loop leaves the record with the vetoes of `app2` followed by `Has no Icon`,
`Has no Name`, `Has no Comment` for what `app2` lacks, whatever the record
had after extraction. -/
theorem veto_check_after_refine (env : CraEnv) (ctx : CraContext) (task : CraTask)
    (app app2 : CraApp) (st : AppsState) (hid : app.id_full ≠ none)
    (hbl : (cra_glob_value_search env.fnmatch ctx.blacklisted_ids
      (env.app_get_id app)).isSome = false)
    (href : env.plugin_loader_process_app task.pkg (copy_package_data env task app)
      task.tmpdir = .ok app2) :
    ∃ a : CraApp, (process_app env ctx task app st).2.visited = st.visited ++ [a] ∧
      a.vetos = app2.vetos ++
        ((if app2.icon = none then ["Has no Icon"] else []) ++
          ((if app2.name = none then ["Has no Name"] else []) ++
            (if app2.comment = none then ["Has no Comment"] else []))) := by
  by_cases hinvalid : (add_missing_vetos app2).vetos.length > 0 ∨
      (add_missing_vetos app2).requires_appdata.length > 0
  · rw [process_app_invalid env ctx task app app2 st hid hbl href hinvalid]
    exact ⟨_, rfl, add_missing_vetos_vetos app2⟩
  · unfold process_app
    rw [if_neg hid, if_neg (by rw [hbl]; simp)]
    dsimp only
    rw [href]
    dsimp only
    rw [if_neg hinvalid]
    cases env.app_save_resources (add_missing_vetos app2) with
    | error msg => exact ⟨_, rfl, add_missing_vetos_vetos app2⟩
    | ok u =>
      dsimp only
      refine ⟨_, rfl, ?_⟩
      by_cases hc : ctx.add_cache_id = true
      · rw [if_pos hc]
        exact add_missing_vetos_vetos app2
      · rw [if_neg hc]
        exact add_missing_vetos_vetos app2

theorem veto_check_after_refine_witness :
    ∃ a : CraApp,
      (process_app
        (example_refine_env (fun _ => .ok
          [example_app (some "foo.desktop") none none (some "A foo")]))
        (example_ctx [{ name := "desktop", globs := ["/usr/share/applications/*.desktop"] }]
          false)
        (example_task ["/usr/share/applications/foo.desktop"])
        (example_app (some "foo.desktop") none none (some "A foo"))
        { ctx_apps := [], nr_added := 0, log := [], visited := [] }).2.visited =
        [] ++ [a] ∧
      a.vetos =
        (example_app (some "foo.desktop") (some "refined.png") none (some "A foo")).vetos ++
          ((if (example_app (some "foo.desktop") (some "refined.png") none
                (some "A foo")).icon = none then ["Has no Icon"] else []) ++
            ((if (example_app (some "foo.desktop") (some "refined.png") none
                (some "A foo")).name = none then ["Has no Name"] else []) ++
              (if (example_app (some "foo.desktop") (some "refined.png") none
                (some "A foo")).comment = none then ["Has no Comment"] else []))) :=
  veto_check_after_refine
    (example_refine_env (fun _ => .ok
      [example_app (some "foo.desktop") none none (some "A foo")]))
    (example_ctx [{ name := "desktop", globs := ["/usr/share/applications/*.desktop"] }] false)
    (example_task ["/usr/share/applications/foo.desktop"])
    (example_app (some "foo.desktop") none none (some "A foo"))
    (example_app (some "foo.desktop") (some "refined.png") none (some "A foo"))
    { ctx_apps := [], nr_added := 0, log := [], visited := [] }
    (by decide) (by decide) rfl

/-! ## A refine plugin that fails -/

/-- The loop body for a record on which the refine plugins fail: the loop
leaves at `goto skip` with the result set and `nr_added` as they were. -/
theorem process_app_refine_failed (env : CraEnv) (ctx : CraContext) (task : CraTask)
    (app : CraApp) (msg : String) (st : AppsState) (hid : app.id_full ≠ none)
    (hbl : (cra_glob_value_search env.fnmatch ctx.blacklisted_ids
      (env.app_get_id app)).isSome = false)
    (hfail : env.plugin_loader_process_app task.pkg (copy_package_data env task app)
      task.tmpdir = .error msg) :
    process_app env ctx task app st =
      (LoopControl.skip,
        { ctx_apps := st.ctx_apps, nr_added := st.nr_added,
          log := st.log ++ [(CraPackageLogLevel.warning,
            "Failed to run process on " ++ env.app_get_id (copy_package_data env task app) ++
              ": " ++ msg)],
          visited := st.visited ++ [copy_package_data env task app] }) := by
  unfold process_app
  rw [if_neg hid, if_neg (by rw [hbl]; simp)]
  dsimp only
  rw [hfail]

/-- The loop body ends with the next record when neither the refine plugins
nor `cra_app_save_resources` fail on the record. -/
theorem process_app_next (env : CraEnv) (ctx : CraContext) (task : CraTask) (app : CraApp)
    (st : AppsState)
    (hrefine : ∀ msg, env.plugin_loader_process_app task.pkg (copy_package_data env task app)
      task.tmpdir ≠ .error msg)
    (hsave : ∀ app2, env.plugin_loader_process_app task.pkg (copy_package_data env task app)
      task.tmpdir = .ok app2 →
      ∀ msg, env.app_save_resources (add_missing_vetos app2) ≠ .error msg) :
    (process_app env ctx task app st).1 = LoopControl.next := by
  unfold process_app
  by_cases h1 : app.id_full = none
  · rw [if_pos h1]
  · rw [if_neg h1]
    by_cases h2 : (cra_glob_value_search env.fnmatch ctx.blacklisted_ids
        (env.app_get_id app)).isSome = true
    · rw [if_pos h2]
    · rw [if_neg h2]
      dsimp only
      cases href : env.plugin_loader_process_app task.pkg (copy_package_data env task app)
          task.tmpdir with
      | error msg => exact absurd href (hrefine msg)
      | ok app2 =>
        dsimp only
        by_cases h3 : (add_missing_vetos app2).vetos.length > 0 ∨
            (add_missing_vetos app2).requires_appdata.length > 0
        · rw [if_pos h3]
        · rw [if_neg h3]
          cases hs : env.app_save_resources (add_missing_vetos app2) with
          | error msg => exact absurd hs (hsave app2 href msg)
          | ok u => rfl

theorem process_apps_append (env : CraEnv) (ctx : CraContext) (task : CraTask) :
    ∀ (pre rest : List CraApp) (st : AppsState),
      (∀ r ∈ pre, ∀ s, (process_app env ctx task r s).1 = LoopControl.next) →
      process_apps env ctx task (pre ++ rest) st =
        process_apps env ctx task rest (process_apps env ctx task pre st) := by
  intro pre
  induction pre with
  | nil => intro rest st _; rfl
  | cons r t ih =>
    intro rest st h
    have hr := h r (List.mem_cons_self _ _) st
    rw [List.cons_append, process_apps, process_apps]
    rcases hp : process_app env ctx task r st with ⟨c, st2⟩
    rw [hp] at hr
    dsimp only at hr
    subst hr
    dsimp only
    exact ih rest st2 (fun r2 h2 => h r2 (List.mem_cons_of_mem _ h2))

/-- A task that gets as far as the loop over the candidate records ends in
the code at the label `skip`, entered with the state the loop leaves. -/
theorem cra_task_process_func_loop (env : CraEnv) (ctx : CraContext) (task : CraTask)
    (hplug : cra_task_add_suitable_plugins env.fnmatch ctx.plugins task.pkg.filelist
      task.plugins_to_run ≠ [])
    (hdir : env.ensure_exists_and_empty task.tmpdir = .ok ())
    (hprim : env.package_explode task.pkg task.tmpdir = .ok ())
    (hextra : (cra_context_explode_extra_packages env ctx task).ret = true) :
    ∃ (exploded : List (CraPackage × String)) (log : List LogEntry),
      cra_task_process_func env ctx task =
        cra_task_finish env ctx task
          (cra_task_add_suitable_plugins env.fnmatch ctx.plugins task.pkg.filelist
            task.plugins_to_run) exploded
          (process_apps env ctx task
            (run_plugins env ctx task
              (cra_task_add_suitable_plugins env.fnmatch ctx.plugins task.pkg.filelist
                task.plugins_to_run)).apps
            { ctx_apps := ctx.apps, nr_added := 0, log := log, visited := [] }) := by
  have h0 : ¬ (cra_task_add_suitable_plugins env.fnmatch ctx.plugins task.pkg.filelist
      task.plugins_to_run).length = 0 := fun h => hplug (List.length_eq_zero.1 h)
  unfold cra_task_process_func
  dsimp only
  rw [if_neg h0, hdir]
  dsimp only
  rw [hprim]
  dsimp only
  rw [hextra]
  exact ⟨_, _, rfl⟩

/-- C23: let the candidate records of a task be `pre`, then `rk`, then `post`,
the refine plugins fail on `rk`, and neither they nor `cra_app_save_resources`
fail on a record of `pre`.  Then the loop leaves at `goto skip` from `rk`: the
result set and `nr_added` are those after the loop over `pre` alone, `rk` is
the last record visited and no record of `post` is visited or added, and the
task goes on to the label `skip`, where it adds the sentinel when cache ids
are added and `pre` added nothing, and cleans up. -/
theorem refine_failure_keeps_earlier_records (env : CraEnv) (ctx : CraContext)
    (task : CraTask) (pre post : List CraApp) (rk : CraApp) (msg : String)
    (hplug : cra_task_add_suitable_plugins env.fnmatch ctx.plugins task.pkg.filelist
      task.plugins_to_run ≠ [])
    (hdir : env.ensure_exists_and_empty task.tmpdir = .ok ())
    (hprim : env.package_explode task.pkg task.tmpdir = .ok ())
    (hextra : (cra_context_explode_extra_packages env ctx task).ret = true)
    (hrun : (run_plugins env ctx task
      (cra_task_add_suitable_plugins env.fnmatch ctx.plugins task.pkg.filelist
        task.plugins_to_run)).apps = pre ++ rk :: post)
    (hpre_refine : ∀ r ∈ pre, ∀ m,
      env.plugin_loader_process_app task.pkg (copy_package_data env task r) task.tmpdir ≠
        .error m)
    (hpre_save : ∀ r ∈ pre, ∀ app2,
      env.plugin_loader_process_app task.pkg (copy_package_data env task r) task.tmpdir =
        .ok app2 → ∀ m, env.app_save_resources (add_missing_vetos app2) ≠ .error m)
    (hid : rk.id_full ≠ none)
    (hbl : (cra_glob_value_search env.fnmatch ctx.blacklisted_ids
      (env.app_get_id rk)).isSome = false)
    (hfail : env.plugin_loader_process_app task.pkg (copy_package_data env task rk)
      task.tmpdir = .error msg) :
    (∀ st : AppsState,
      process_apps env ctx task (pre ++ rk :: post) st =
        { ctx_apps := (process_apps env ctx task pre st).ctx_apps,
          nr_added := (process_apps env ctx task pre st).nr_added,
          log := (process_apps env ctx task pre st).log ++ [(CraPackageLogLevel.warning,
            "Failed to run process on " ++ env.app_get_id (copy_package_data env task rk) ++
              ": " ++ msg)],
          visited := (process_apps env ctx task pre st).visited ++
            [copy_package_data env task rk] }) ∧
    ∃ st0 : AppsState, st0.ctx_apps = ctx.apps ∧ st0.nr_added = 0 ∧ st0.visited = [] ∧
      (cra_task_process_func env ctx task).reached_skip = true ∧
      (cra_task_process_func env ctx task).visited =
        (process_apps env ctx task pre st0).visited ++ [copy_package_data env task rk] ∧
      (cra_task_process_func env ctx task).nr_added =
        (process_apps env ctx task pre st0).nr_added ∧
      (cra_task_process_func env ctx task).ctx_apps =
        (process_apps env ctx task pre st0).ctx_apps ++
          (if ctx.add_cache_id = true ∧ (process_apps env ctx task pre st0).nr_added = 0
            then [cra_task_dummy env task] else []) ∧
      ∃ valid : List CraApp, (∀ a ∈ valid, task_record env ctx task a) ∧
        (process_apps env ctx task pre st0).ctx_apps = ctx.apps ++ valid ∧
        (process_apps env ctx task pre st0).nr_added = valid.length := by
  have hloop : ∀ st : AppsState,
      process_apps env ctx task (pre ++ rk :: post) st =
        { ctx_apps := (process_apps env ctx task pre st).ctx_apps,
          nr_added := (process_apps env ctx task pre st).nr_added,
          log := (process_apps env ctx task pre st).log ++ [(CraPackageLogLevel.warning,
            "Failed to run process on " ++ env.app_get_id (copy_package_data env task rk) ++
              ": " ++ msg)],
          visited := (process_apps env ctx task pre st).visited ++
            [copy_package_data env task rk] } := by
    intro st
    rw [process_apps_append env ctx task pre (rk :: post) st
      (fun r hr s => process_app_next env ctx task r s (hpre_refine r hr) (hpre_save r hr)),
      process_apps, process_app_refine_failed env ctx task rk msg _ hid hbl hfail]
  refine ⟨hloop, ?_⟩
  obtain ⟨exploded, log, hres⟩ := cra_task_process_func_loop env ctx task hplug hdir hprim hextra
  rw [hrun, hloop] at hres
  obtain ⟨valid, hv, hvapps, hvnr⟩ := process_apps_added env ctx task pre
    { ctx_apps := ctx.apps, nr_added := 0, log := log, visited := [] }
  refine ⟨{ ctx_apps := ctx.apps, nr_added := 0, log := log, visited := [] }, rfl, rfl, rfl,
    ?_, ?_, ?_, ?_, valid, hv, hvapps, by rw [hvnr]; simp⟩
  · rw [hres]; exact cra_task_finish_reached_skip _ _ _ _ _ _
  · rw [hres, (cra_task_finish_fields _ _ _ _ _ _).2.1]
  · rw [hres, (cra_task_finish_ctx_apps _ _ _ _ _ _).2]
  · rw [hres, (cra_task_finish_ctx_apps _ _ _ _ _ _).1]
    dsimp only
    by_cases hc : ctx.add_cache_id = true ∧
        (process_apps env ctx task pre
          { ctx_apps := ctx.apps, nr_added := 0, log := log, visited := [] }).nr_added = 0
    · rw [if_pos hc, if_pos hc]; rfl
    · rw [if_neg hc, if_neg hc, List.append_nil]

theorem refine_failure_keeps_earlier_records_witness :
    (cra_task_process_func
      (example_refine_fails_env (fun _ => .ok
        [example_app (some "foo.desktop") (some "foo") (some "Foo") (some "A foo"),
         example_app (some "bad.desktop") (some "bad") (some "Bad") (some "A bad"),
         example_app (some "baz.desktop") (some "baz") (some "Baz") (some "A baz")])
        "bad.desktop")
      (example_ctx [{ name := "desktop", globs := ["/usr/share/applications/*.desktop"] }] true)
      (example_task ["/usr/share/applications/foo.desktop"])).ctx_apps.map CraApp.id_full =
      [some "foo.desktop"] ∧
    (cra_task_process_func
      (example_refine_fails_env (fun _ => .ok
        [example_app (some "foo.desktop") (some "foo") (some "Foo") (some "A foo"),
         example_app (some "bad.desktop") (some "bad") (some "Bad") (some "A bad"),
         example_app (some "baz.desktop") (some "baz") (some "Baz") (some "A baz")])
        "bad.desktop")
      (example_ctx [{ name := "desktop", globs := ["/usr/share/applications/*.desktop"] }] true)
      (example_task ["/usr/share/applications/foo.desktop"])).visited.map CraApp.id_full =
      [some "foo.desktop", some "bad.desktop"] ∧
    ∀ st : AppsState,
      (process_apps
        (example_refine_fails_env (fun _ => .ok
          [example_app (some "foo.desktop") (some "foo") (some "Foo") (some "A foo"),
           example_app (some "bad.desktop") (some "bad") (some "Bad") (some "A bad"),
           example_app (some "baz.desktop") (some "baz") (some "Baz") (some "A baz")])
          "bad.desktop")
        (example_ctx [{ name := "desktop", globs := ["/usr/share/applications/*.desktop"] }]
          true)
        (example_task ["/usr/share/applications/foo.desktop"])
        ([example_app (some "foo.desktop") (some "foo") (some "Foo") (some "A foo")] ++
          example_app (some "bad.desktop") (some "bad") (some "Bad") (some "A bad") ::
          [example_app (some "baz.desktop") (some "baz") (some "Baz") (some "A baz")])
        st).ctx_apps =
      (process_apps
        (example_refine_fails_env (fun _ => .ok
          [example_app (some "foo.desktop") (some "foo") (some "Foo") (some "A foo"),
           example_app (some "bad.desktop") (some "bad") (some "Bad") (some "A bad"),
           example_app (some "baz.desktop") (some "baz") (some "Baz") (some "A baz")])
          "bad.desktop")
        (example_ctx [{ name := "desktop", globs := ["/usr/share/applications/*.desktop"] }]
          true)
        (example_task ["/usr/share/applications/foo.desktop"])
        [example_app (some "foo.desktop") (some "foo") (some "Foo") (some "A foo")]
        st).ctx_apps :=
  have h := refine_failure_keeps_earlier_records
    (example_refine_fails_env (fun _ => .ok
      [example_app (some "foo.desktop") (some "foo") (some "Foo") (some "A foo"),
       example_app (some "bad.desktop") (some "bad") (some "Bad") (some "A bad"),
       example_app (some "baz.desktop") (some "baz") (some "Baz") (some "A baz")])
      "bad.desktop")
    (example_ctx [{ name := "desktop", globs := ["/usr/share/applications/*.desktop"] }] true)
    (example_task ["/usr/share/applications/foo.desktop"])
    [example_app (some "foo.desktop") (some "foo") (some "Foo") (some "A foo")]
    [example_app (some "baz.desktop") (some "baz") (some "Baz") (some "A baz")]
    (example_app (some "bad.desktop") (some "bad") (some "Bad") (some "A bad"))
    "no appdata"
    (by decide) rfl rfl (by decide) (by decide)
    (by
      intro r hr m hm
      rw [List.mem_singleton] at hr
      subst hr
      cases hm)
    (by
      intro r _ app2 _ m hm
      cases hm)
    (by decide) (by decide) rfl
  ⟨by decide, by decide, fun st => by rw [h.1 st]⟩

/-! ## A file that cannot be opened -/

theorem scan_packages_append (env : CraMainEnv) :
    ∀ (pre rest : List String) (st : ScanState), (scan_packages env pre st).1 = none →
      scan_packages env (pre ++ rest) st =
        scan_packages env rest (scan_packages env pre st).2 := by
  intro pre
  induction pre with
  | nil => intro rest st _; rfl
  | cons g t ih =>
    intro rest st h
    rw [List.cons_append]
    rw [scan_packages] at h ⊢
    conv_rhs => rw [scan_packages]
    rcases hfind : cra_main_find_in_cache env.toCraEnv st.ctx g with ⟨hit, ctx2⟩
    rw [hfind] at h
    cases hit with
    | true =>
      dsimp only at h ⊢
      exact ih rest _ h
    | false =>
      dsimp only at h ⊢
      rcases hadd : cra_context_add_filename env st g with ⟨res, st2⟩
      rw [hadd] at h
      cases res with
      | some msg => simp at h
      | none =>
        dsimp only at h ⊢
        exact ih rest _ h

theorem scan_packages_opened_mem (env : CraMainEnv) :
    ∀ (files : List String) (st : ScanState),
      ∀ g ∈ (scan_packages env files st).2.opened, g ∈ st.opened ∨ g ∈ files := by
  intro files
  induction files with
  | nil => intro st g hg; exact Or.inl hg
  | cons f t ih =>
    intro st g hg
    rw [scan_packages] at hg
    rcases hfind : cra_main_find_in_cache env.toCraEnv st.ctx f with ⟨hit, ctx2⟩
    rw [hfind] at hg
    cases hit with
    | true =>
      dsimp only at hg
      rcases ih _ g hg with h | h
      · exact Or.inl h
      · exact Or.inr (List.mem_cons_of_mem _ h)
    | false =>
      dsimp only at hg
      obtain ⟨-, -, a3, -, -⟩ := cra_context_add_filename_spec env st f
      rcases hadd : cra_context_add_filename env st f with ⟨res, st2⟩
      rw [hadd] at hg a3
      dsimp only at a3
      cases res with
      | some msg =>
        dsimp only at hg
        rcases a3 g hg with h | h
        · exact Or.inl h
        · exact Or.inr (h ▸ List.mem_cons_self _ _)
      | none =>
        dsimp only at hg
        rcases ih _ g hg with h | h
        · rcases a3 g h with h2 | h2
          · exact Or.inl h2
          · exact Or.inr (h2 ▸ List.mem_cons_self _ _)
        · exact Or.inr (List.mem_cons_of_mem _ h)

/-- The function `cra_context_add_filename` returns `TRUE` for a file with a
suffix it handles whose package opens. -/
theorem cra_context_add_filename_ok (env : CraMainEnv) (st : ScanState) (filename : String)
    (header : CraPackage)
    (hsuffix : ((env.have_rpm && g_str_has_suffix filename ".rpm") ||
      g_str_has_suffix filename ".deb") = true)
    (hopen : env.package_open filename = .ok header) :
    (cra_context_add_filename env st filename).1 = none := by
  unfold cra_context_add_filename
  rw [if_pos hsuffix, hopen]
  dsimp only
  split_ifs <;> rfl

/-- The function `cra_context_add_filename` returns `FALSE` for a file with a
suffix it does not handle or whose package does not open, with the error
message of what failed. -/
theorem cra_context_add_filename_failed (env : CraMainEnv) (st : ScanState) (filename : String)
    (hbad : ((env.have_rpm && g_str_has_suffix filename ".rpm") ||
        g_str_has_suffix filename ".deb") = false ∨
      ∃ msg, env.package_open filename = .error msg) :
    ∃ msg, (cra_context_add_filename env st filename).1 = some msg ∧
      (msg = "No idea how to handle " ++ filename ∨ env.package_open filename = .error msg) := by
  unfold cra_context_add_filename
  by_cases h1 : ((env.have_rpm && g_str_has_suffix filename ".rpm") ||
      g_str_has_suffix filename ".deb") = true
  · rw [if_pos h1]
    rcases hbad with h | ⟨msg, h⟩
    · rw [h] at h1
      exact absurd h1 (by simp)
    · rw [h]
      exact ⟨msg, rfl, Or.inr rfl⟩
  · rw [if_neg h1]
    exact ⟨_, rfl, Or.inl rfl⟩

theorem scan_packages_ok (env : CraMainEnv) :
    ∀ (files : List String) (st : ScanState),
      (∀ g ∈ files,
        as_store_get_apps_by_metadata st.ctx.old_md_cache "X-CreaterepoAsCacheID"
          (env.cache_id_for_filename g) ≠ [] ∨
        (((env.have_rpm && g_str_has_suffix g ".rpm") || g_str_has_suffix g ".deb") = true ∧
          ∃ header, env.package_open g = .ok header)) →
      (scan_packages env files st).1 = none := by
  intro files
  induction files with
  | nil => intro st _; rfl
  | cons f t ih =>
    intro st h
    rw [scan_packages]
    by_cases hhit : as_store_get_apps_by_metadata st.ctx.old_md_cache "X-CreaterepoAsCacheID"
        (env.cache_id_for_filename f) = []
    · rw [cra_main_find_in_cache_miss env.toCraEnv st.ctx f hhit]
      dsimp only
      rcases h f (List.mem_cons_self _ _) with h1 | ⟨h1, header, h2⟩
      · exact absurd hhit h1
      · have hok := cra_context_add_filename_ok env st f header h1 h2
        obtain ⟨a1, -, -, -, -⟩ := cra_context_add_filename_spec env st f
        rcases hadd : cra_context_add_filename env st f with ⟨res, st2⟩
        rw [hadd] at hok a1
        dsimp only at hok a1
        subst hok
        dsimp only
        exact ih st2 (fun g hg => by rw [a1]; exact h g (List.mem_cons_of_mem _ hg))
    · rw [cra_main_find_in_cache_hit env.toCraEnv st.ctx f hhit]
      dsimp only
      exact ih _ (fun g hg => h g (List.mem_cons_of_mem _ hg))

/-- C21, as stated, fails: with the files `foo-1.0-1.rpm`, `notes.txt` and
`bar-1.0-1.rpm`, or with a file `broken.rpm` that does not open in the place
of `notes.txt`, the scan ends at the second file with its error: the third
file is never opened, no task is created and no catalog is written, although
`foo` and `bar` are packages that open and yield records. -/
theorem unopenable_file_counterexample :
    (cra_main (example_sentinel_env [])
      { add_cache_id := false, temp_dir := "./tmp", old_metadata := none }
      ["foo-1.0-1.rpm", "bar-1.0-1.rpm"]).store.map (fun s => s.map CraApp.id_full) =
      some [some "foo.desktop"] ∧
    (cra_main (example_sentinel_env [])
      { add_cache_id := false, temp_dir := "./tmp", old_metadata := none }
      ["foo-1.0-1.rpm", "notes.txt", "bar-1.0-1.rpm"]).error =
      some "No idea how to handle notes.txt" ∧
    (cra_main (example_sentinel_env [])
      { add_cache_id := false, temp_dir := "./tmp", old_metadata := none }
      ["foo-1.0-1.rpm", "notes.txt", "bar-1.0-1.rpm"]).opened = ["foo-1.0-1.rpm"] ∧
    (cra_main (example_sentinel_env [])
      { add_cache_id := false, temp_dir := "./tmp", old_metadata := none }
      ["foo-1.0-1.rpm", "notes.txt", "bar-1.0-1.rpm"]).tasks = [] ∧
    (cra_main (example_sentinel_env [])
      { add_cache_id := false, temp_dir := "./tmp", old_metadata := none }
      ["foo-1.0-1.rpm", "notes.txt", "bar-1.0-1.rpm"]).store = none ∧
    (cra_main (example_sentinel_env [])
      { add_cache_id := false, temp_dir := "./tmp", old_metadata := none }
      ["foo-1.0-1.rpm", "broken.rpm", "bar-1.0-1.rpm"]).error =
      some "Failed to open package broken.rpm" ∧
    (cra_main (example_sentinel_env [])
      { add_cache_id := false, temp_dir := "./tmp", old_metadata := none }
      ["foo-1.0-1.rpm", "broken.rpm", "bar-1.0-1.rpm"]).opened =
      ["foo-1.0-1.rpm", "broken.rpm"] ∧
    (cra_main (example_sentinel_env [])
      { add_cache_id := false, temp_dir := "./tmp", old_metadata := none }
      ["foo-1.0-1.rpm", "broken.rpm", "bar-1.0-1.rpm"]).tasks = [] ∧
    (cra_main (example_sentinel_env [])
      { add_cache_id := false, temp_dir := "./tmp", old_metadata := none }
      ["foo-1.0-1.rpm", "broken.rpm", "bar-1.0-1.rpm"]).store = none := by
  decide

/-- C21, amended: when the set-up succeeded and a file that is not found in
the old metadata has a suffix that is not handled, or its package does not
open, the scan ends at that file (`goto out`) with the error as a warning: no
file after it is opened, no task is created or run, and no catalog is
written.  The files `pre` before it are files found in the old metadata or
files that open. -/
theorem unopenable_file_ends_run (env : CraMainEnv) (opts : CraOptions)
    (pre rest : List String) (f : String) (cache extra : List CraApp)
    (hsetup : env.setup = .ok ())
    (hload : (match opts.old_metadata with
      | some file => env.store_from_file file
      | none => .ok []) = .ok cache)
    (hextra : env.extra_apps = .ok extra)
    (hpre : ∀ g ∈ pre,
      as_store_get_apps_by_metadata cache "X-CreaterepoAsCacheID"
        (env.cache_id_for_filename g) ≠ [] ∨
      (((env.have_rpm && g_str_has_suffix g ".rpm") || g_str_has_suffix g ".deb") = true ∧
        ∃ header, env.package_open g = .ok header))
    (hmiss : as_store_get_apps_by_metadata cache "X-CreaterepoAsCacheID"
      (env.cache_id_for_filename f) = [])
    (hbad : ((env.have_rpm && g_str_has_suffix f ".rpm") || g_str_has_suffix f ".deb") = false ∨
      ∃ msg, env.package_open f = .error msg) :
    (∃ msg, (cra_main env opts (pre ++ f :: rest)).error = some msg ∧
      (msg = "No idea how to handle " ++ f ∨ env.package_open f = .error msg)) ∧
    (∀ g ∈ (cra_main env opts (pre ++ f :: rest)).opened, g ∈ pre ∨ g = f) ∧
    (cra_main env opts (pre ++ f :: rest)).tasks = [] ∧
    (cra_main env opts (pre ++ f :: rest)).task_results = [] ∧
    (cra_main env opts (pre ++ f :: rest)).store = none := by
  have hpre_ok := scan_packages_ok env pre
    { ctx := { env.context_new with
        add_cache_id := opts.add_cache_id || opts.old_metadata.isSome,
        old_md_cache := cache, packages := [], apps := extra },
      opened := [] } hpre
  have happ := scan_packages_append env pre (f :: rest) _ hpre_ok
  obtain ⟨hcache, -, -, -⟩ := scan_packages_spec env pre
    { ctx := { env.context_new with
        add_cache_id := opts.add_cache_id || opts.old_metadata.isSome,
        old_md_cache := cache, packages := [], apps := extra },
      opened := [] }
  have hopened := scan_packages_opened_mem env pre
    { ctx := { env.context_new with
        add_cache_id := opts.add_cache_id || opts.old_metadata.isSome,
        old_md_cache := cache, packages := [], apps := extra },
      opened := [] }
  rcases hst1 : scan_packages env pre
    { ctx := { env.context_new with
        add_cache_id := opts.add_cache_id || opts.old_metadata.isSome,
        old_md_cache := cache, packages := [], apps := extra },
      opened := [] } with ⟨res1, st1⟩
  rw [hst1] at happ hcache hopened
  dsimp only at happ hcache hopened
  obtain ⟨msg, hmsg, hmsg2⟩ := cra_context_add_filename_failed env st1 f hbad
  obtain ⟨-, -, a3, -, -⟩ := cra_context_add_filename_spec env st1 f
  rcases hadd : cra_context_add_filename env st1 f with ⟨res2, st2⟩
  rw [hadd] at hmsg a3
  dsimp only at hmsg a3
  subst hmsg
  have hscan : scan_packages env (pre ++ f :: rest)
      { ctx := { env.context_new with
          add_cache_id := opts.add_cache_id || opts.old_metadata.isSome,
          old_md_cache := cache, packages := [], apps := extra },
        opened := [] } = (some msg, st2) := by
    rw [happ, scan_packages,
      cra_main_find_in_cache_miss env.toCraEnv st1.ctx f (by rw [hcache]; exact hmiss)]
    dsimp only
    rw [hadd]
  have hmain : cra_main env opts (pre ++ f :: rest) =
      { error := some msg, opened := st2.opened, packages := st2.ctx.packages, tasks := [],
        task_results := [], apps_scanned := st2.ctx.apps, apps_before_merge := st2.ctx.apps,
        apps := st2.ctx.apps, store := none } := by
    unfold cra_main
    rw [hsetup]
    dsimp only
    rw [hload]
    dsimp only
    rw [hextra]
    dsimp only at hscan ⊢
    rw [hscan]
  rw [hmain]
  refine ⟨⟨msg, rfl, hmsg2⟩, ?_, rfl, rfl, rfl⟩
  intro g hg
  rcases a3 g hg with h | h
  · rcases hopened g h with h2 | h2
    · simp at h2
    · exact Or.inl h2
  · exact Or.inr h

theorem unopenable_file_ends_run_witness :
    (∃ msg, (cra_main (example_sentinel_env [])
        { add_cache_id := false, temp_dir := "./tmp", old_metadata := none }
        (["foo-1.0-1.rpm"] ++ "broken.rpm" :: ["bar-1.0-1.rpm"])).error = some msg ∧
      (msg = "No idea how to handle " ++ "broken.rpm" ∨
        (example_sentinel_env []).package_open "broken.rpm" = .error msg)) ∧
    (∀ g ∈ (cra_main (example_sentinel_env [])
        { add_cache_id := false, temp_dir := "./tmp", old_metadata := none }
        (["foo-1.0-1.rpm"] ++ "broken.rpm" :: ["bar-1.0-1.rpm"])).opened,
      g ∈ ["foo-1.0-1.rpm"] ∨ g = "broken.rpm") ∧
    (cra_main (example_sentinel_env [])
      { add_cache_id := false, temp_dir := "./tmp", old_metadata := none }
      (["foo-1.0-1.rpm"] ++ "broken.rpm" :: ["bar-1.0-1.rpm"])).tasks = [] ∧
    (cra_main (example_sentinel_env [])
      { add_cache_id := false, temp_dir := "./tmp", old_metadata := none }
      (["foo-1.0-1.rpm"] ++ "broken.rpm" :: ["bar-1.0-1.rpm"])).task_results = [] ∧
    (cra_main (example_sentinel_env [])
      { add_cache_id := false, temp_dir := "./tmp", old_metadata := none }
      (["foo-1.0-1.rpm"] ++ "broken.rpm" :: ["bar-1.0-1.rpm"])).store = none :=
  unopenable_file_ends_run (example_sentinel_env [])
    { add_cache_id := false, temp_dir := "./tmp", old_metadata := none }
    ["foo-1.0-1.rpm"] ["bar-1.0-1.rpm"] "broken.rpm" [] [] rfl rfl rfl
    (by
      intro g hg
      rw [List.mem_singleton] at hg
      subst hg
      exact Or.inr ⟨by decide, _, rfl⟩)
    (by decide) (Or.inr ⟨_, rfl⟩)

/-! ## The workspaces of the tasks -/

/-- Two packages of the same name that are both enabled after
`cra_context_disable_older_packages` are the same element of the array. -/
theorem disable_older_enabled_names (compare : CraPackage → CraPackage → Int)
    (ps0 : List CraPackage) (i j : Nat) (p q : CraPackage) (k : String)
    (hi : (cra_context_disable_older_packages compare ps0)[i]? = some p)
    (hj : (cra_context_disable_older_packages compare ps0)[j]? = some q)
    (hp : p.enabled = true) (hq : q.enabled = true)
    (hpk : p.name = some k) (hqk : q.name = some k) : i = j := by
  have inv := disableInv_loop compare ps0 ps0.length (le_refl _)
  have key : ∀ (i : Nat) (p : CraPackage),
      (cra_context_disable_older_packages compare ps0)[i]? = some p → p.enabled = true →
      p.name = some k →
      g_hash_table_lookup (disable_older_loop compare ps0 ps0.length).newest k = some i := by
    intro i p hi hp hpk
    obtain ⟨p0, h0, hs⟩ := disable_older_shape compare ps0 i p hi
    have hpp0 : p = p0 := by
      rcases hs with h | h
      · exact h
      · rw [h] at hp
        simp [cra_package_set_enabled] at hp
    subst hpp0
    have hlt : i < ps0.length := (List.getElem?_eq_some.1 h0).1
    obtain ⟨m, pm, hlook, -, hdis, -, -⟩ := inv.covered i p k hlt h0 hpk
    by_cases him : i = m
    · rw [him]; exact hlook
    · have h2 := hdis him
      have h3 : (cra_context_disable_older_packages compare ps0)[i]? =
          some (cra_package_set_enabled p false) := h2
      rw [hi] at h3
      have h4 := Option.some.inj h3
      rw [h4] at hp
      simp [cra_package_set_enabled] at hp
  have h1 := key i p hi hp hpk
  have h2 := key j q hj hq hqk
  rw [h1] at h2
  exact Option.some.inj h2

/-- The tasks that the loop at cra-main.c:944-983 creates from index `i` on:
each is for an enabled package of the array, has its index as `id`, and its
workspace is the temporary directory joined with the package name; the
tasks are in the order of the array. -/
theorem create_tasks_shape (env : CraMainEnv) (temp_dir : String) :
    ∀ (packages : List CraPackage) (i : Nat) (tasks : List CraTask),
      (tasks.map (fun t => t.id)).Pairwise (fun a b => a < b) → (∀ t ∈ tasks, t.id < i) →
      ((create_tasks env temp_dir i packages tasks).2.map (fun t => t.id)).Pairwise
        (fun a b => a < b) ∧
      ∀ t ∈ (create_tasks env temp_dir i packages tasks).2, t ∈ tasks ∨
        (i ≤ t.id ∧ packages[t.id - i]? = some t.pkg ∧ t.pkg.enabled = true ∧
          t.tmpdir = env.build_filename temp_dir (cra_package_get_name t.pkg)) := by
  intro packages
  induction packages with
  | nil =>
    intro i tasks hp _
    exact ⟨hp, fun t ht => Or.inl ht⟩
  | cons pkg rest ih =>
    intro i tasks hp hlt
    have hext : ∀ task : CraTask, task.id = i →
        ((tasks ++ [task]).map (fun t => t.id)).Pairwise (fun a b => a < b) ∧
        ∀ t ∈ tasks ++ [task], t.id < i + 1 := by
      intro task hid
      constructor
      · rw [List.map_append, List.pairwise_append]
        refine ⟨hp, by simp, ?_⟩
        intro a ha b hb
        obtain ⟨t, ht, hta⟩ := List.mem_map.1 ha
        simp only [List.map_cons, List.map_nil, List.mem_singleton] at hb
        rw [hb, hid, ← hta]
        exact hlt t ht
      · intro t ht
        rcases List.mem_append.1 ht with h | h
        · exact Nat.lt_succ_of_lt (hlt t h)
        · rw [List.mem_singleton] at h
          rw [h, hid]
          exact Nat.lt_succ_self i
    have hnew : ∀ task : CraTask,
        task =
          { filename := pkg.filename,
            tmpdir := env.build_filename temp_dir (cra_package_get_name pkg),
            pkg := pkg, id := i, plugins_to_run := [] } → pkg.enabled = true →
        i ≤ task.id ∧ (pkg :: rest)[task.id - i]? = some task.pkg ∧ task.pkg.enabled = true ∧
          task.tmpdir = env.build_filename temp_dir (cra_package_get_name task.pkg) := by
      intro task ht hen
      subst ht
      exact ⟨le_refl _, by simp, hen, rfl⟩
    have hshift : ∀ t : CraTask, i + 1 ≤ t.id → rest[t.id - (i + 1)]? = some t.pkg →
        (pkg :: rest)[t.id - i]? = some t.pkg := by
      intro t hle h
      have : t.id - i = (t.id - (i + 1)) + 1 := by omega
      rw [this, List.getElem?_cons_succ]
      exact h
    unfold create_tasks
    by_cases hen : (!pkg.enabled) = true
    · rw [if_pos hen]
      obtain ⟨h1, h2⟩ := ih (i + 1) tasks hp (fun t ht => Nat.lt_succ_of_lt (hlt t ht))
      refine ⟨h1, fun t ht => ?_⟩
      rcases h2 t ht with h | ⟨ha, hb, hc, hd⟩
      · exact Or.inl h
      · exact Or.inr ⟨by omega, hshift t ha hb, hc, hd⟩
    · rw [if_neg hen]
      have hen2 : pkg.enabled = true := by simpa using hen
      dsimp only
      obtain ⟨task0, htask0⟩ : ∃ task0 : CraTask,
          task0 =
            { filename := pkg.filename,
              tmpdir := env.build_filename temp_dir (cra_package_get_name pkg),
              pkg := pkg, id := i, plugins_to_run := [] } := ⟨_, rfl⟩
      have hid0 : task0.id = i := by rw [htask0]
      rw [← htask0]
      cases hpush : env.thread_pool_push task0 with
      | error msg =>
        dsimp only
        refine ⟨(hext task0 hid0).1, fun t ht => ?_⟩
        rcases List.mem_append.1 ht with h | h
        · exact Or.inl h
        · rw [List.mem_singleton] at h
          exact Or.inr (hnew t (h.trans htask0) hen2)
      | ok u =>
        dsimp only
        obtain ⟨h1, h2⟩ := ih (i + 1) (tasks ++ [task0]) (hext task0 hid0).1 (hext task0 hid0).2
        refine ⟨h1, fun t ht => ?_⟩
        rcases h2 t ht with h | ⟨ha, hb, hc, hd⟩
        · rcases List.mem_append.1 h with h | h
          · exact Or.inl h
          · rw [List.mem_singleton] at h
            exact Or.inr (hnew t (h.trans htask0) hen2)
        · exact Or.inr ⟨by omega, hshift t ha hb, hc, hd⟩

theorem scan_packages_names (env : CraMainEnv)
    (hopen : ∀ (filename : String) (header : CraPackage),
      env.package_open filename = .ok header → header.name ≠ none) :
    ∀ (files : List String) (st : ScanState), (∀ p ∈ st.ctx.packages, p.name ≠ none) →
      ∀ p ∈ (scan_packages env files st).2.ctx.packages, p.name ≠ none := by
  intro files
  induction files with
  | nil => intro st h; exact h
  | cons filename rest ih =>
    intro st h
    unfold scan_packages
    rcases hfind : cra_main_find_in_cache env.toCraEnv st.ctx filename with ⟨hit, ctx2⟩
    have hctx2 : ctx2.packages = st.ctx.packages := by
      unfold cra_main_find_in_cache at hfind
      dsimp only at hfind
      split_ifs at hfind
      · rw [← (Prod.mk.inj hfind).2]
      · rw [← (Prod.mk.inj hfind).2]
    cases hit with
    | true =>
      dsimp only
      exact ih _ (by rw [hctx2]; exact h)
    | false =>
      dsimp only
      have a3 := cra_context_add_filename_names env st filename hopen h
      rcases hadd : cra_context_add_filename env st filename with ⟨res, st2⟩
      rw [hadd] at a3
      dsimp only at a3
      cases res with
      | some msg => exact a3
      | none => exact ih st2 a3

/-- The tasks of a run are none, or those that the loop at cra-main.c:944-983
creates from the packages left in the array after the scan and after
`cra_context_disable_older_packages`. -/
theorem cra_main_tasks_inv (env : CraMainEnv) (opts : CraOptions) (filenames : List String) :
    (cra_main env opts filenames).tasks = [] ∨
    ∃ (cache extra : List CraApp) (st : ScanState),
      scan_packages env filenames
        { ctx := { env.context_new with
            add_cache_id := opts.add_cache_id || opts.old_metadata.isSome,
            old_md_cache := cache, packages := [], apps := extra },
          opened := [] } = (none, st) ∧
      (cra_main env opts filenames).tasks =
        (create_tasks env opts.temp_dir 0
          (cra_context_disable_older_packages env.package_compare st.ctx.packages) []).2 := by
  unfold cra_main
  cases env.setup with
  | error msg => exact Or.inl rfl
  | ok u =>
    dsimp only
    cases (match opts.old_metadata with
        | some file => env.store_from_file file
        | none => .ok []) with
    | error msg => exact Or.inl rfl
    | ok cache =>
      dsimp only
      cases env.extra_apps with
      | error msg => exact Or.inl rfl
      | ok extra =>
        dsimp only
        rcases hscan : scan_packages env filenames
          { ctx := { env.context_new with
              add_cache_id := opts.add_cache_id || opts.old_metadata.isSome,
              old_md_cache := cache, packages := [], apps := extra },
            opened := [] } with ⟨res, st⟩
        cases res with
        | some msg => exact Or.inl rfl
        | none =>
          dsimp only
          right
          refine ⟨cache, extra, st, hscan, ?_⟩
          rcases create_tasks env opts.temp_dir 0
            (cra_context_disable_older_packages env.package_compare st.ctx.packages) [] with
            ⟨tres, tasks⟩
          cases tres <;> rfl

/-- C22, as stated, fails: two files that open as packages without a name
are both left enabled by `cra_context_disable_older_packages`, which skips a
package whose name is `NULL` (cra-main.c:606-607), so each gets a task, and
the workspace of both is `g_build_filename (temp_dir, NULL)`, the temporary
directory itself. -/
theorem nameless_tasks_share_workspace_counterexample :
    (cra_main example_nameless_env
      { add_cache_id := false, temp_dir := "./tmp", old_metadata := none }
      ["anon-1.0-1.rpm", "anon-2.0-1.rpm"]).tasks.map (fun t => t.filename) =
      ["anon-1.0-1.rpm", "anon-2.0-1.rpm"] ∧
    (cra_main example_nameless_env
      { add_cache_id := false, temp_dir := "./tmp", old_metadata := none }
      ["anon-1.0-1.rpm", "anon-2.0-1.rpm"]).tasks.map (fun t => t.pkg.name) = [none, none] ∧
    (cra_main example_nameless_env
      { add_cache_id := false, temp_dir := "./tmp", old_metadata := none }
      ["anon-1.0-1.rpm", "anon-2.0-1.rpm"]).tasks.map (fun t => t.tmpdir) =
      ["./tmp", "./tmp"] := by
  decide

/-- C22, amended: the workspace of every task of a run is the temporary
directory joined with the name of its package, and any two tasks at
different places in the list of tasks whose packages both have a name are
for packages of different names; their workspaces are different when
`g_build_filename (temp_dir, name, NULL)` gives different paths for
different names. -/
theorem named_task_workspaces_distinct (env : CraMainEnv) (opts : CraOptions)
    (filenames : List String) (i j : Nat) (ti tj : CraTask)
    (hi : (cra_main env opts filenames).tasks[i]? = some ti)
    (hj : (cra_main env opts filenames).tasks[j]? = some tj) (hne : i ≠ j)
    (hni : cra_package_get_name ti.pkg ≠ none) (hnj : cra_package_get_name tj.pkg ≠ none) :
    ti.tmpdir = env.build_filename opts.temp_dir (cra_package_get_name ti.pkg) ∧
    tj.tmpdir = env.build_filename opts.temp_dir (cra_package_get_name tj.pkg) ∧
    cra_package_get_name ti.pkg ≠ cra_package_get_name tj.pkg ∧
    ((∀ a b : String, env.build_filename opts.temp_dir (some a) =
        env.build_filename opts.temp_dir (some b) → a = b) →
      ti.tmpdir ≠ tj.tmpdir) := by
  rcases cra_main_tasks_inv env opts filenames with h | ⟨cache, extra, st, hscan, htasks⟩
  · rw [h] at hi
    simp at hi
  · rw [htasks] at hi hj
    obtain ⟨hpair, hshape⟩ := create_tasks_shape env opts.temp_dir
      (cra_context_disable_older_packages env.package_compare st.ctx.packages) 0 []
      List.Pairwise.nil (by intro t ht; simp at ht)
    have hids : ti.id ≠ tj.id := by
      intro heq
      have hnd : ((create_tasks env opts.temp_dir 0
          (cra_context_disable_older_packages env.package_compare st.ctx.packages) []).2.filterMap
          (fun t => some t.id)).Nodup := by
        have hfun : (fun t : CraTask => some t.id) = some ∘ (fun t : CraTask => t.id) := rfl
        rw [hfun, List.filterMap_eq_map]
        exact hpair.imp (fun h => Nat.ne_of_lt h)
      exact hne (filterMap_nodup_index (fun t : CraTask => some t.id) _ i j ti tj tj.id hnd hi hj
        (congrArg some heq) rfl)
    have hti := hshape ti (List.getElem?_mem hi)
    have htj := hshape tj (List.getElem?_mem hj)
    rcases hti with hti | ⟨-, hti1, hti2, hti3⟩
    · simp at hti
    rcases htj with htj | ⟨-, htj1, htj2, htj3⟩
    · simp at htj
    obtain ⟨ki, hki⟩ := Option.ne_none_iff_exists'.1 hni
    obtain ⟨kj, hkj⟩ := Option.ne_none_iff_exists'.1 hnj
    have hkk : ki ≠ kj := by
      intro heq
      have := disable_older_enabled_names env.package_compare st.ctx.packages
        (ti.id - 0) (tj.id - 0) ti.pkg tj.pkg ki hti1 htj1 hti2 htj2 hki (by rw [heq]; exact hkj)
      omega
    refine ⟨hti3, htj3, ?_, ?_⟩
    · rw [hki, hkj]
      intro h
      exact hkk (Option.some.inj h)
    · intro hjoin
      rw [hti3, htj3, hki, hkj]
      intro h
      exact hkk (hjoin ki kj h)

theorem named_task_workspaces_distinct_witness :
    (cra_main (example_versions_env [])
      { add_cache_id := false, temp_dir := "./tmp", old_metadata := none }
      ["foo-1.0-1.rpm", "foo-2.0-1.rpm", "baz-1.0-1.rpm"]).tasks.map (fun t => t.tmpdir) =
      ["./tmp/foo", "./tmp/baz"] ∧
    (cra_main (example_versions_env [])
      { add_cache_id := false, temp_dir := "./tmp", old_metadata := none }
      ["foo-1.0-1.rpm", "foo-2.0-1.rpm", "baz-1.0-1.rpm"]).tasks.map (fun t => t.filename) =
      ["foo-2.0-1.rpm", "baz-1.0-1.rpm"] ∧
    ("./tmp/foo" : String) ≠ "./tmp/baz" :=
  have h := named_task_workspaces_distinct (example_versions_env [])
    { add_cache_id := false, temp_dir := "./tmp", old_metadata := none }
    ["foo-1.0-1.rpm", "foo-2.0-1.rpm", "baz-1.0-1.rpm"]
    0 1
    { filename := "foo-2.0-1.rpm", tmpdir := "./tmp/foo",
      pkg := { example_package "foo-2.0-1.rpm" "foo" "2.0" "1" with
        filelist := some ["/usr/share/applications/foo.desktop"] },
      id := 1, plugins_to_run := [] }
    { filename := "baz-1.0-1.rpm", tmpdir := "./tmp/baz",
      pkg := { example_package "baz-1.0-1.rpm" "baz" "1.0" "1" with
        filelist := some ["/usr/share/doc/baz/README"] },
      id := 2, plugins_to_run := [] }
    (by decide) (by decide) (by decide) (by decide) (by decide)
  ⟨by decide, by decide,
    h.2.2.2 (by
      intro a b hab
      have h2 : ("./tmp" ++ "/" ++ a).data = ("./tmp" ++ "/" ++ b).data := by
        rw [show "./tmp" ++ "/" ++ a = "./tmp" ++ "/" ++ b from hab]
      simp only [String.data_append] at h2
      exact String.ext (List.append_cancel_left h2))⟩

/-! ## The worker pool and the start of the merge -/

theorem perm_push (q r f : List Nat) (t : Nat) :
    (q ++ [t] ++ r ++ f).Perm ((q ++ r ++ f) ++ [t]) := by
  rw [← Multiset.coe_eq_coe]
  simp only [← Multiset.coe_add]
  abel

theorem perm_start (q r f : List Nat) (t : Nat) :
    (q ++ (r ++ [t]) ++ f).Perm ([t] ++ q ++ r ++ f) := by
  rw [← Multiset.coe_eq_coe]
  simp only [← Multiset.coe_add]
  abel

theorem perm_finish (q r f : List Nat) (t : Nat) (h : t ∈ r) :
    (q ++ r.erase t ++ (f ++ [t])).Perm (q ++ r ++ f) := by
  have h2 : r.Perm ([t] ++ r.erase t) := List.perm_cons_erase h
  have h3 : (q ++ r ++ f).Perm (q ++ ([t] ++ r.erase t) ++ f) :=
    (h2.append_left q).append_right f
  refine List.Perm.trans ?_ h3.symm
  rw [← Multiset.coe_eq_coe]
  simp only [← Multiset.coe_add]
  abel

theorem poolInv_init (tasks : List CraTask) :
    PoolInv (tasks.map (fun t => t.id)) (pool_init tasks) := by
  left
  refine ⟨[], tasks.map (fun t => t.id), (List.nil_append _).symm, ?_, List.Perm.refl _, rfl⟩
  simp [pool_init, main_ops, List.map_map, Function.comp_def]

theorem poolInv_step (max_threads : Nat) (ids : List Nat) (s s2 : PoolState) (e : PoolEvent)
    (inv : PoolInv ids s) (hstep : pool_step max_threads s e = some s2) : PoolInv ids s2 := by
  rcases inv with ⟨pushed, rest, hids, hops, hperm, hm⟩ | ⟨hops, hq, hr, hf, hm⟩ |
    ⟨hops, hq, hr, hf, hm⟩
  · cases e with
    | driver =>
      cases rest with
      | nil =>
        rw [List.map_nil, List.nil_append] at hops
        simp only [pool_step, hops, if_true, Bool.false_eq_true, if_false] at hstep
        by_cases hc : s.queue = [] ∧ s.running = []
        · rw [if_pos hc] at hstep
          have hs2 := Option.some.inj hstep
          subst hs2
          right; left
          refine ⟨rfl, hc.1, hc.2, ?_, hm⟩
          rw [hids, List.append_nil]
          rw [hc.1, hc.2] at hperm
          exact hperm
        · rw [if_neg hc] at hstep
          exact absurd hstep (by simp)
      | cons t rest2 =>
        rw [List.map_cons, List.cons_append] at hops
        simp only [pool_step, hops] at hstep
        have hs2 := Option.some.inj hstep
        subst hs2
        left
        refine ⟨pushed ++ [t], rest2, by rw [hids, List.append_assoc]; rfl, rfl, ?_, hm⟩
        exact (perm_push s.queue s.running s.finished t).trans (List.Perm.append_right _ hperm)
    | worker_start =>
      simp only [pool_step] at hstep
      cases hqueue : s.queue with
      | nil => rw [hqueue] at hstep; exact absurd hstep (by simp)
      | cons t q =>
        rw [hqueue] at hstep
        dsimp only at hstep
        by_cases hc : s.running.length < max_threads
        · rw [if_pos hc] at hstep
          have hs2 := Option.some.inj hstep
          subst hs2
          left
          refine ⟨pushed, rest, hids, hops, ?_, hm⟩
          rw [hqueue] at hperm
          exact (perm_start q s.running s.finished t).trans hperm
        · rw [if_neg hc] at hstep
          exact absurd hstep (by simp)
    | worker_finish t =>
      simp only [pool_step] at hstep
      by_cases hc : t ∈ s.running
      · rw [if_pos hc] at hstep
        have hs2 := Option.some.inj hstep
        subst hs2
        left
        exact ⟨pushed, rest, hids, hops,
          (perm_finish s.queue s.running s.finished t hc).trans hperm, hm⟩
      · rw [if_neg hc] at hstep
        exact absurd hstep (by simp)
  · cases e with
    | driver =>
      simp only [pool_step, hops] at hstep
      have hs2 := Option.some.inj hstep
      subst hs2
      right; right
      exact ⟨Or.inl rfl, hq, hr, hf, rfl⟩
    | worker_start =>
      simp only [pool_step, hq] at hstep
      exact absurd hstep (by simp)
    | worker_finish t =>
      simp only [pool_step, hr] at hstep
      exact absurd hstep (by simp)
  · cases e with
    | driver =>
      rcases hops with hops | hops
      · simp only [pool_step, hops] at hstep
        have hs2 := Option.some.inj hstep
        subst hs2
        right; right
        exact ⟨Or.inr rfl, hq, hr, hf, hm⟩
      · simp only [pool_step, hops] at hstep
        exact absurd hstep (by simp)
    | worker_start =>
      simp only [pool_step, hq] at hstep
      exact absurd hstep (by simp)
    | worker_finish t =>
      simp only [pool_step, hr] at hstep
      exact absurd hstep (by simp)

theorem poolInv_run (max_threads : Nat) (ids : List Nat) :
    ∀ (events : List PoolEvent) (s s2 : PoolState), PoolInv ids s →
      pool_run max_threads s events = some s2 → PoolInv ids s2 := by
  intro events
  induction events with
  | nil =>
    intro s s2 inv h
    rw [pool_run] at h
    rw [← Option.some.inj h]
    exact inv
  | cons e es ih =>
    intro s s2 inv h
    rw [pool_run] at h
    cases hstep : pool_step max_threads s e with
    | none => rw [hstep] at h; exact absurd h (by simp)
    | some s1 =>
      rw [hstep] at h
      exact ih s1 s2 (poolInv_step max_threads ids s s1 e inv hstep) h

theorem pool_run_append (max_threads : Nat) :
    ∀ (es1 es2 : List PoolEvent) (s s1 : PoolState),
      pool_run max_threads s es1 = some s1 →
      pool_run max_threads s (es1 ++ es2) = pool_run max_threads s1 es2 := by
  intro es1
  induction es1 with
  | nil =>
    intro es2 s s1 h
    rw [pool_run] at h
    rw [List.nil_append, Option.some.inj h]
  | cons e es ih =>
    intro es2 s s1 h
    rw [pool_run] at h
    rw [List.cons_append, pool_run]
    cases hstep : pool_step max_threads s e with
    | none => rw [hstep] at h; exact absurd h (by simp)
    | some s0 =>
      rw [hstep] at h
      exact ih es2 s0 s1 h

/-- The driving thread pushes the tasks one after the other when no worker
has started yet. -/
theorem pool_run_pushes (max_threads : Nat) (tail : List MainOp) :
    ∀ (ids queue : List Nat),
      pool_run max_threads
        { ops := ids.map MainOp.thread_pool_push ++ tail, queue := queue, running := [],
          finished := [], merged := none }
        (ids.map (fun _ => PoolEvent.driver)) =
      some { ops := tail, queue := queue ++ ids, running := [], finished := [],
             merged := none } := by
  intro ids
  induction ids with
  | nil => intro queue; simp [pool_run]
  | cons id rest ih =>
    intro queue
    rw [List.map_cons, List.map_cons, List.cons_append, pool_run]
    simp only [pool_step]
    rw [ih (queue ++ [id]), List.append_assoc]
    rfl

/-- With at least one thread, the workers can run the queued tasks one after
the other, each to its end. -/
theorem pool_run_works (max_threads : Nat) (hthreads : 0 < max_threads) (ops : List MainOp) :
    ∀ (queue finished : List Nat),
      pool_run max_threads
        { ops := ops, queue := queue, running := [], finished := finished, merged := none }
        (queue.flatMap (fun id => [PoolEvent.worker_start, PoolEvent.worker_finish id])) =
      some { ops := ops, queue := [], running := [], finished := finished ++ queue,
             merged := none } := by
  intro queue
  induction queue with
  | nil => intro finished; simp [pool_run]
  | cons id rest ih =>
    intro finished
    rw [List.flatMap_cons, List.cons_append, List.cons_append, List.nil_append, pool_run]
    simp only [pool_step, List.length_nil, hthreads, if_true, List.nil_append]
    rw [pool_run]
    simp only [pool_step, List.mem_singleton, if_true, List.erase_cons_head]
    rw [ih (finished ++ [id]), List.append_assoc]
    rfl

/-- C25: in every run of the driving thread of `main` and the pool, whatever
the order in which the workers start and end the tasks, when
`cra_plugin_loader_merge` has been called every task pushed had returned
before the call, none is queued or running, and no task can start or return
afterwards: `g_thread_pool_free (pool, FALSE, TRUE)` returns only when no
task is left.  With at least one thread there is such a run, and it calls the
merge. -/
theorem merge_after_all_tasks (max_threads : Nat) (tasks : List CraTask) :
    (∀ (events : List PoolEvent) (s : PoolState) (f : List Nat),
      pool_run max_threads (pool_init tasks) events = some s → s.merged = some f →
      f.Perm (tasks.map (fun t => t.id)) ∧ s.finished = f ∧ s.queue = [] ∧ s.running = [] ∧
      pool_step max_threads s PoolEvent.worker_start = none ∧
      ∀ id, pool_step max_threads s (PoolEvent.worker_finish id) = none) ∧
    (∀ (events : List PoolEvent) (s : PoolState),
      pool_run max_threads (pool_init tasks) events = some s →
      MainOp.thread_pool_free false true ∈ s.ops → s.merged = none) ∧
    (0 < max_threads → ∃ (events : List PoolEvent) (s : PoolState),
      pool_run max_threads (pool_init tasks) events = some s ∧
      s.merged = some (tasks.map (fun t => t.id))) := by
  refine ⟨?_, ?_, ?_⟩
  · intro events s f hrun hmerged
    have inv := poolInv_run max_threads (tasks.map (fun t => t.id)) events (pool_init tasks) s
      (poolInv_init tasks) hrun
    rcases inv with ⟨-, -, -, -, -, hm⟩ | ⟨-, -, -, -, hm⟩ | ⟨-, hq, hr, hf, hm⟩
    · rw [hm] at hmerged; exact absurd hmerged (by simp)
    · rw [hm] at hmerged; exact absurd hmerged (by simp)
    · rw [hm] at hmerged
      have hfin : s.finished = f := Option.some.inj hmerged
      refine ⟨hfin ▸ hf, hfin, hq, hr, ?_, ?_⟩
      · simp only [pool_step, hq]
      · intro id
        simp only [pool_step, hr]
        simp
  · intro events s hrun hmem
    have inv := poolInv_run max_threads (tasks.map (fun t => t.id)) events (pool_init tasks) s
      (poolInv_init tasks) hrun
    rcases inv with ⟨-, -, -, -, -, hm⟩ | ⟨hops, -, -, -, hm⟩ | ⟨hops, -, -, -, -⟩
    · exact hm
    · exact hm
    · rcases hops with hops | hops
      · rw [hops] at hmem
        simp at hmem
      · rw [hops] at hmem
        simp at hmem
  · intro hthreads
    have h1 := pool_run_pushes max_threads
      [MainOp.thread_pool_free false true, MainOp.plugin_loader_merge, MainOp.write_xml]
      (tasks.map (fun t => t.id)) []
    have h2 := pool_run_works max_threads hthreads
      [MainOp.thread_pool_free false true, MainOp.plugin_loader_merge, MainOp.write_xml]
      (tasks.map (fun t => t.id)) []
    have hinit : pool_init tasks =
        { ops := (tasks.map (fun t => t.id)).map MainOp.thread_pool_push ++
            [MainOp.thread_pool_free false true, MainOp.plugin_loader_merge, MainOp.write_xml],
          queue := [], running := [], finished := [], merged := none } := by
      simp [pool_init, main_ops, List.map_map, Function.comp_def]
    rw [← hinit, List.nil_append] at h1
    rw [List.nil_append] at h2
    refine ⟨(tasks.map (fun t => t.id)).map (fun _ => PoolEvent.driver) ++
      ((tasks.map (fun t => t.id)).flatMap
        (fun id => [PoolEvent.worker_start, PoolEvent.worker_finish id]) ++
      [PoolEvent.driver, PoolEvent.driver]),
      { ops := [MainOp.write_xml], queue := [], running := [],
        finished := tasks.map (fun t => t.id), merged := some (tasks.map (fun t => t.id)) },
      ?_, rfl⟩
    rw [pool_run_append max_threads _ _ _ _ h1, pool_run_append max_threads _ _ _ _ h2]
    simp only [pool_run, pool_step, if_true, Bool.false_eq_true, if_false, and_self]

theorem merge_after_all_tasks_witness :
    pool_run 2
      (pool_init [example_task ["/usr/share/fonts/vera/Vera.ttf"],
        { example_task ["/usr/share/applications/foo.desktop"] with id := 1 }])
      [PoolEvent.driver, PoolEvent.worker_start, PoolEvent.driver, PoolEvent.worker_start,
       PoolEvent.worker_finish 1, PoolEvent.driver] = none ∧
    (pool_run 2
      (pool_init [example_task ["/usr/share/fonts/vera/Vera.ttf"],
        { example_task ["/usr/share/applications/foo.desktop"] with id := 1 }])
      [PoolEvent.driver, PoolEvent.worker_start, PoolEvent.driver, PoolEvent.worker_start,
       PoolEvent.worker_finish 1, PoolEvent.worker_finish 0, PoolEvent.driver,
       PoolEvent.driver]).map (fun s => s.merged) = some (some [1, 0]) ∧
    [1, 0].Perm
      ([example_task ["/usr/share/fonts/vera/Vera.ttf"],
        { example_task ["/usr/share/applications/foo.desktop"] with id := 1 }].map
        (fun t => t.id)) :=
  ⟨by decide, by decide,
    ((merge_after_all_tasks 2
      [example_task ["/usr/share/fonts/vera/Vera.ttf"],
        { example_task ["/usr/share/applications/foo.desktop"] with id := 1 }]).1
      [PoolEvent.driver, PoolEvent.worker_start, PoolEvent.driver, PoolEvent.worker_start,
       PoolEvent.worker_finish 1, PoolEvent.worker_finish 0, PoolEvent.driver,
       PoolEvent.driver]
      { ops := [MainOp.write_xml], queue := [], running := [], finished := [1, 0],
        merged := some [1, 0] }
      [1, 0] (by decide) rfl).1⟩

/-! ## A second run over the catalog of the first -/

theorem task_record_no_veto (env : CraEnv) (ctx : CraContext) (task : CraTask) (a : CraApp)
    (h : task_record env ctx task a) : a.vetos.length = 0 := by
  obtain ⟨app, app2, -, -, hv, -, ha⟩ := h
  rw [ha]
  by_cases hc : ctx.add_cache_id = true
  · rw [if_pos hc]; exact hv
  · rw [if_neg hc]; exact hv

/-- With cache ids added, what a task appends to the result set: records
tagged with the cache id of the task's file name, none with a veto, and at
least one when the label `skip` was reached. -/
theorem cra_task_process_func_block (env : CraEnv) (ctx : CraContext) (task : CraTask)
    (hcache : ctx.add_cache_id = true) :
    ∃ added : List CraApp,
      (cra_task_process_func env ctx task).ctx_apps = ctx.apps ++ added ∧
      (∀ a ∈ added, as_app_get_metadata_item a "X-CreaterepoAsCacheID" =
        some (env.cache_id_for_filename task.filename)) ∧
      write_xml_store added = added ∧
      ((cra_task_process_func env ctx task).reached_skip = true → added ≠ []) := by
  obtain ⟨valid, hv, -, h⟩ := cra_task_process_func_records env ctx task
  refine ⟨valid ++ (if ctx.add_cache_id = true ∧ valid = [] ∧
      (cra_task_process_func env ctx task).reached_skip = true
    then [cra_task_dummy env task] else []), by rw [h, List.append_assoc], ?_, ?_, ?_⟩
  · intro a ha
    rcases List.mem_append.1 ha with ha | ha
    · exact task_record_tagged env ctx task a hcache (hv a ha)
    · split_ifs at ha
      · simp only [List.mem_singleton] at ha
        rw [ha]
        exact as_app_get_metadata_item_add _ _ _
      · simp at ha
  · unfold write_xml_store
    rw [List.filter_eq_self]
    intro a ha
    have hveto : a.vetos.length = 0 := by
      rcases List.mem_append.1 ha with ha | ha
      · exact task_record_no_veto env ctx task a (hv a ha)
      · split_ifs at ha
        · simp only [List.mem_singleton] at ha
          rw [ha]
          rfl
        · simp at ha
    simp [hveto]
  · intro hskip
    cases valid with
    | nil => simp [hcache, hskip]
    | cons a t => simp

/-- With cache ids added and every task reaching `skip`, the tasks append to
the result set one block of records each, in the order of the tasks: a block
is not empty, its records are tagged with the cache id of the task's file
name, and none has a veto. -/
theorem run_tasks_blocks (env : CraEnv) (ctx : CraContext) (hcache : ctx.add_cache_id = true) :
    ∀ (tasks : List CraTask) (apps : List CraApp),
      (∀ r ∈ run_tasks env ctx tasks apps, r.reached_skip = true) →
      ∃ blocks : List (List CraApp),
        List.Forall₂ (fun (f : String) (b : List CraApp) => b ≠ [] ∧
          (∀ a ∈ b, as_app_get_metadata_item a "X-CreaterepoAsCacheID" =
            some (env.cache_id_for_filename f)) ∧
          write_xml_store b = b) (tasks.map (fun t => t.filename)) blocks ∧
        apps_after_tasks env ctx tasks apps = apps ++ blocks.flatten := by
  intro tasks
  induction tasks with
  | nil =>
    intro apps _
    exact ⟨[], List.Forall₂.nil, by simp [apps_after_tasks, run_tasks]⟩
  | cons t rest ih =>
    intro apps hskip
    rw [run_tasks_cons] at hskip
    obtain ⟨added, h1, h2, h3, h4⟩ :=
      cra_task_process_func_block env { ctx with apps := apps } t hcache
    obtain ⟨blocks, hb, happs⟩ := ih _ (fun r hr => hskip r (List.mem_cons_of_mem _ hr))
    refine ⟨added :: blocks, ?_, ?_⟩
    · rw [List.map_cons]
      exact List.Forall₂.cons ⟨h4 (hskip _ (List.mem_cons_self _ _)), h2, h3⟩ hb
    · rw [apps_after_tasks_cons, happs, h1, List.flatten_cons, List.append_assoc]

theorem blocks_mem_tagged (cid : String → String) :
    ∀ (files : List String) (blocks : List (List CraApp)),
      List.Forall₂ (fun (f : String) (b : List CraApp) => b ≠ [] ∧
        (∀ a ∈ b, as_app_get_metadata_item a "X-CreaterepoAsCacheID" = some (cid f)) ∧
        write_xml_store b = b) files blocks →
      ∀ a ∈ blocks.flatten, ∃ f ∈ files,
        as_app_get_metadata_item a "X-CreaterepoAsCacheID" = some (cid f) := by
  intro files blocks h
  induction h with
  | nil => intro a ha; simp at ha
  | cons hfb _ ih =>
    intro a ha
    rw [List.flatten_cons] at ha
    rcases List.mem_append.1 ha with ha | ha
    · exact ⟨_, List.mem_cons_self _ _, hfb.2.1 a ha⟩
    · obtain ⟨f, hf, h⟩ := ih a ha
      exact ⟨f, List.mem_cons_of_mem _ hf, h⟩

theorem filter_tag_eq_self (l : List CraApp) (v : String)
    (h : ∀ a ∈ l, as_app_get_metadata_item a "X-CreaterepoAsCacheID" = some v) :
    as_store_get_apps_by_metadata l "X-CreaterepoAsCacheID" v = l := by
  unfold as_store_get_apps_by_metadata
  rw [List.filter_eq_self]
  intro a ha
  simp [h a ha]

theorem filter_tag_eq_nil (l : List CraApp) (v : String)
    (h : ∀ a ∈ l, as_app_get_metadata_item a "X-CreaterepoAsCacheID" ≠ some v) :
    as_store_get_apps_by_metadata l "X-CreaterepoAsCacheID" v = [] := by
  unfold as_store_get_apps_by_metadata
  rw [List.filter_eq_nil_iff]
  intro a ha
  simp [h a ha]

theorem filter_tag_append (xs ys : List CraApp) (v : String) :
    as_store_get_apps_by_metadata (xs ++ ys) "X-CreaterepoAsCacheID" v =
      as_store_get_apps_by_metadata xs "X-CreaterepoAsCacheID" v ++
        as_store_get_apps_by_metadata ys "X-CreaterepoAsCacheID" v := by
  unfold as_store_get_apps_by_metadata
  rw [List.filter_append]

/-- The records tagged with the cache id of a file, in blocks whose files
have distinct cache ids, are the block of the file. -/
theorem blocks_filter (cid : String → String) :
    ∀ (files : List String) (blocks : List (List CraApp)),
      List.Forall₂ (fun (f : String) (b : List CraApp) => b ≠ [] ∧
        (∀ a ∈ b, as_app_get_metadata_item a "X-CreaterepoAsCacheID" = some (cid f)) ∧
        write_xml_store b = b) files blocks →
      (files.map cid).Nodup →
      ∀ (pre : List CraApp),
        (∀ a ∈ pre, ∀ f ∈ files,
          as_app_get_metadata_item a "X-CreaterepoAsCacheID" ≠ some (cid f)) →
        List.Forall₂ (fun (f : String) (b : List CraApp) => b ≠ [] ∧
          as_store_get_apps_by_metadata (pre ++ blocks.flatten) "X-CreaterepoAsCacheID"
            (cid f) = b) files blocks := by
  intro files blocks h
  induction h with
  | nil => intro _ pre _; exact List.Forall₂.nil
  | @cons f b fs bs hfb hrest ih =>
    intro hnd pre hpre
    rw [List.map_cons, List.nodup_cons] at hnd
    have hne : ∀ g ∈ fs, cid g ≠ cid f := by
      intro g hg heq
      exact hnd.1 (heq ▸ List.mem_map_of_mem cid hg)
    refine List.Forall₂.cons ⟨hfb.1, ?_⟩ ?_
    · rw [List.flatten_cons, filter_tag_append, filter_tag_append,
        filter_tag_eq_nil pre _ (fun a ha => hpre a ha f (List.mem_cons_self _ _)),
        filter_tag_eq_self b _ hfb.2.1, filter_tag_eq_nil bs.flatten, List.nil_append,
        List.append_nil]
      intro a ha heq
      obtain ⟨g, hg, hag⟩ := blocks_mem_tagged cid fs bs hrest a ha
      rw [hag] at heq
      exact hne g hg (Option.some.inj heq)
    · have := ih hnd.2 (pre ++ b) (by
        intro a ha g hg
        rcases List.mem_append.1 ha with ha | ha
        · exact hpre a ha g (List.mem_cons_of_mem _ hg)
        · rw [hfb.2.1 a ha]
          intro heq
          exact hne g hg (Option.some.inj heq).symm)
      rw [List.flatten_cons, ← List.append_assoc]
      exact this

theorem write_xml_store_append (xs ys : List CraApp) :
    write_xml_store (xs ++ ys) = write_xml_store xs ++ write_xml_store ys := by
  unfold write_xml_store
  rw [List.filter_append]

theorem write_xml_store_blocks (cid : String → String) :
    ∀ (files : List String) (blocks : List (List CraApp)),
      List.Forall₂ (fun (f : String) (b : List CraApp) => b ≠ [] ∧
        (∀ a ∈ b, as_app_get_metadata_item a "X-CreaterepoAsCacheID" = some (cid f)) ∧
        write_xml_store b = b) files blocks →
      write_xml_store blocks.flatten = blocks.flatten := by
  intro files blocks h
  induction h with
  | nil => rfl
  | cons hfb _ ih => rw [List.flatten_cons, write_xml_store_append, hfb.2.2, ih]

theorem process_app_prefix (env : CraEnv) (ctx : CraContext) (task : CraTask) (app : CraApp)
    (A : List CraApp) (st1 st2 : AppsState) (hnr : st1.nr_added = st2.nr_added)
    (happs : st1.ctx_apps = A ++ st2.ctx_apps) :
    (process_app env { ctx with apps := A } task app st1).1 =
      (process_app env ctx task app st2).1 ∧
    (process_app env { ctx with apps := A } task app st1).2.nr_added =
      (process_app env ctx task app st2).2.nr_added ∧
    (process_app env { ctx with apps := A } task app st1).2.ctx_apps =
      A ++ (process_app env ctx task app st2).2.ctx_apps := by
  unfold process_app
  by_cases h1 : app.id_full = none
  · rw [if_pos h1, if_pos h1]
    exact ⟨rfl, hnr, happs⟩
  · rw [if_neg h1, if_neg h1]
    dsimp only
    by_cases h2 : (cra_glob_value_search env.fnmatch ctx.blacklisted_ids
        (env.app_get_id app)).isSome = true
    · rw [if_pos h2, if_pos h2]
      exact ⟨rfl, hnr, happs⟩
    · rw [if_neg h2, if_neg h2]
      cases env.plugin_loader_process_app task.pkg (copy_package_data env task app)
          task.tmpdir with
      | error msg => exact ⟨rfl, hnr, happs⟩
      | ok app2 =>
        dsimp only
        by_cases h3 : (add_missing_vetos app2).vetos.length > 0 ∨
            (add_missing_vetos app2).requires_appdata.length > 0
        · rw [if_pos h3, if_pos h3]
          exact ⟨rfl, hnr, happs⟩
        · rw [if_neg h3, if_neg h3]
          cases env.app_save_resources (add_missing_vetos app2) with
          | error msg => exact ⟨rfl, hnr, happs⟩
          | ok u =>
            dsimp only
            refine ⟨rfl, by rw [hnr], ?_⟩
            rw [happs]
            unfold cra_context_add_app
            rw [List.append_assoc]

theorem process_apps_prefix (env : CraEnv) (ctx : CraContext) (task : CraTask)
    (A : List CraApp) :
    ∀ (apps : List CraApp) (st1 st2 : AppsState), st1.nr_added = st2.nr_added →
      st1.ctx_apps = A ++ st2.ctx_apps →
      (process_apps env { ctx with apps := A } task apps st1).nr_added =
        (process_apps env ctx task apps st2).nr_added ∧
      (process_apps env { ctx with apps := A } task apps st1).ctx_apps =
        A ++ (process_apps env ctx task apps st2).ctx_apps := by
  intro apps
  induction apps with
  | nil => intro st1 st2 hnr happs; exact ⟨hnr, happs⟩
  | cons app rest ih =>
    intro st1 st2 hnr happs
    obtain ⟨hc, h1, h2⟩ := process_app_prefix env ctx task app A st1 st2 hnr happs
    rw [process_apps, process_apps]
    rcases hp1 : process_app env { ctx with apps := A } task app st1 with ⟨c1, s1⟩
    rcases hp2 : process_app env ctx task app st2 with ⟨c2, s2⟩
    rw [hp1, hp2] at hc h1 h2
    dsimp only at hc h1 h2
    subst hc
    cases c1 with
    | next => exact ih s1 s2 h1 h2
    | skip => exact ⟨h1, h2⟩

theorem explode_extra_loop_apps (env : CraEnv) (ctx : CraContext) (task : CraTask)
    (A B : List CraApp) :
    ∀ (names : List String) (acc : ExplodeExtra),
      explode_extra_loop env { ctx with apps := A } task names acc =
        explode_extra_loop env { ctx with apps := B } task names acc := by
  intro names
  induction names with
  | nil => intro acc; rfl
  | cons n rest ih =>
    intro acc
    have hpkg : cra_context_explode_extra_package env { ctx with apps := A } task n =
        cra_context_explode_extra_package env { ctx with apps := B } task n := rfl
    rw [explode_extra_loop, explode_extra_loop, hpkg]
    split_ifs
    · exact ih _
    · rfl

theorem cra_context_explode_extra_packages_apps (env : CraEnv) (ctx : CraContext)
    (task : CraTask) (A B : List CraApp) :
    cra_context_explode_extra_packages env { ctx with apps := A } task =
      cra_context_explode_extra_packages env { ctx with apps := B } task := by
  unfold cra_context_explode_extra_packages
  have hnames : extra_package_names env { ctx with apps := A } task =
      extra_package_names env { ctx with apps := B } task := rfl
  rw [hnames]
  exact explode_extra_loop_apps env ctx task A B _ _

theorem run_plugins_apps (env : CraEnv) (ctx : CraContext) (task : CraTask)
    (A B : List CraApp) (plugins_to_run : List Nat) :
    run_plugins env { ctx with apps := A } task plugins_to_run =
      run_plugins env { ctx with apps := B } task plugins_to_run := by
  unfold run_plugins
  have hstep : run_plugin env { ctx with apps := A } task =
      run_plugin env { ctx with apps := B } task := by
    funext acc plugin
    rfl
  rw [hstep]

/-- A task appends the same records whatever the result set holds when it
runs: the result set it leaves is the one it found followed by what it
leaves from the empty result set.  So the result set of the tasks holds the
same records, each as often, whatever the order in which the workers of the
pool add them. -/
theorem cra_task_process_func_prefix (env : CraEnv) (ctx : CraContext) (task : CraTask)
    (A : List CraApp) :
    (cra_task_process_func env { ctx with apps := A } task).ctx_apps =
      A ++ (cra_task_process_func env { ctx with apps := [] } task).ctx_apps := by
  have hfin : ∀ (ptr : List Nat) (expl : List (CraPackage × String)) (st1 st2 : AppsState),
      st1.nr_added = st2.nr_added → st1.ctx_apps = A ++ st2.ctx_apps →
      (cra_task_finish env { ctx with apps := A } task ptr expl st1).ctx_apps =
        A ++ (cra_task_finish env { ctx with apps := [] } task ptr expl st2).ctx_apps := by
    intro ptr expl st1 st2 hnr happs
    rw [(cra_task_finish_ctx_apps env _ task ptr expl st1).1,
      (cra_task_finish_ctx_apps env _ task ptr expl st2).1]
    dsimp only
    rw [hnr, happs]
    by_cases hc : ctx.add_cache_id = true ∧ st2.nr_added = 0
    · rw [if_pos hc, if_pos hc]
      unfold cra_context_add_app
      rw [List.append_assoc]
    · rw [if_neg hc, if_neg hc]
  unfold cra_task_process_func
  dsimp only
  by_cases h0 : (cra_task_add_suitable_plugins env.fnmatch ctx.plugins task.pkg.filelist
      task.plugins_to_run).length = 0
  · rw [if_pos h0, if_pos h0, List.append_nil]
  · rw [if_neg h0, if_neg h0]
    cases env.ensure_exists_and_empty task.tmpdir with
    | error msg => dsimp only; rw [List.append_nil]
    | ok u =>
      dsimp only
      cases env.package_explode task.pkg task.tmpdir with
      | error msg =>
        dsimp only
        exact hfin _ _ _ _ rfl (List.append_nil A).symm
      | ok u2 =>
        dsimp only
        rw [cra_context_explode_extra_packages_apps env ctx task A [],
          run_plugins_apps env ctx task A []]
        by_cases hret : (!(cra_context_explode_extra_packages env { ctx with apps := [] }
            task).ret) = true
        · rw [if_pos hret, if_pos hret]
          exact hfin _ _ _ _ rfl (List.append_nil A).symm
        · rw [if_neg hret, if_neg hret]
          have hp := process_apps_prefix env { ctx with apps := [] } task A
            (run_plugins env { ctx with apps := [] } task
              (cra_task_add_suitable_plugins env.fnmatch ctx.plugins task.pkg.filelist
                task.plugins_to_run)).apps
            { ctx_apps := A, nr_added := 0,
              log := [(CraPackageLogLevel.debug,
                  "Getting filename match for " ++ env.path_get_basename task.filename)] ++
                [(CraPackageLogLevel.debug,
                  "Exploding tree for " ++ name_str (cra_package_get_name task.pkg))] ++
                (cra_context_explode_extra_packages env { ctx with apps := [] } task).log ++
                (run_plugins env { ctx with apps := [] } task
                  (cra_task_add_suitable_plugins env.fnmatch ctx.plugins task.pkg.filelist
                    task.plugins_to_run)).log,
              visited := [] }
            { ctx_apps := [], nr_added := 0,
              log := [(CraPackageLogLevel.debug,
                  "Getting filename match for " ++ env.path_get_basename task.filename)] ++
                [(CraPackageLogLevel.debug,
                  "Exploding tree for " ++ name_str (cra_package_get_name task.pkg))] ++
                (cra_context_explode_extra_packages env { ctx with apps := [] } task).log ++
                (run_plugins env { ctx with apps := [] } task
                  (cra_task_add_suitable_plugins env.fnmatch ctx.plugins task.pkg.filelist
                    task.plugins_to_run)).log,
              visited := [] }
            rfl (List.append_nil A).symm
          exact hfin _ _ _ _ hp.1 hp.2


end Createrepo
